import Mathlib

/-!
# Resolver registry and dispatcher of dnscrypt-proxy (`serversInfo.go`)

A shallow embedding of the registry (`ServersInfo`), of its three verbs
`registerServer`, `refresh` / `refreshServer` and `getOne`, of the latency
estimator, of the per-query feedback hooks and of the probes (`route`,
`fetchDNSCryptServerInfo`, `fetchDoHServerInfo`), followed by theorems about them.

Modelling conventions.

* A Go slice is a `List`; `[]*ServerInfo` is a list of values, because no two
  slots of `inner` ever hold the same pointer.
* Go's `int` is the 64-bit two's-complement integer: values are `Int`, and the
  one addition of the file whose operand is a stored field (`prevCandidate + 1`)
  wraps through `wrapInt`.  Lengths of slices are non-negative `Int`s.
* `float64` is idealised as `ℚ`: comparisons, halving and doubling are as in the
  code, while the one rounded computation of the file, the weighted sum inside
  `MovingAverage.Add`, is exact here.
* A Go `error` is `Option String` (`none` is `nil`).
* The outcome of a call is a `Res`: it returns (`ok`), or it stops with a
  run-time panic, with the process exit of `dlog.Fatalf`, or because the model
  ran out of fuel in the one unbounded loop of the file.
* The network, the clock, the random generator and the order in which Go ranges
  over a map are inputs of the functions that consult them.
-/

namespace DnscryptProxy

/-! ## Outcomes -/

/-- Why a call did not return. -/
inductive Stop where
  /-- Go panics with `runtime error: index out of range`. -/
  | indexOutOfRange
  /-- Go panics with `runtime error: invalid memory address or nil pointer dereference`. -/
  | nilDereference
  /-- Go panics with `invalid argument to Intn` (`rand.Intn n` with `n <= 0`). -/
  | invalidArgument
  /-- Go panics with `runtime error: integer divide by zero`. -/
  | divideByZero
  /-- The process was ended by `dlog.Fatalf`. -/
  | fatal
  /-- The loop was still running when the fuel of the model was used up. -/
  | outOfFuel
  deriving DecidableEq

/-- Outcome of a call: a returned value, or the reason there is none. -/
inductive Res (α : Type) where
  | ok (a : α)
  | stop (why : Stop)
  deriving DecidableEq

/-! ## Data model -/

/-- Protocol tag of a stamp (`stamps.StampProtoType`). -/
inductive StampProtoType where
  | Plain
  | DNSCrypt
  | DoH
  | TLS
  | DNSCryptRelay
  deriving DecidableEq

/-- The fields of `stamps.ServerStamp` that the file reads. Bytes are `Nat`s below 256. -/
structure ServerStamp where
  ServerAddrStr : String
  ServerPk : List Nat
  Hashes : List (List Nat)
  ProviderName : String
  Path : String
  Proto : StampProtoType
  deriving DecidableEq

/-- Go: `type RegisteredServer struct`. -/
structure RegisteredServer where
  name : String
  stamp : ServerStamp
  description : String
  deriving DecidableEq

/-- Go: `type ServerBugs struct`. -/
structure ServerBugs where
  fragmentsBlocked : Bool
  deriving DecidableEq

/-- Go: `type DOHClientCreds struct`. -/
structure DOHClientCreds where
  clientCert : String
  clientKey : String
  rootCA : String
  deriving DecidableEq

/-- A `net.IP`: `none` is the nil slice, `some bs` a slice of bytes. -/
abbrev NetIP := Option (List Nat)

/-- A `net.UDPAddr`. -/
structure NetUDPAddr where
  IP : NetIP
  Port : Int
  Zone : String
  deriving DecidableEq

/-- A `net.TCPAddr`. -/
structure NetTCPAddr where
  IP : NetIP
  Port : Int
  Zone : String
  deriving DecidableEq

/-! ### The moving average (`github.com/VividCortex/ewma`)

`ewma.NewMovingAverage(RTTEwmaDecay)` is called with `10.0`, which is not the
library's default age of 30, so it returns a `VariableEWMA`. -/

/-- Go: `const RTTEwmaDecay = 10.0`. -/
def RTTEwmaDecay : ℚ := 10

/-- The library's `WARMUP_SAMPLES`. -/
def WARMUP_SAMPLES : Nat := 10

/-- The library's `VariableEWMA`: the value behind the `ewma.MovingAverage` interface. -/
structure MovingAverage where
  decay : ℚ
  value : ℚ
  count : Nat
  deriving DecidableEq

/-- Go: `ewma.NewMovingAverage(age)` for an age other than the default. -/
def NewMovingAverage (age : ℚ) : MovingAverage :=
  { decay := 2 / (age + 1), value := 0, count := 0 }

/-- Go: `(*VariableEWMA).Add`. The arithmetic is exact here, where the library rounds
each operation to `float64`: a folded value of this model is the exact weighted sum, of
which the code holds the rounding. The theorems about the estimator step do not
evaluate the fold; they hold for whatever values the averages hold. -/
def MovingAverage.Add (e : MovingAverage) (x : ℚ) : MovingAverage :=
  if e.count < WARMUP_SAMPLES then
    { e with count := e.count + 1, value := e.value + x }
  else if e.count = WARMUP_SAMPLES then
    { e with count := e.count + 1,
             value := x * e.decay + (e.value / (WARMUP_SAMPLES : ℚ)) * (1 - e.decay) }
  else
    { e with value := x * e.decay + e.value * (1 - e.decay) }

/-- Go: `(*VariableEWMA).Value`. -/
def MovingAverage.Value (e : MovingAverage) : ℚ :=
  if e.count ≤ WARMUP_SAMPLES then 0 else e.value

/-- Go: `(*VariableEWMA).Set`. -/
def MovingAverage.Set (e : MovingAverage) (x : ℚ) : MovingAverage :=
  { e with value := x,
           count := if e.count ≤ WARMUP_SAMPLES then WARMUP_SAMPLES + 1 else e.count }

/-- Go: `type ServerInfo struct`. Durations and instants are in nanoseconds. -/
structure ServerInfo where
  Proto : StampProtoType
  MagicQuery : List Nat
  ServerPk : List Nat
  SharedKey : List Nat
  CryptoConstruction : Nat
  Name : String
  Timeout : Int
  URL : Option String
  HostName : String
  UDPAddr : Option NetUDPAddr
  TCPAddr : Option NetTCPAddr
  RelayUDPAddr : Option NetUDPAddr
  RelayTCPAddr : Option NetTCPAddr
  knownBugs : ServerBugs
  lastActionTS : Int
  rtt : MovingAverage
  initialRtt : Int
  useGet : Bool
  DOHClientCreds : DOHClientCreds
  deriving DecidableEq

/-- Go: `type LBStrategy interface` with its eight implementations. -/
inductive LBStrategy where
  | P2
  | PN (n : Int)
  | PH
  | First
  | Random
  | RR
  | Hash
  | LocationAvoidant
  deriving DecidableEq

/-- Go: `type ServersInfo struct` (the mutex aside). -/
structure ServersInfo where
  inner : List ServerInfo
  registeredServers : List RegisteredServer
  lbStrategy : LBStrategy
  lbStrategyStr : String
  lbEstimator : Bool
  prevCandidate : Int
  deriving DecidableEq

/-- Go: `var DefaultLBStrategy = LBStrategyP2{}`. -/
def DefaultLBStrategy : LBStrategy := LBStrategy.P2

/-- Go: `func NewServersInfo() ServersInfo`. -/
def NewServersInfo : ServersInfo :=
  { inner := [], registeredServers := [], lbStrategy := DefaultLBStrategy,
    lbStrategyStr := "", lbEstimator := true, prevCandidate := 0 }

/-! ## Scanning a slice -/

/-- Index of the first element that satisfies `p`: the position at which a loop
`for i, x := range xs { if p x { ...; break } }` stops, `none` when it runs to the end. -/
def firstIndex {α : Type} (p : α → Bool) : List α → Option Nat
  | [] => none
  | x :: xs => if p x then some 0 else (firstIndex p xs).map (fun i => i + 1)

/-! ## `registerServer` -/

/-- Go: `func (serversInfo *ServersInfo) registerServer(name string, stamp stamps.ServerStamp)`. -/
def registerServer (s : ServersInfo) (name : String) (stamp : ServerStamp) : ServersInfo :=
  let newRegisteredServer : RegisteredServer := { name := name, stamp := stamp, description := "" }
  match firstIndex (fun oldRegisteredServer => oldRegisteredServer.name == name)
      s.registeredServers with
  | some i => { s with registeredServers := s.registeredServers.set i newRegisteredServer }
  | none => { s with registeredServers := s.registeredServers ++ [newRegisteredServer] }

/-- A sequence of `registerServer` calls, made in order. -/
def registerAll (s : ServersInfo) (calls : List (String × ServerStamp)) : ServersInfo :=
  calls.foldl (fun t c => registerServer t c.1 c.2) s

/-- The distinct names of a sequence, each once, in order of first occurrence. -/
def firstOccurrences : List String → List String
  | [] => []
  | a :: l => a :: (firstOccurrences l).filter (fun b => b != a)

/-- The stamp of the last call of the sequence made with `name`. -/
def lastStamp (calls : List (String × ServerStamp)) (name : String) : Option ServerStamp :=
  (calls.reverse.find? (fun c => c.1 == name)).map (fun c => c.2)

/-- The names of the registered servers, in order. -/
def registeredNames (s : ServersInfo) : List String :=
  s.registeredServers.map (fun r => r.name)

/-! ## `refreshServer` and `refresh` -/

/-- The behaviour of one call `fetchServerInfo(proxy, name, stamp, isNew)`: the
probe of the network either fails with an error or yields a `ServerInfo`. -/
abbrev Probe := String → ServerStamp → Bool → Except String ServerInfo

/-- The first loop of `refreshServer`: `isNew` stays `true` unless a live server has
the name. -/
def isNewServer (s : ServersInfo) (name : String) : Bool :=
  !(s.inner.any (fun oldServer => oldServer.Name == name))

/-- The two statements `newServer.rtt = ewma.NewMovingAverage(RTTEwmaDecay)` and
`newServer.rtt.Set(float64(newServer.initialRtt))` of `refreshServer`. -/
def seedRtt (newServer : ServerInfo) : ServerInfo :=
  { newServer with rtt := (NewMovingAverage RTTEwmaDecay).Set (newServer.initialRtt : ℚ) }

/-- Go: `func (serversInfo *ServersInfo) refreshServer(proxy, name, stamp) error`. The
result holds the registry after the call and the returned error. -/
def refreshServer (fetchServerInfo : Probe) (s : ServersInfo) (name : String)
    (stamp : ServerStamp) : Res (ServersInfo × Option String) :=
  match fetchServerInfo name stamp (isNewServer s name) with
  | .error err => .ok (s, some err)
  | .ok fetched =>
    if name ≠ fetched.Name then .stop .fatal
    else
      let newServer := seedRtt fetched
      match firstIndex (fun oldServer => oldServer.Name == name) s.inner with
      | some i => .ok ({ s with inner := s.inner.set i newServer }, none)
      | none =>
        .ok ({ s with
                inner := s.inner ++ [newServer],
                registeredServers :=
                  s.registeredServers ++ [{ name := name, stamp := stamp, description := "" }] },
             none)

/-- Go's `<` on strings. Go compares the bytes; on UTF-8 text that is the order of the
code points, so the comparison is the lexicographic one of the character lists, which
is also the order `<` of `String`. -/
def stringLess (a b : String) : Bool := decide (a.data < b.data)

/-- The order `sort.SliceStable` is asked to establish in `refresh`: `a` may stay
before `b` unless `less(b, a)`, where `less` compares the names. -/
def nameOrder (a b : ServerInfo) : Prop := stringLess b.Name a.Name = false

instance : DecidableRel nameOrder := fun a b =>
  inferInstanceAs (Decidable (stringLess b.Name a.Name = false))

/-- Go: `sort.SliceStable(serversInfo.inner, func(i, j) bool { return inner[i].Name < inner[j].Name })`:
a stable sort, here by insertion. -/
def sortByName (inner : List ServerInfo) : List ServerInfo :=
  inner.insertionSort nameOrder

/-- The loop of `refresh` over the snapshot of the registered servers: `i` numbers
the probes of the pass, `liveServers` and `err` are the loop's two variables. -/
def refreshLoop (probes : Nat → Probe) :
    Nat → List RegisteredServer → ServersInfo → Int → Option String →
      Res (ServersInfo × Int × Option String)
  | _, [], s, liveServers, err => .ok (s, liveServers, err)
  | i, registeredServer :: rest, s, liveServers, _ =>
    match refreshServer (probes i) s registeredServer.name registeredServer.stamp with
    | .stop why => .stop why
    | .ok (s1, err1) =>
      refreshLoop probes (i + 1) rest s1
        (if err1 = none then liveServers + 1 else liveServers) err1

/-- Go: `func (serversInfo *ServersInfo) refresh(proxy *Proxy) (int, error)`. -/
def refresh (probes : Nat → Probe) (s : ServersInfo) : Res (ServersInfo × Int × Option String) :=
  match refreshLoop probes 0 s.registeredServers s 0 none with
  | .stop why => .stop why
  | .ok (s1, liveServers, err) => .ok ({ s1 with inner := sortByName s1.inner }, liveServers, err)

/-! ## Integers, the random generator and the repository's helpers -/

/-- The value a Go `int` (64 bits, two's complement) holds after an arithmetic
operation whose exact result is `x`. -/
def wrapInt (x : Int) : Int := (x + 2 ^ 63) % 2 ^ 64 - 2 ^ 63

/-- The random generator: `g k` is the raw outcome behind the `k`-th coming call of
`rand.Intn`. -/
abbrev Rng := Nat → Nat

/-- Go: `rand.Intn(n)`: panics for `n <= 0`, otherwise draws from `[0, n)` and
advances the generator. -/
def randIntn (g : Rng) (n : Int) : Res (Int × Rng) :=
  if n ≤ 0 then .stop .invalidArgument else .ok ((g 0 : Int) % n, fun k => g (k + 1))

/-- Modelled from the spec: `Min` is a helper of the repository that is declared
outside `serversInfo.go`; the spec's policy table writes it `min`. -/
def Min (a b : Int) : Int := if a < b then a else b

/-- Modelled from the spec: `Max` is a helper of the repository that is declared
outside `serversInfo.go`; the spec's policy table writes it `max`. -/
def Max (a b : Int) : Int := if a > b then a else b

/-- Modelled from the spec: `MinF` is a helper of the repository that is declared
outside `serversInfo.go`; the spec's estimator step writes it `min`. -/
def MinF (a b : ℚ) : ℚ := if a < b then a else b

/-- Modelled from the spec: `MaxF` is a helper of the repository that is declared
outside `serversInfo.go`; the spec's estimator step writes it `max`. -/
def MaxF (a b : ℚ) : ℚ := if a > b then a else b

/-- Go: `inner[i]` for an `int` index: the element, or the index panic. -/
def index {α : Type} (l : List α) (i : Int) : Res α :=
  if i < 0 then .stop .indexOutOfRange
  else
    match l[i.toNat]? with
    | some a => .ok a
    | none => .stop .indexOutOfRange

/-- Go: `l[i], l[j] = l[j], l[i]` for indices inside the slice. -/
def swap {α : Type} (l : List α) (i j : Nat) : List α :=
  match l[i]?, l[j]? with
  | some a, some b => (l.set i b).set j a
  | _, _ => l

/-! ## Selection strategies -/

/-- Go: the `getCandidate(serversCount int) int` method of each strategy. -/
def LBStrategy.getCandidate (strategy : LBStrategy) (serversCount : Int) (g : Rng) :
    Res (Int × Rng) :=
  match strategy with
  | .P2 => randIntn g (Min serversCount 2)
  | .PN n => randIntn g (Min serversCount n)
  | .PH => randIntn g (Max (Min serversCount 2) (Int.tdiv serversCount 2))
  | .First => .ok (0, g)
  | .Random => randIntn g serversCount
  | .RR => .ok (0, g)
  | .Hash => .ok (0, g)
  | .LocationAvoidant => .ok (0, g)

/-! ## The latency estimator -/

/-- The pass `for i := 1; i < serversCount; i++` of `estimatorUpdate`, seen from the
element `cur` that stands at `inner[i-1]` when the step for `i` begins: it is swapped
with `inner[i]` when its value is larger. -/
def bubbleFrom (cur : ServerInfo) : List ServerInfo → List ServerInfo
  | [] => [cur]
  | next :: rest =>
    if cur.rtt.Value > next.rtt.Value then next :: bubbleFrom cur rest
    else cur :: bubbleFrom next rest

/-- The single pass of adjacent swaps at the end of `estimatorUpdate`. -/
def bubblePass : List ServerInfo → List ServerInfo
  | [] => []
  | first :: rest => bubbleFrom first rest

/-- Go: `func (serversInfo *ServersInfo) estimatorUpdate()`; `now` is the reading of the
clock behind `time.Since`. -/
def estimatorUpdate (s : ServersInfo) (now : Int) (g : Rng) : Res (ServersInfo × Rng) :=
  match randIntn g (s.inner.length : Int) with
  | .stop why => .stop why
  | .ok (candidate, g1) =>
    if candidate = 0 then .ok (s, g1)
    else
      match index s.inner candidate, index s.inner 0 with
      | .stop why, _ => .stop why
      | .ok _, .stop why => .stop why
      | .ok cand, .ok best =>
        let candidateRtt := cand.rtt.Value
        let seeded : Bool := decide (best.rtt.Value < 0)
        let currentBestRtt := if seeded then candidateRtt else best.rtt.Value
        let inner1 :=
          if seeded then s.inner.set 0 { best with rtt := best.rtt.Set candidateRtt }
          else s.inner
        let promoted : Bool := decide (candidateRtt < currentBestRtt)
        let rehabilitated : Bool :=
          !promoted && decide (candidateRtt > 0 ∧ candidateRtt ≥ currentBestRtt * 4) &&
            decide (now - cand.lastActionTS > 60000000000)
        let inner2 :=
          if promoted then swap inner1 candidate.toNat 0
          else if rehabilitated then
            inner1.set candidate.toNat
              { cand with
                rtt := cand.rtt.Add
                  (MinF (MaxF (candidateRtt / 2) (currentBestRtt * 2)) candidateRtt) }
          else inner1
        let partialSort := promoted || rehabilitated
        .ok ({ s with inner := if partialSort then bubblePass inner2 else inner2 }, g1)

/-! ## The second-level domain and its hash -/

/-- The bytes of a Go string (its UTF-8 encoding). -/
def stringBytes (str : String) : List Nat :=
  str.data.flatMap (fun c => (String.utf8EncodeChar c).map UInt8.toNat)

/-- Go: `fnv.New32a()`, `Write`, `Sum32`: the 32-bit FNV-1a hash of a byte sequence. -/
def fnv32a (bytes : List Nat) : Nat :=
  bytes.foldl (fun h b => ((h ^^^ b) * 16777619) % 4294967296) 2166136261

/-- What `getOne` and the probes take from outside the file: the DNS codec's
`dns.SplitDomainName`, `net.ParseIP`, and, for the `p`-th time the selection loop
ranges over the `denylist` map, the order `denylistRange p` in which Go visits its
countries, their addresses and the metadata of each address. -/
structure Env where
  SplitDomainName : String → List String
  ParseIP : String → NetIP
  denylistRange : Nat → List (String × List (String × List String))

/-- Go: `func parseSLD(qName string) (string, error)`. -/
def parseSLD (env : Env) (qName : String) : Except String String :=
  let labels := env.SplitDomainName qName
  if labels.length < 2 then
    .error ("Couldn't parse second-level domain for " ++ qName ++ ": not enough labels")
  else
    .ok (labels.getD (labels.length - 2) "" ++ "." ++ labels.getD (labels.length - 1) "")

/-! ## `getOne` -/

/-- The variables of the location-avoidant loop of `getOne`: the current candidate,
the entry it designates, `changed_flag`, and the generator. -/
structure LaState where
  candidate : Int
  serverInfo : ServerInfo
  changed : Bool
  g : Rng

/-- The innermost loop, `for key, val := range v`, over the addresses of one country:
on the first address equal to the candidate's TCP address it draws a new candidate
and breaks. -/
def laAddresses (env : Env) (s : ServersInfo) (serversCount : Int) :
    List (String × List String) → LaState → Res LaState
  | [], st => .ok st
  | (key, _) :: rest, st =>
    match st.serverInfo.TCPAddr with
    | none => .stop .nilDereference
    | some tcpAddr =>
      if tcpAddr.IP = env.ParseIP key then
        match s.lbStrategy.getCandidate serversCount st.g with
        | .stop why => .stop why
        | .ok (candidate, g1) =>
          match index s.inner candidate with
          | .stop why => .stop why
          | .ok serverInfo =>
            .ok { candidate := candidate, serverInfo := serverInfo, changed := true, g := g1 }
      else laAddresses env s serversCount rest st

/-- The loop `for k, v := range denylist` over the countries: one pass over the table. -/
def laCountries (env : Env) (s : ServersInfo) (serversCount : Int) :
    List (String × List (String × List String)) → LaState → Res LaState
  | [], st => .ok st
  | (_, v) :: rest, st =>
    match laAddresses env s serversCount v st with
    | .stop why => .stop why
    | .ok st1 => laCountries env s serversCount rest st1

/-- The loop `for la_flag != 1`: passes over the table until one pass changes
nothing. The loop has no bound of its own; the model gives it `fuel` passes. -/
def laLoop (env : Env) (s : ServersInfo) (serversCount : Int) :
    Nat → Nat → LaState → Res LaState
  | 0, _, _ => .stop .outOfFuel
  | fuel + 1, pass, st =>
    match laCountries env s serversCount (env.denylistRange pass) { st with changed := false } with
    | .stop why => .stop why
    | .ok st1 =>
      if st1.changed then laLoop env s serversCount fuel (pass + 1) st1 else .ok st1

/-- The `switch serversInfo.lbStrategyStr` of `getOne`: the candidate it assigns, or
`none` when the `hash` case returns `nil` for want of a second-level domain. -/
def switchCandidate (env : Env) (s : ServersInfo) (serversCount : Int) (qName : String)
    (g : Rng) : Res (Option Int × Rng) :=
  if s.lbStrategyStr = "rr" then
    .ok (some (Int.tmod (wrapInt (s.prevCandidate + 1)) serversCount), g)
  else if s.lbStrategyStr = "hash" then
    match parseSLD env qName with
    | .error _ => .ok (none, g)
    | .ok sld =>
      let idx := fnv32a (stringBytes sld)
      let count32 := serversCount % 4294967296
      if count32 = 0 then .stop .divideByZero
      else .ok (some ((idx : Int) % count32), g)
  else
    match s.lbStrategy.getCandidate serversCount g with
    | .stop why => .stop why
    | .ok (candidate, g1) => .ok (some candidate, g1)

/-- The block `if serversInfo.lbStrategyStr == "la"` of `getOne`. -/
def locationAvoidant (env : Env) (fuel : Nat) (s : ServersInfo) (serversCount : Int)
    (candidate : Int) (g : Rng) : Res (Int × Rng) :=
  if s.lbStrategyStr = "la" then
    match s.lbStrategy.getCandidate serversCount g with
    | .stop why => .stop why
    | .ok (candidate1, g1) =>
      match index s.inner candidate1 with
      | .stop why => .stop why
      | .ok serverInfo =>
        match laLoop env s serversCount fuel 0
            { candidate := candidate1, serverInfo := serverInfo, changed := false, g := g1 } with
        | .stop why => .stop why
        | .ok st => .ok (st.candidate, st.g)
  else .ok (candidate, g)

/-- Go: `func (serversInfo *ServersInfo) getOne(qName string) *ServerInfo`. The result
holds the registry after the call, the returned entry (`none` is `nil`) and the
generator after the call. -/
def getOne (env : Env) (fuel : Nat) (s : ServersInfo) (qName : String) (now : Int) (g : Rng) :
    Res (ServersInfo × Option ServerInfo × Rng) :=
  let serversCount : Int := s.inner.length
  if serversCount ≤ 0 then .ok (s, none, g)
  else
    match (if s.lbEstimator then estimatorUpdate s now g else .ok (s, g)) with
    | .stop why => .stop why
    | .ok (s1, g1) =>
      match switchCandidate env s1 serversCount qName g1 with
      | .stop why => .stop why
      | .ok (none, g2) => .ok (s1, none, g2)
      | .ok (some candidate, g2) =>
        match locationAvoidant env fuel s1 serversCount candidate g2 with
        | .stop why => .stop why
        | .ok (candidate1, g3) =>
          match index s1.inner candidate1 with
          | .stop why => .stop why
          | .ok serverInfo => .ok ({ s1 with prevCandidate := candidate1 }, some serverInfo, g3)

/-! ## Per-query feedback -/

/-- Go: `func (serverInfo *ServerInfo) noticeFailure(proxy *Proxy)`; `timeout` is
`proxy.timeout`. -/
def ServerInfo.noticeFailure (e : ServerInfo) (timeout : Int) : ServerInfo :=
  { e with rtt := e.rtt.Add ((Int.tdiv timeout 1000000 : Int) : ℚ) }

/-- Go: `func (serverInfo *ServerInfo) noticeBegin(proxy *Proxy)`; `now` is `time.Now()`. -/
def ServerInfo.noticeBegin (e : ServerInfo) (now : Int) : ServerInfo :=
  { e with lastActionTS := now }

/-- Go: `func (serverInfo *ServerInfo) noticeSuccess(proxy *Proxy)`. -/
def ServerInfo.noticeSuccess (e : ServerInfo) (timeout : Int) (now : Int) : ServerInfo :=
  let elapsed := now - e.lastActionTS
  let elapsedMs := Int.tdiv elapsed 1000000
  if elapsedMs > 0 ∧ elapsed < timeout then { e with rtt := e.rtt.Add (elapsedMs : ℚ) }
  else e

/-- The registry after a feedback hook `f` ran on the entry that stands at `live[i]`
(the hooks receive a pointer to an entry that `getOne` handed out). -/
def ServersInfo.feedback (s : ServersInfo) (i : Nat) (f : ServerInfo → ServerInfo) :
    ServersInfo :=
  match s.inner[i]? with
  | some e => { s with inner := s.inner.set i (f e) }
  | none => s

/-! ## Reachable registries -/

/-- The registries the program can be in: `NewServersInfo()` with the configured
selection policy, followed by any sequence of the operations of the file that
returned. -/
inductive Reachable : ServersInfo → Prop where
  | init (strategy : LBStrategy) (strategyStr : String) (estimator : Bool) :
      Reachable { NewServersInfo with
        lbStrategy := strategy, lbStrategyStr := strategyStr, lbEstimator := estimator }
  | registerServer {s : ServersInfo} (name : String) (stamp : ServerStamp) :
      Reachable s → Reachable (registerServer s name stamp)
  | refreshServer {s s1 : ServersInfo} (probe : Probe) (name : String) (stamp : ServerStamp)
      (err : Option String) :
      Reachable s → refreshServer probe s name stamp = .ok (s1, err) → Reachable s1
  | refresh {s s1 : ServersInfo} (probes : Nat → Probe) (liveServers : Int)
      (err : Option String) :
      Reachable s → refresh probes s = .ok (s1, liveServers, err) → Reachable s1
  | getOne {s s1 : ServersInfo} (env : Env) (fuel : Nat) (qName : String) (now : Int)
      (g g1 : Rng) (chosen : Option ServerInfo) :
      Reachable s → getOne env fuel s qName now g = .ok (s1, chosen, g1) → Reachable s1
  | noticeFailure {s : ServersInfo} (i : Nat) (timeout : Int) :
      Reachable s → Reachable (s.feedback i (fun e => e.noticeFailure timeout))
  | noticeBegin {s : ServersInfo} (i : Nat) (now : Int) :
      Reachable s → Reachable (s.feedback i (fun e => e.noticeBegin now))
  | noticeSuccess {s : ServersInfo} (i : Nat) (timeout now : Int) :
      Reachable s → Reachable (s.feedback i (fun e => e.noticeSuccess timeout now))

/-- The names of the live servers, in order. -/
def liveNames (s : ServersInfo) : List String :=
  s.inner.map (fun e => e.Name)

/-- The returned value of an outcome, if there is one. -/
def Res.value? {α : Type} : Res α → Option α
  | .ok a => some a
  | .stop _ => none

/-- The Go `error` of a probe outcome: `none` (`nil`) for a success. -/
def errorOf : Except String ServerInfo → Option String
  | .error err => some err
  | .ok _ => none

/-- The outcomes of the probes that one pass of `refresh` makes, in the order of the
pass: the `i`-th probe is made for the `i`-th registered server of the snapshot, in
the registry as the earlier merges left it. -/
def probeOutcomes (probes : Nat → Probe) :
    Nat → List RegisteredServer → ServersInfo → List (Except String ServerInfo)
  | _, [], _ => []
  | i, registeredServer :: rest, s =>
    probes i registeredServer.name registeredServer.stamp (isNewServer s registeredServer.name) ::
      match refreshServer (probes i) s registeredServer.name registeredServer.stamp with
      | .ok (s1, _) => probeOutcomes probes (i + 1) rest s1
      | .stop _ => []

/-- An outcome of the selection loop that is either a candidate inside the live list
or a stop other than the index panic. -/
def InRange (n : Int) : Res LaState → Prop
  | .ok st => 0 ≤ st.candidate ∧ st.candidate < n
  | .stop why => why ≠ .indexOutOfRange

/-- The length `k` of the prefix of the live list that each sampling policy draws
from, as the table of the spec gives it for `n` live servers (`first`: 1, `random`: `n`,
`p2`: `min(n, 2)`, `pN(j)`: `min(n, j)`, `pH`: `max(min(n, 2), n/2)`); `none` for the
strategy objects that do not sample. -/
def tableLength (strategy : LBStrategy) (n : Int) : Option Int :=
  match strategy with
  | .First => some 1
  | .Random => some n
  | .P2 => some (min n 2)
  | .PN j => some (min n j)
  | .PH => some (max (min n 2) (n / 2))
  | .RR => none
  | .Hash => none
  | .LocationAvoidant => none

/-- Consecutive calls of `getOne`, one per element of the list (query name, clock,
generator): the index each call used, that is the `prevCandidate` it left. -/
def selectIndices (env : Env) (fuel : Nat) :
    List (String × Int × Rng) → ServersInfo → Res (List Int)
  | [], _ => .ok []
  | (qName, now, g) :: rest, s =>
    match getOne env fuel s qName now g with
    | .stop why => .stop why
    | .ok (s1, _, _) =>
      match selectIndices env fuel rest s1 with
      | .stop why => .stop why
      | .ok used => .ok (s1.prevCandidate :: used)

/-! ## Models of the DNS codec and of `net.ParseIP` -/

/-- The pieces of a text between its dots. -/
def splitOnDot : List Char → List (List Char)
  | [] => [[]]
  | c :: cs =>
    if c = '.' then [] :: splitOnDot cs
    else
      match splitOnDot cs with
      | [] => [[c]]
      | l :: ls => (c :: l) :: ls

/-- Model of `dns.SplitDomainName` (github.com/miekg/dns) for names without backslash
escapes: the empty name and the root `.` have no labels; otherwise one trailing dot is
dropped and the name is cut at its dots (`www.miek.nl.` gives `www`, `miek`, `nl`). -/
def splitDomainName (s : String) : List String :=
  if s.data = [] ∨ s.data = ['.'] then []
  else
    let name := if s.data.getLast? = some '.' then s.data.dropLast else s.data
    (splitOnDot name).map String.mk

/-- The value of a decimal field of a dotted quad: one to three digits, no leading
zero, at most 255. -/
def parseOctet (cs : List Char) : Option Nat :=
  if cs = [] ∨ 3 < cs.length ∨ ¬ cs.all Char.isDigit ∨ (1 < cs.length ∧ cs.head? = some '0') then
    none
  else
    let v := cs.foldl (fun acc c => 10 * acc + (c.toNat - 48)) 0
    if v ≤ 255 then some v else none

/-- Model of `net.ParseIP` on dotted quads: the 16-byte form of the IPv4 address, `nil`
for a text that is not a dotted quad (IPv6 texts are not modelled; the deny table
holds none). -/
def parseIP (s : String) : NetIP :=
  match (splitOnDot s.data).map parseOctet with
  | [some a, some b, some c, some d] =>
    some [0, 0, 0, 0, 0, 0, 0, 0, 0, 0, 255, 255, a, b, c, d]
  | _ => none

/-! ## The geo deny table -/

/-- Go: `var denylist = map[string]map[string][]string`: country code, then address,
then the metadata of the address. The list gives the entries in the order of the
source text; the order in which Go ranges over the map is an input (`Env`). -/
def denylist : List (String × List (String × List String)) :=
  [("af",
    [("180.94.94.194", ["Kabul, Kabul", "AS55330", "AFGHANTELECOM GOVERNMENT COMMUNICATION NETWORK"]),
     ("117.104.227.243", ["Mazar-e Sharif, Balkh", "AS55424", "Instatelecom Limited"])]),
   ("ax",
    [("194.110.177.46", ["Mariehamn, Mariehamn", "AS3238", "Alands Telekommunikation Ab"])]),
   ("al",
    [("217.24.255.134", ["Tirana, Tirane", "AS42313", "Albtelecom Sh.a."]),
     ("213.163.127.229", ["Tirana, Tirane", "AS8661", "Telekomi i Kosoves SH.A."])]),
   ("dz",
    [("193.194.70.66", ["Algiers, Alger", "AS3208", "Algerian Academic Research Network"]),
     ("105.235.131.105", ["Algiers, Alger", "AS33779", "Wataniya Telecom Algerie"]),
     ("105.235.131.80", ["Algiers, Alger", "AS33779", "Wataniya Telecom Algerie"])]),
   ("ad",
    [("85.94.178.198", ["Les Escaldes, Escaldes-Engordany", "AS6752", "ANDORRA TELECOM SAU"]),
     ("194.158.78.137", ["Andorra la Vella, Andorra la Vella", "AS6752", "ANDORRA TELECOM SAU"])]),
   ("ai",
    [("69.57.230.68", ["Castries, Castries", "AS15344", "Karib Cable"])]),
   ("aq",
    [("185.121.177.177", ["Auckland, Auckland", "AS204136", "Kevin Holly trading as Silent Ghost e.U."])]),
   ("ar",
    [("186.148.128.86", ["Bahia Blanca, Buenos Aires", "AS52279", "ETERNET S.R.L."]),
     ("190.151.144.21", ["Campana, Buenos Aires", "AS52339", "Lima Video Cable S.A. (Cabletel)"]),
     ("200.45.48.233", ["Buenos Aires, Ciudad Autonoma de Buenos Aires", "AS7303", "Telecom Argentina S.A."]),
     ("181.14.245.186", ["Buenos Aires, Ciudad Autonoma de Buenos Aires", "AS7303", "Telecom Argentina S.A."]),
     ("200.45.184.43", ["General Cabrera, Cordoba", "AS7303", "Telecom Argentina S.A."]),
     ("200.110.130.195", ["Buenos Aires, Ciudad Autonoma de Buenos Aires", "AS18747", "IFX Corporation"]),
     ("179.60.232.10", ["Rosario, Santa Fe", "AS263693", "WICORP SA"]),
     ("170.210.83.110", ["Buenos Aires, Ciudad Autonoma de Buenos Aires", "AS4270", "Red de Interconexion Universitaria"]),
     ("200.55.54.234", ["Buenos Aires, Ciudad Autonoma de Buenos Aires", "AS3549", "Level 3 Parent, LLC"]),
     ("200.110.130.194", ["Buenos Aires, Ciudad Autonoma de Buenos Aires", "AS18747", "IFX Corporation"]),
     ("186.38.56.11", ["Puerto Ibicuy, Entre Rios", "AS22927", "Telefonica de Argentina"]),
     ("181.110.241.74", ["Cordoba, Cordoba ", "AS7303", "Telecom Argentina S.A."]),
     ("157.92.190.15", ["Buenos Aires, Ciudad Autonoma de Buenos Aires", "AS3449", "Universidad Nacional de Buenos Aires"]),
     ("190.57.234.194", ["Ciudad Autonoma de Buenos Aires", "AS20207", "Gigared S.A."]),
     ("186.153.180.148", ["Villaguay, Entre Rios", "AS7303", "Telecom Argentina S.A."]),
     ("179.60.235.209", ["Victoria, Entre Rios", "AS263693", "WICORP SA"]),
     ("200.32.120.184", ["Buenos Aires, Ciudad Autonoma de Buenos Aires", "AS3549", "Level 3 Parent, LLC"]),
     ("200.59.236.202", ["Anelo, Neuquen ", "AS27751", "Neunet S.A."]),
     ("200.16.147.18", ["Buenos Aires, Ciudad Autonoma de Buenos Aires", "AS7049", "Silica Networks Argentina S.A."])]),
   ("am",
    [("31.47.196.211", ["Abovyan, Kotayk", "AS49800", "GNC-Alfa CJSC"]),
     ("31.47.196.210", ["Abovyan, Kotayk", "AS49800", "GNC-Alfa CJSC"]),
     ("81.16.8.110", ["Yerevan, Erevan", "AS44395", "Ucom CJSC"]),
     ("185.8.3.151", ["Abovyan, Kotayk", "AS49800", "GNC-Alfa CJSC"]),
     ("45.133.105.123", ["Yerevan, Erevan", "AS49800", "GNC-Alfa CJSC"])]),
   ("au",
    [("103.86.96.100", ["Sydney, New South Wales", "AS136787", "TEFINCOM S.A"]),
     ("61.8.0.113", ["Sydney, New South Wales", "AS1221", "Telstra Corporation Ltd"]),
     ("103.224.162.40", ["Coomba Park, New South Wales", "AS133324", "Ezi-Web"]),
     ("192.232.128.21", ["Box Hill, Victoria ", "AS23922", "BOX HILL INSTITUTE"]),
     ("115.70.249.182", ["Perth, Western Australia ", "AS10143", "Exetel Pty Ltd"]),
     ("139.130.4.4", ["Adelaide, South Australia", "AS1221", "Telstra Corporation Ltd"]),
     ("139.134.5.51", ["Sydney, New South Wales", "AS1221", "Telstra Corporation Ltd"]),
     ("139.134.2.190", ["Sydney, New South Wales", "AS1221", "Telstra Corporation Ltd"]),
     ("203.2.193.67", ["St Leonards, New South Wales", "AS703", "MCI Communications Services"]),
     ("203.50.2.71", ["Melbourne, Victoria", "AS1221", "Telstra Corporation Ltd"]),
     ("110.142.121.50", ["Ramsay, Queensland ", "AS1221", "Telstra Corporation Ltd"])]),
   ("at",
    [("37.235.1.174", ["Vienna, Wien", "AS51453", "ANEXIA Internetdienstleistungs GmbH"]),
     ("37.235.1.177", ["Vienna, Wien", "AS51453", "ANEXIA Internetdienstleistungs GmbH"]),
     ("188.21.14.72", ["Vienna, Wien", "AS8447", "A1 Telekom Austria"]),
     ("193.186.170.50", ["Hagenberg, Oberosterreich", "AS35369", "LINZ STROM GAS"]),
     ("83.137.41.8", ["Innsbruck, Tirol", "AS31394", "nemox.net Informationstechnologie"]),
     ("83.137.41.9", ["Innsbruck, Tirol", "AS31394", "nemox.net Informationstechnologie"]),
     ("185.242.177.7", ["Leonding, Oberosterreich ", "AS35369", "LINZ STROM GAS WAERME GmbH fuer Energiedienstleistungen und Telekommunikation"]),
     ("194.36.144.87", ["Vienna, Wien", "AS197540", "netcup GmbH"]),
     ("188.118.227.21", ["Vienna, Wien", "AS8437", "Hutchison Drei Austria"]),
     ("83.218.176.140", ["Soelden, Tirol", "AS31543", "myNet GmbH"])]),
   ("az",
    [("85.132.85.85", ["Baku, Baki", "AS29049", "Delta Telecom Ltd"]),
     ("85.132.32.41", ["Baku, Baki", "AS207251", "CASPEL LLC"])]),
   ("bh",
    [("80.95.220.186", ["Umm ash Sha'um, Al Janubiyah", "AS35457", "Etisalcom Bahrain Company W.L.L."])]),
   ("bb",
    [("65.48.140.32", ["Kingstown, Saint George", "AS46408", "Columbus Communication St. Vincent and the Grenadines Ltd."]),
     ("65.48.140.38", ["Kingstown, Saint George", "AS46408", "Columbus Communication St. Vincent and the Grenadines Ltd."]),
     ("65.48.140.112", ["Kingstown, Saint George", "AS46408", "Columbus Communication St. Vincent and the Grenadines Ltd."]),
     ("65.48.140.125", ["Kingstown, Saint George", "AS46408", "Columbus Communication St. Vincent and the Grenadines Ltd."]),
     ("65.48.140.138", ["Kingstown, Saint George", "AS46408", "Columbus Communication St. Vincent and the Grenadines Ltd."]),
     ("65.48.140.150", ["Kingstown, Saint George", "AS46408", "Columbus Communication St. Vincent and the Grenadines Ltd."]),
     ("65.48.140.162", ["Kingstown, Saint George", "AS46408", "Columbus Communication St. Vincent and the Grenadines Ltd."]),
     ("65.48.140.192", ["Kingstown, Saint George", "AS46408", "Columbus Communication St. Vincent and the Grenadines Ltd."]),
     ("65.48.140.204", ["Kingstown, Saint George", "AS46408", "Columbus Communication St. Vincent and the Grenadines Ltd."]),
     ("65.48.140.250", ["Kingstown, Saint George", "AS46408", "Columbus Communication St. Vincent and the Grenadines Ltd."]),
     ("65.48.141.112", ["Lovell Village, Grenadines", "AS46408", "Columbus Communication St. Vincent and the Grenadines Ltd."]),
     ("65.48.234.43", ["Kingstown, Saint George", "AS46408", "Columbus Communication St. Vincent and the Grenadines Ltd."]),
     ("65.48.234.44", ["Kingstown, Saint George", "AS46408", "Columbus Communication St. Vincent and the Grenadines Ltd."]),
     ("65.48.234.81", ["Kingstown, Saint George", "AS46408", "Columbus Communication St. Vincent and the Grenadines Ltd."]),
     ("65.48.234.232", ["Kingstown, Saint George", "AS46408", "Columbus Communication St. Vincent and the Grenadines Ltd."])]),
   ("by",
    [("213.184.224.254", ["Druzhba, Horad Minsk", "AS42772", "Unitary enterprise A1"]),
     ("213.184.225.37", ["Minsk, Horad Minsk", "AS42772", "Unitary enterprise A1"])]),
   ("be",
    [("81.95.125.20", ["Brugge, West-Vlaanderen", "AS42160", "lcp nv"]),
     ("91.183.238.145", ["Brussels, Brussels Hoofdstedelijk Gewest", "AS5432", "Proximus NV"]),
     ("194.7.1.4", ["Machelen, Vlaams-Brabant", "AS702", "MCI Communications Services, Inc. d/b/a Verizon Business"]),
     ("195.35.110.4", ["Brussels, Hoofdstedelijk Gewest", "AS15776", "International Business Machines of Belgium Ltd"]),
     ("81.82.250.182", ["be Antwerpen, Antwerpen", "AS6848", "Telenet BVBA"]),
     ("185.92.196.182", ["Waregem, West-Vlaanderen ", "AS200884", "Effix Group"]),
     ("194.78.185.81", ["be Mons, Hainaut", "AS5432", "Proximus NV"]),
     ("81.82.196.44", ["Zaventem, Vlaams-Brabant", "AS6848", "Telenet BVBA"]),
     ("81.82.197.98", ["Zaventem, Vlaams-Brabant", "AS6848", "Telenet BVBA"]),
     ("81.82.199.111", ["Leuven, Vlaams-Brabant", "AS6848", "Telenet BVBA"]),
     ("81.83.12.253", ["be Turnhout, Antwerpen", "AS6848", "Telenet BVBA"]),
     ("81.83.18.23", ["Kortrijk, West-Vlaanderen", "AS6848", "Telenet BVBA"]),
     ("81.83.18.81", ["Kortrijk, West-Vlaanderen", "AS6848", "Telenet BVBA"]),
     ("81.83.19.129", ["Gent, Oost-Vlaanderen", "AS6848", "Telenet BVBA"]),
     ("84.199.232.98", ["Mechelen, Antwerpen", "AS6848", "Telenet BVBA"])]),
   ("bj",
    [("196.192.16.5", ["Abomey-Calavi, Atlantique", "AS28683", "BENIN TELECOMS INFRASTRUCTURES SA"])]),
   ("bt",
    [("103.29.225.241", ["Thimphu, Thimphu", "AS23955", "TashiCell Domestic AS, Thimphu, Bhutan"])]),
   ("bo",
    [("200.105.133.162", ["La Paz, La Paz", "AS26210", "AXS Bolivia S. A."]),
     ("200.87.195.70", ["La Paz, La Paz", "AS6568", "Entel S.A."]),
     ("167.157.20.2", ["Cochabamba, Cochabamba", "AS6568", "Entel S.A."])]),
   ("ba",
    [("188.124.210.1", ["Banja Luka, Republika Srpska", "AS198252", "ELTA KABEL d.o.o."]),
     ("92.36.225.9", ["Gradacac, Federacija Bosne i Hercegovine", "AS9146", "BH Telecom d.d."])]),
   ("bw",
    [("154.70.151.66", ["Mogoditshane, Kweneng", "AS327716", "Microteck Enterprises (Pty) Ltd."])]),
   ("br",
    [("189.125.18.5", ["Cotia, Sao Paulo", "AS3549", "Level 3 Parent, LLC"]),
     ("177.131.114.86", ["Chapeco, Santa Catarin", "AS262391", "ACESSOLINE TELECOMUNICACOES LTDA"]),
     ("54.94.175.250", ["Sao Paulo, Sao Paulo", "AS16509", "Amazon.com, Inc."]),
     ("177.43.35.247", ["Balneario Camboriu, Sa..", "AS18881", "TELEFÔNICA BRASIL S.A"]),
     ("177.66.203.10", ["Mata de Sao Joao, Bahi", "AS53004", "Downup Telecomunicacoes e servico LTDA"]),
     ("177.67.81.134", ["Franca, Sao Paul", "AS53013", "W I X NET DO BRASIL LTDA - ME"]),
     ("177.92.0.90", ["Piraquara, Paran", "AS14868", "COPEL Telecomunicações S.A."]),
     ("177.135.204.163", ["Lauro de Freitas, Bahi", "AS18881", "TELEFÔNICA BRASIL S.A"]),
     ("177.159.232.50", ["Brasilia, Distrito Fed..", "AS18881", "TELEFÔNICA BRASIL S.A"]),
     ("177.159.232.52", ["Brasilia, Distrito Fed..", "AS18881", "TELEFÔNICA BRASIL S.A"]),
     ("177.159.232.53", ["Brasilia, Distrito Fed..", "AS18881", "TELEFÔNICA BRASIL S.A"]),
     ("177.184.131.180", ["Sao Bernardo, Maranhao", "AS28368", "SOBRALNET SERVICOS E TELECOMUNICACOES LTDA"]),
     ("186.194.224.82", ["Tupa, Sao Paul", "AS53143", "R&R PROVEDOR DE INTERNET LTDA"]),
     ("186.225.194.29", ["Sao Paulo, Sao Paulo", "AS53174", "Pannet Serviços On Line Ltda"]),
     ("187.32.81.223", ["Alvorada, Rio Grande d..", "AS16735", "ALGAR TELECOM S/A"]),
     ("187.60.128.69", ["Lavras, Minas Gerais", "AS28152", "Navinet Ltda"]),
     ("189.4.130.159", ["Santos, Sao Paul", "AS28573", "CLARO S.A."]),
     ("189.42.239.34", ["Divinopolis, Minas Gerai", "AS4230", "CLARO S.A."]),
     ("200.99.138.94", ["Sao Paulo, Sao Paulo", "AS10429", "TELEFÔNICA BRASIL S.A"]),
     ("200.99.138.103", ["Sao Paulo, Sao Paulo", "AS10429", "TELEFÔNICA BRASIL S.A"]),
     ("200.167.191.114", ["Sinop, Mato Grosso", "AS4230", "CLARO S.A."]),
     ("200.169.8.1", ["Belo Horizonte, Minas ..", "AS21574", "Century Telecom Ltda"]),
     ("200.174.105.3", ["Sao Paulo, Sao Paulo", "AS4230", "CLARO S.A."]),
     ("200.179.97.194", ["Rio de Janeiro, Rio de..", "AS4230", "CLARO S.A."]),
     ("200.252.235.20", ["Brasilia, Distrito Fed..", "AS4230", "CLARO S.A."]),
     ("201.45.193.131", ["Horizonte, Ceara", "AS4230", "CLARO S.A."]),
     ("186.216.63.97", ["Rio Bonito, Rio de Jan..", "AS262663", "METROFLEX TELECOMUNICACOES LTDA"]),
     ("138.36.1.131", ["Fortaleza, Ceara", "AS264562", "TEX NET SERVIÇOS DE COMUNICAÇÃO EM INFORMATICA LTD"]),
     ("177.104.127.114", ["Fortaleza, Ceara", "AS263655", "S&T PARTICIPACOES LTDA"]),
     ("177.37.175.32", ["Joao Pessoa, Paraiba", "AS28126", "BRISANET SERVICOS DE TELECOMUNICACOES LTDA"]),
     ("138.0.207.117", ["Penapolis, Sao Paulo", "AS264556", "L. Garcia Comunicações ME"]),
     ("177.43.56.139", ["Diadema, Sao Paulo", "AS18881", "TELEFÔNICA BRASIL S.A"]),
     ("177.47.128.2", ["Campos, Rio de Janeiro", "AS52993", "Ver Tv Comunicações S/A"]),
     ("179.127.175.242", ["Lages, Santa Catarin", "AS28343", "Unifique Telecomunicações SA"]),
     ("187.32.81.194", ["Alvorada, Rio Grande d..", "AS16735", "ALGAR TELECOM S/A"]),
     ("189.125.73.13", ["Sao Paulo, Sao Paulo", "AS3549", "Level 3 Parent, LLC"]),
     ("200.150.112.58", ["Apucarana, Paran", "AS14868", "COPEL Telecomunicações S.A."]),
     ("200.221.11.100", ["Sao Paulo, Sao Paulo", "AS7162", "Universo Online S.A."]),
     ("200.194.198.76", ["New York City, New Yor", "AS3549", "Level 3 Parent, LLC"]),
     ("200.221.11.101", ["Sao Paulo, Sao Paulo", "AS7162", "Universo Online S.A."]),
     ("189.90.241.10", ["Itabira, Minas Gerai", "AS28201", "Companhia Itabirana Telecomunicações Ltda"]),
     ("201.44.177.131", ["Joinville, Santa Catarin", "AS4230", "CLARO S.A."]),
     ("201.20.36.29", ["Sao Paulo, Sao Paulo", "AS16397", "EQUINIX BRASIL"]),
     ("131.221.81.1", ["Sao Paulo, Sao Paulo", "AS4809", "China Telecom Next Generation Carrier Network Who"]),
     ("179.108.248.9", ["Recife, Pernambuco", "AS263276", "BBG TELECOMLTDA"]),
     ("131.196.220.10", ["Porto Alegre, Rio Gran..", "AS265985", "MELNET PROVEDOR"]),
     ("138.219.105.100", ["Porto Alegre, Rio Gran..", "AS263925", "Acem Telecom Ltda"]),
     ("138.97.84.2", ["Vila Velha, Espirito S..", "AS264138", "INTERLES COMUNICACOES LTDA"]),
     ("138.97.84.3", ["Vila Velha, Espirito S..", "AS264138", "INTERLES COMUNICACOES LTDA"]),
     ("164.163.1.90", ["Brasilia, Distrito Fed..", "AS265933", "connectx serviços de telecomunicações ltda"]),
     ("168.196.78.18", ["Redencao, Ceara", "AS265455", "SKYNET TELECOM EIRELI"]),
     ("170.239.136.10", ["Natal, Rio Grande do N..", "AS266352", "MUNDO NET"]),
     ("170.239.144.20", ["Recife, Pernambuco", "AS266361", "JARBAS PASCHOAL BRAZIL JUNIOR INFORMATICA"]),
     ("177.102.143.166", ["Sao Paulo, Sao Paulo", "AS27699", "TELEFÔNICA BRASIL S.A"]),
     ("177.135.239.132", ["Sao Paulo, Sao Paulo", "AS10429", "TELEFÔNICA BRASIL S.A"]),
     ("177.184.176.5", ["Itamarandiba, Minas Ge..", "AS52923", "Netcar Internet Telec Info e Tecnologia LTDA"]),
     ("177.200.48.48", ["Rio de Janeiro, Rio de..", "AS52781", "Pertec Servicos de Telecomunicacoes ltda"]),
     ("177.200.78.209", ["Cajuru, Sao Paul", "AS52783", "SKYNET TELECOMUNICACOES EIRELI"]),
     ("177.55.32.240", ["Alto Parana, Paran", "AS262482", "HOMENET TELECOMUNICAÇÕES LTDA"]),
     ("177.75.4.34", ["Brasilia, Distrito Fed..", "AS28178", "Networld Provedor e Servicos de Internet Ltda"]),
     ("177.87.96.4", [" Natal, Rio Grande do N..", "AS262654", "Governo do Estado do Rio Grande do Norte"]),
     ("179.181.132.219", ["Aracaju, Sergipe", "AS18881", "TELEFÔNICA BRASIL S.A"]),
     ("179.191.88.90", ["Sao Paulo, Sao Paulo", "AS17222", "Mundivox LTDA"]),
     ("179.228.67.140", ["Sao Paulo, Sao Paulo", "AS27699", "TELEFÔNICA BRASIL S.A"]),
     ("186.225.45.138", ["Teresina, Piau", "AS28368", "SOBRALNET SERVICOS E TELECOMUNICACOES LTDA"]),
     ("186.248.139.42", ["Belo Horizonte, Minas ..", "AS23106", "AMERICAN TOWER DO BRASIL-COMUNICAÇÂO MULTIMÍDIA LT"]),
     ("186.251.103.10", ["Ipatinga, Minas Gerais", "AS262828", "Acesse Facil Telecomunicacoes Ltda"]),
     ("186.251.103.3", ["Ipatinga, Minas Gerais", "AS262828", "Acesse Facil Telecomunicacoes Ltda"]),
     ("186.251.226.253", ["Atibaia, Sao Paulo", "AS262838", "STARNET TELECOMUNICACOES LTDA"]),
     ("187.45.113.26", ["Chapeco, Santa Catarin", "AS28146", "MHNET TELECOM"]),
     ("187.49.127.110", ["Salvador, Bahi", "AS28144", "G3 TELECOM"]),
     ("187.51.127.93", ["Sao Paulo, Sao Paulo", "AS10429", "TELEFÔNICA BRASIL S.A"]),
     ("187.72.135.133", ["Sao Paulo, Sao Paulo", "AS16735", "ALGAR TELECOM S/A"]),
     ("189.126.192.4", ["Sao Paulo, Sao Paulo", "AS28226", "Vogel Soluções em Telecom e Informática S/A"]),
     ("189.23.31.242", ["Vila Velha, Espirito S..", "AS4230", "CLARO S.A."]),
     ("189.51.144.23", ["Tupa, Sao Paul", "AS28349", "TVC TUPA EIRELI"]),
     ("189.8.80.35", ["Sao Paulo, Sao Paulo", "AS28669", "America-NET Ltda."]),
     ("189.89.61.244", ["Junqueiro, Alagoas", "AS262751", "LINK POINT SERVIÇOS LTDA-ME"]),
     ("192.141.232.10", ["Padre Bernardo, Goia", "AS267495", "Brasil Central Telecomunicação"]),
     ("200.143.177.83", ["Sao Paulo, Sao Paulo", "AS16397", "EQUINIX BRASIL"]),
     ("200.150.83.115", ["Colombo, Paran", "AS14868", "COPEL Telecomunicações S.A."]),
     ("200.169.96.11", ["Sao Paulo, Sao Paulo", "AS21911", "UOL DIVEO S.A. "]),
     ("200.178.191.82", ["Rio de Janeiro, Rio de..", "AS4230", "CLARO S.A. "]),
     ("200.202.233.21", ["Horizonte, Ceara", "AS7738", "Telemar Norte Leste S.A."]),
     ("200.212.2.125", ["Sao Paulo, Sao Paulo", "AS4230", "CLARO S.A."]),
     ("200.222.15.35", ["Petropolis, Rio de Jan..", "AS7738", "Telemar Norte Leste S.A."]),
     ("200.252.235.19", ["Brasilia, Distrito Fed..", "AS4230", "CLARO S.A."]),
     ("201.28.69.243", ["Sao Paulo, Sao Paulo", "AS10429", "TELEFÔNICA BRASIL S.A"]),
     ("189.22.227.194", ["Rio de Janeiro, Rio de..", "AS4230", "CLARO S.A."]),
     ("200.169.88.1", ["Sao Paulo, Sao Paulo", "AS21741", "Visualcorp Holding Ltda"]),
     ("200.201.191.91", ["Mesquita, Rio de Janeiro", "AS17222", "Mundivox LTDA"]),
     ("186.193.207.158", ["Sorocaba, Sao Paul", "AS262730", "Byteweb Comunicação Multimídia Ltda."]),
     ("200.222.51.209", ["Rio de Janeiro, Rio de..", "AS7738", "Telemar Norte Leste S.A."]),
     ("177.92.1.35", ["Lapa, Parana", "AS14868", "COPEL Telecomunicações S.A."]),
     ("177.92.1.38", ["apa, Parana", "AS14868", "COPEL Telecomunicações S.A."]),
     ("200.150.68.126", ["Curitiba, Parana", "AS14868", "COPEL Telecomunicações S.A."]),
     ("200.150.84.26", ["Cambe, Paran", "AS14868", "COPEL Telecomunicações S.A."]),
     ("200.195.132.210", ["Curitiba, Parana", "AS14868", "COPEL Telecomunicações S.A."]),
     ("200.195.136.198", ["Curitiba, Parana", "AS14868", "COPEL Telecomunicações S.A."]),
     ("200.195.154.122", ["Vitoria, Espirito Sant", "AS14868", "COPEL Telecomunicações S.A."]),
     ("200.195.185.234", ["Curitiba, Parana", "AS14868", "COPEL Telecomunicações S.A."]),
     ("189.125.17.210", ["Houston, Texas", "AS3549", "Level 3 Parent, LLC"]),
     ("189.125.19.198", ["New York City, New Yor", "AS3549", "Level 3 Parent, LLC"]),
     ("200.194.198.75", ["New York City, New Yor", "AS3549", "Level 3 Parent, LLC"]),
     ("200.99.138.100", ["Sao Paulo, Sao Paulo", "AS10429", "TELEFÔNICA BRASIL S.A"]),
     ("179.191.86.162", ["Sao Paulo, Sao Paulo", "AS17222", "Mundivox LTDA"]),
     ("177.43.249.132", ["Sao Paulo, Sao Paulo", "AS18881", "TELEFÔNICA BRASIL S.A"]),
     ("200.150.113.147", ["Curitiba, Parana", "AS14868", "COPEL Telecomunicações S.A."]),
     ("177.69.96.187", ["Uberlandia, Minas Gerais", "AS16735", "ALGAR TELECOM S/A"]),
     ("187.115.169.30", ["Salvador, Bahi", "AS18881", "TELEFÔNICA BRASIL S.A"]),
     ("187.33.230.114", ["Joao Pessoa, Paraiba", "AS53087", "TELY Ltda."]),
     ("189.124.138.68", ["Natal, Rio Grande do N..", "AS28220", "CABO SERVICOS DE TELECOMUNICACOES LTDA"]),
     ("200.99.138.104", ["Sao Paulo, Sao Paulo", "AS10429", "TELEFÔNICA BRASIL S.A"]),
     ("200.99.138.13", ["Sao Paulo, Sao Paulo", "AS10429", "TELEFÔNICA BRASIL S.A"]),
     ("177.204.84.54", ["Sao Paulo, Sao Paulo", "AS18881", "TELEFÔNICA BRASIL S.A"]),
     ("187.75.155.116", ["Sao Jose dos Campos, S..", "AS27699", "TELEFÔNICA BRASIL S.A"]),
     ("177.19.217.206", ["Vila Velha, Espirito S..", "AS18881", "TELEFÔNICA BRASIL S.A"]),
     ("177.130.60.40", ["Santarem, Para", "AS52747", "Wsp Serviços de Telecomunicações Ltda"]),
     ("189.55.193.173", ["Sao Paulo, Sao Paulo", "AS28573", "CLARO S.A."]),
     ("201.48.242.193", ["Uberlandia, Minas Gerais", "AS16735", "ALGAR TELECOM S/A"]),
     ("179.185.88.86", ["Campo Grande, Mato Gro..", "AS18881", "TELEFÔNICA BRASIL S.A"]),
     ("200.161.143.52", ["Piracicaba, Sao Paul", "AS27699", "TELEFÔNICA BRASIL S.A"]),
     ("177.92.19.182", ["Curitiba, Parana", "AS14868", "COPEL Telecomunicações S.A."]),
     ("168.196.78.22", ["Redencao, Ceara", "AS265455", "SKYNET TELECOM EIRELI"]),
     ("168.228.148.43", ["Cavalcante, Goias", "AS264953", "INTEGRATO TELECOMUNICAÇÕES LTDA - ME"]),
     ("177.124.247.2", ["Rio de Janeiro, Rio de..", "AS17222", "Mundivox LTDA"]),
     ("177.155.135.81", ["Cacador, Santa Catarin", "AS53062", "GGNET TELECOMUNICAÇÕES LTDA"]),
     ("177.69.240.252", ["Blumenau, Santa Catarina", "AS16735", "ALGAR TELECOM S/A"]),
     ("177.93.250.3", ["Jacobina, Bahia", "AS52995", "TEN INTERNET Ltda"]),
     ("186.215.192.243", ["Pompeia, Sao Paulo", "AS18881", "TELEFÔNICA BRASIL S.A"]),
     ("191.253.65.194", ["Sao Luis, Maranhao", "AS263528", "VIACOM NEXT GENERATION COMUNICACAO LTDA"]),
     ("200.220.192.88", ["Rio de Janeiro, Rio de..", "AS262589", "INTERNEXA BRASIL OPERADORA DE TELECOMUNICACOES S.A"]),
     ("45.225.123.34", ["Paulo Afonso, Bahi", "AS266935", "CENTROSULNET INFORMATICA EIRELI"]),
     ("45.225.123.88", ["Paulo Afonso, Bahi", "AS266935", "CENTROSULNET INFORMATICA EIRELI"]),
     ("177.20.178.12", ["Piracicaba, Sao Paul", "AS263035", "PORTAL QUEOPS TELECOMUNICAÇÕES E SERVIÇOS"])]),
   ("io",
    [("202.44.113.14", ["Diego Garcia, British Indian Ocean Territory", "AS17458", "Sure (Diego Garcia) Limited"])]),
   ("bn",
    [("202.152.77.212", ["Bandar Seri Begawan, Brunei-Muara", "AS10101", "UNN-BN"])]),
   ("bg",
    [("46.35.180.2", ["Levski, Pleven ", "AS58079", "Skynet Ltd"]),
     ("85.118.192.3", ["Sofia, Sofia (stolitsa)", "AS29244", "TELENOR BULGARIA EAD"]),
     ("95.158.129.2", ["Sofia, Sofia (stolitsa)", "AS41313", "NOVATEL EOOD"]),
     ("212.73.140.66", ["Sofia, Sofia (stolitsa)", "AS34224", "Neterra Ltd."]),
     ("46.10.205.252", ["Sofia, Sofia (stolitsa)", "AS8866", "Bulgarian Telecommunications Company Plc."]),
     ("194.141.12.1", ["Sofia, Sofia (stolitsa)", "AS6802", "Bulgarian Research and Education Network Association (BREN)"]),
     ("212.91.171.146", ["Sofia, Sofia (stolitsa)", "AS8717", "A1 Bulgaria EAD"]),
     ("93.123.112.99", ["Svoge, Sofia ", "AS43561", "NET1 Ltd."]),
     ("195.24.36.55", ["Sofia, Sofia (stolitsa)", "AS8717", "A1 Bulgaria EAD"]),
     ("84.54.131.65", ["Burgas, Burgas ", "AS29084", "Comnet Bulgaria Holding"]),
     ("80.78.237.33", ["Satovcha, Blagoevgrad", "AS39184", "UltraNET Ltd"]),
     ("89.106.109.235", ["Gabrovo, Gabrovo ", "AS13306", "Unics EOOD"]),
     ("80.78.237.4", ["Satovcha, Blagoevgrad", "AS39184", "UltraNET Ltd "]),
     ("195.234.239.130", ["Sofia, Sofia (stolitsa)", "AS13236", "DATACOM LTD"]),
     ("95.87.252.178", ["Sofia, Sofia (stolitsa)", "AS43561", "NET1 Ltd."]),
     ("195.110.24.248", ["Sofia, Sofia (stolitsa)", "AS42191", "State Fund Agriculture"]),
     ("91.215.219.133", ["Plovdiv, Plovdiv ", "AS49699", "Internet Corporated Networks Ltd."])]),
   ("bf",
    [("196.28.245.26", ["Ouagadougou, Kadiogo", "AS25543", "ONATEL (Office National des Telecommunications, PTT)"])])]

/-- All the addresses of a deny table, country after country. -/
def addresses (table : List (String × List (String × List String))) : List String :=
  table.flatMap (fun country => country.2.map (fun entry => entry.1))

/-- The environment of the program under the models above: the codec splits at dots,
addresses are parsed as dotted quads, and every range over `denylist` visits it in
the order of the source text. -/
def goEnv : Env :=
  { SplitDomainName := splitDomainName, ParseIP := parseIP, denylistRange := fun _ => denylist }

/-- Every range over the `denylist` map visits every address of the table: what Go
guarantees for a map that is not modified while it is ranged over. -/
def Covers (env : Env) : Prop :=
  ∀ (p : Nat) (ip : String), ip ∈ addresses denylist → ip ∈ addresses (env.denylistRange p)

/-- The entry has a TCP address, and it is one of the addresses of the deny table (as
`reflect.DeepEqual` compares it with what `net.ParseIP` makes of the table's text). -/
def Listed (env : Env) (e : ServerInfo) : Prop :=
  ∃ tcpAddr key, e.TCPAddr = some tcpAddr ∧ key ∈ addresses denylist ∧
    tcpAddr.IP = env.ParseIP key

/-- The fields of `CertInfo` that `fetchDNSCryptServerInfo` copies. -/
structure CertInfo where
  MagicQuery : List Nat
  ServerPk : List Nat
  SharedKey : List Nat
  CryptoConstruction : Nat
  deriving DecidableEq

/-- The fields of an `x509.Certificate` that `fetchDoHServerInfo` reads. -/
structure Certificate where
  RawTBSCertificate : List Nat
  Subject : String
  deriving DecidableEq

/-- The fields of a `tls.ConnectionState` that `fetchDoHServerInfo` reads. -/
structure TLSState where
  HandshakeComplete : Bool
  NegotiatedProtocol : String
  Version : Nat
  CipherSuite : Nat
  PeerCertificates : List Certificate
  deriving DecidableEq

/-- The fields of a `url.URL` that `fetchDoHServerInfo` sets. -/
structure URL where
  Scheme : String
  Host : String
  Path : String
  deriving DecidableEq

/-- The text of a URL, as `ServerInfo.URL` holds it in this development. -/
def URL.text (u : URL) : String := u.Scheme ++ "://" ++ u.Host ++ u.Path

/-- The state of `proxy.xTransport` that `fetchDoHServerInfo` writes: the addresses
saved by `saveCachedIP` (host, address, time to live in nanoseconds), newest first, and
`tlsClientCreds`. -/
structure XTransport where
  cachedIPs : List (String × NetIP × Int)
  tlsClientCreds : DOHClientCreds
  deriving DecidableEq

/-- The fields of `Proxy` that the probes read; a Go map is the list of its pairs, a nil
map pointer is `none`. -/
structure Proxy where
  routes : Option (List (String × List String))
  registeredRelays : List RegisteredServer
  registeredServers : List RegisteredServer
  serversBlockingFragments : List String
  skipAnonIncompatbibleResolvers : Bool
  mainProto : String
  timeout : Int
  showCerts : Bool
  dohCreds : Option (List (String × DOHClientCreds))
  xTransport : XTransport

/-- What the probes take from outside `serversInfo.go`: library calls, the network
and two constants. `DoHQuery` takes the number of the call within the probe and the
state of the transport, so that the network may answer each call differently. `Pack`
stands for building and packing the test message for a question name and an id, with
its 16 bytes of padding from `crypto/rand`. `FetchCurrentDNSCryptCert` returns its four
results whether or not the last one is an error. -/
structure Deps where
  NewServerStampFromString : String → Except String ServerStamp
  ResolveUDPAddr : String → Except String NetUDPAddr
  ResolveTCPAddr : String → Except String NetTCPAddr
  hexDecode : List Nat → Except String (List Nat)
  FetchCurrentDNSCryptCert : Proxy → String → String → List Nat → String → String → Bool →
    Option NetUDPAddr → Option NetTCPAddr → ServerBugs → CertInfo × Int × Bool × Option String
  ExtractHostAndPort : String → Int → String × Int
  ParseIP : String → NetIP
  Pack : String → Nat → Except String (List Nat)
  DoHQuery : Nat → XTransport → Bool → URL → List Nat → Int →
    Except String (List Nat × Option TLSState × Int)
  Unpack : List Nat → Except String Nat
  Sum256 : List Nat → List Nat
  MinDNSPacketSize : Int
  MaxDNSPacketSize : Int

/-- A lookup in a Go map held as the list of its pairs. -/
def mapLookup {α : Type} (m : List (String × α)) (key : String) : Option α :=
  (m.find? (fun kv => kv.1 = key)).map (fun kv => kv.2)

/-- The stamp of the first entry of a registration table named `relayName`: the loop
`for _, registeredServer := range table` of `route` with its `break`. -/
def findStamp (table : List RegisteredServer) (relayName : String) : Option ServerStamp :=
  (table.find? (fun r => r.name = relayName)).map (fun r => r.stamp)

/-- The relay stamp that `route` settles on for `relayName`: a parsable stamp, else a
bare `host:port` that resolves, else the registered relays searched first and the
registered servers searched second, each search assigning on a find. -/
def relayCandidateStamp (deps : Deps) (proxy : Proxy) (relayName : String) :
    Option ServerStamp :=
  match deps.NewServerStampFromString relayName with
  | .ok relayStamp => some relayStamp
  | .error _ =>
    match deps.ResolveUDPAddr relayName with
    | .ok _ =>
      some { ServerAddrStr := relayName, ServerPk := [], Hashes := [], ProviderName := "",
             Path := "", Proto := .DNSCryptRelay }
    | .error _ =>
      let afterRelays := findStamp proxy.registeredRelays relayName
      match findStamp proxy.registeredServers relayName with
      | some stamp => some stamp
      | none => afterRelays

/-- Go: `func route(proxy *Proxy, name string) (*net.UDPAddr, *net.TCPAddr, error)`. -/
def route (deps : Deps) (proxy : Proxy) (name : String) (g : Rng) :
    Res (Except String (Option NetUDPAddr × Option NetTCPAddr) × Rng) :=
  match proxy.routes with
  | none => .ok (.ok (none, none), g)
  | some routes =>
    let found : Option (List String) :=
      match mapLookup routes name with
      | some relayNames => some relayNames
      | none => mapLookup routes "*"
    match found with
    | none => .ok (.ok (none, none), g)
    | some relayNames =>
      let drawn : Res (String × Rng) :=
        if relayNames.length > 0 then
          match randIntn g (relayNames.length : Int) with
          | .stop why => .stop why
          | .ok (candidate, g1) =>
            match index relayNames candidate with
            | .stop why => .stop why
            | .ok relayName => .ok (relayName, g1)
        else .ok ("", g)
      match drawn with
      | .stop why => .stop why
      | .ok (relayName, g1) =>
        if relayName.length = 0 then
          .ok (.error ("Route declared for [" ++ name ++ "] but an empty relay list"), g1)
        else
          match relayCandidateStamp deps proxy relayName with
          | none =>
            .ok (.error ("Undefined relay [" ++ relayName ++ "] for server [" ++ name ++ "]"),
              g1)
          | some stamp =>
            if stamp.Proto = .DNSCrypt ∨ stamp.Proto = .DNSCryptRelay then
              match deps.ResolveUDPAddr stamp.ServerAddrStr with
              | .error err => .ok (.error err, g1)
              | .ok relayUDPAddr =>
                match deps.ResolveTCPAddr stamp.ServerAddrStr with
                | .error err => .ok (.error err, g1)
                | .ok relayTCPAddr => .ok (.ok (some relayUDPAddr, some relayTCPAddr), g1)
            else
              .ok (.error ("Invalid relay [" ++ relayName ++ "] for server [" ++ name ++ "]"),
                g1)
/-- Go: `ed25519.PublicKeySize`. -/
def PublicKeySize : Nat := 32

/-- The first block of `fetchDNSCryptServerInfo`: a public key that has not the size of
an Ed25519 key is read as hexadecimal text, its colons removed; if that fails,
`dlog.Fatalf` ends the process. -/
def fixServerPk (deps : Deps) (stamp : ServerStamp) : Res (List Nat) :=
  if stamp.ServerPk.length ≠ PublicKeySize then
    match deps.hexDecode (stamp.ServerPk.filter (fun b => b ≠ 58)) with
    | .error _ => .stop .fatal
    | .ok serverPk => if serverPk.length ≠ PublicKeySize then .stop .fatal else .ok serverPk
  else .ok stamp.ServerPk

/-- The loop over `proxy.serversBlockingFragments` of `fetchDNSCryptServerInfo`. -/
def configuredBugs (proxy : Proxy) (name : String) : ServerBugs :=
  { fragmentsBlocked := proxy.serversBlockingFragments.any (fun buggy => buggy = name) }

/-- Go: `func fetchDNSCryptServerInfo(proxy *Proxy, name string, stamp
stamps.ServerStamp, isNew bool) (ServerInfo, error)`. The certificate fetch receives
`&name` and is taken not to write through it. -/
def fetchDNSCryptServerInfo (deps : Deps) (proxy : Proxy) (name : String) (stamp : ServerStamp)
    (isNew : Bool) (g : Rng) : Res (Except String ServerInfo × Rng) :=
  match fixServerPk deps stamp with
  | .stop why => .stop why
  | .ok serverPk =>
    let knownBugs := configuredBugs proxy name
    match route deps proxy name g with
    | .stop why => .stop why
    | .ok (.error err, g1) => .ok (.error err, g1)
    | .ok (.ok (relayUDPAddr, relayTCPAddr), g1) =>
      let fetched := deps.FetchCurrentDNSCryptCert proxy name proxy.mainProto serverPk
        stamp.ServerAddrStr stamp.ProviderName isNew relayUDPAddr relayTCPAddr knownBugs
      let certInfo := fetched.1
      let rtt := fetched.2.1
      let fragmentsBlocked := fetched.2.2.1
      let err := fetched.2.2.2
      let knownBugs1 : ServerBugs :=
        if ¬ knownBugs.fragmentsBlocked = true ∧ fragmentsBlocked = true then
          { knownBugs with fragmentsBlocked := true }
        else knownBugs
      let incompatible : Bool :=
        knownBugs1.fragmentsBlocked && (relayUDPAddr.isSome || relayTCPAddr.isSome)
      if incompatible = true ∧ proxy.skipAnonIncompatbibleResolvers = true then
        .ok (.error "Resolver is incompatible with anonymization", g1)
      else
        let relayUDPAddr1 := if incompatible then none else relayUDPAddr
        let relayTCPAddr1 := if incompatible then none else relayTCPAddr
        match err with
        | some e => .ok (.error e, g1)
        | none =>
          match deps.ResolveUDPAddr stamp.ServerAddrStr with
          | .error e => .ok (.error e, g1)
          | .ok remoteUDPAddr =>
            match deps.ResolveTCPAddr stamp.ServerAddrStr with
            | .error e => .ok (.error e, g1)
            | .ok remoteTCPAddr =>
              .ok (.ok
                { Proto := .DNSCrypt, MagicQuery := certInfo.MagicQuery,
                  ServerPk := certInfo.ServerPk, SharedKey := certInfo.SharedKey,
                  CryptoConstruction := certInfo.CryptoConstruction, Name := name,
                  Timeout := proxy.timeout, URL := none, HostName := "",
                  UDPAddr := some remoteUDPAddr, TCPAddr := some remoteTCPAddr,
                  RelayUDPAddr := relayUDPAddr1, RelayTCPAddr := relayTCPAddr1,
                  knownBugs := knownBugs1, lastActionTS := 0,
                  rtt := { decay := 0, value := 0, count := 0 }, initialRtt := rtt,
                  useGet := false,
                  DOHClientCreds := { clientCert := "", clientKey := "", rootCA := "" } },
                g1)

/-- Go: `func dohTestPacket(msgID uint16) []byte`: the packed question for the root
name; `dlog.Fatal` ends the process if packing fails. -/
def dohTestPacket (deps : Deps) (msgID : Nat) : Res (List Nat) :=
  match deps.Pack "." msgID with
  | .error _ => .stop .fatal
  | .ok body => .ok body

/-- The loop `for i := range qName` of `dohNXTestPacket`: each letter is
`charset[rand.Intn(len(charset))]` over the 26 small letters. -/
def drawLetters : Nat → Rng → Res (List Char × Rng)
  | 0, g => .ok ([], g)
  | k + 1, g =>
    match randIntn g 26 with
    | .stop why => .stop why
    | .ok (c, g1) =>
      match drawLetters k g1 with
      | .stop why => .stop why
      | .ok (cs, g2) => .ok (Char.ofNat (97 + c.toNat) :: cs, g2)

/-- Go: `func dohNXTestPacket(msgID uint16) []byte`: the packed question for a name of
16 random letters under `test.dnscrypt.`. -/
def dohNXTestPacket (deps : Deps) (msgID : Nat) (g : Rng) : Res (List Nat × Rng) :=
  match drawLetters 16 g with
  | .stop why => .stop why
  | .ok (qName, g1) =>
    match deps.Pack (String.mk qName ++ ".test.dnscrypt.") msgID with
    | .error _ => .stop .fatal
    | .ok body => .ok (body, g1)

/-- The inner loop `for _, hash := range stamp.Hashes` of the pinning step, for a
certificate whose digest is `h`: only entries of the length of a digest are compared,
and a match breaks out. -/
def hashPinned (h : List Nat) : List (List Nat) → Bool
  | [] => false
  | hash :: rest =>
    if hash.length = 32 then
      if h = hash then true else hashPinned h rest
    else hashPinned h rest

/-- The outer loop `for _, cert := range tls.PeerCertificates` of the pinning step:
the value of `found` after it. -/
def certPinned (deps : Deps) (hashes : List (List Nat)) : List Certificate → Bool
  | [] => false
  | cert :: rest =>
    if hashPinned (deps.Sum256 cert.RawTBSCertificate) hashes then true
    else certPinned deps hashes rest

/-- The test of the response in `fetchDoHServerInfo`, `true` when the response is
unexpected: the disjunction is evaluated from the left and stops at the first
disjunct that holds, and a byte is read by indexing. -/
def unexpectedResponse (deps : Deps) (respBody : List Nat) : Res Bool :=
  if (respBody.length : Int) < deps.MinDNSPacketSize then .ok true
  else if (respBody.length : Int) > deps.MaxDNSPacketSize then .ok true
  else
    match index respBody 0 with
    | .stop why => .stop why
    | .ok b0 =>
      if b0 ≠ 202 then .ok true
      else
        match index respBody 1 with
        | .stop why => .stop why
        | .ok b1 =>
          if b1 ≠ 254 then .ok true
          else
            match index respBody 4 with
            | .stop why => .stop why
            | .ok b4 =>
              if b4 ≠ 0 then .ok true
              else
                match index respBody 5 with
                | .stop why => .stop why
                | .ok b5 => .ok (decide (b5 ≠ 1))

/-- What the queries of `fetchDoHServerInfo` hand to its checks: the method that
worked, the URL, and the three results of the last `DoHQuery`. -/
structure DohAnswer where
  useGet : Bool
  url : URL
  serverResponse : List Nat
  tls : Option TLSState
  rtt : Int
  deriving DecidableEq
/-- Go: `func (xTransport *XTransport) saveCachedIP(host string, ip net.IP, ttl
time.Duration)`, as far as this development records it. -/
def XTransport.saveCachedIP (xt : XTransport) (host : String) (ip : NetIP) (ttl : Int) :
    XTransport :=
  { xt with cachedIPs := (host, ip, ttl) :: xt.cachedIPs }

/-- The first part of `fetchDoHServerInfo`, up to the query for a name that does not
exist: it saves an address given in the stamp, builds the URL and the test packet,
looks up the client credentials under the name and then under `*` (through the
pointer `proxy.dohCreds`), tries a POST and then a GET, and sends the second test
packet with the method that worked. The result holds the transport and the generator
after the calls. -/
def dohQueries (deps : Deps) (proxy : Proxy) (name : String) (stamp : ServerStamp) (g : Rng) :
    Res (Except String DohAnswer × XTransport × Rng) :=
  let xt0 : XTransport :=
    if stamp.ServerAddrStr.length > 0 then
      let ipOnly := (deps.ExtractHostAndPort stamp.ServerAddrStr (-1)).1
      match deps.ParseIP ipOnly with
      | some ip => proxy.xTransport.saveCachedIP stamp.ProviderName (some ip) (-1 * 1000000000)
      | none => proxy.xTransport
    else proxy.xTransport
  let url : URL := { Scheme := "https", Host := stamp.ProviderName, Path := stamp.Path }
  match dohTestPacket deps 51966 with
  | .stop why => .stop why
  | .ok body =>
    match proxy.dohCreds with
    | none => .stop .nilDereference
    | some creds =>
      let found : Option DOHClientCreds :=
        match mapLookup creds name with
        | some c => some c
        | none => mapLookup creds "*"
      let xt1 : XTransport :=
        match found with
        | some dohClientCreds => { xt0 with tlsClientCreds := dohClientCreds }
        | none => xt0
      let method : Except String (Bool × Nat) :=
        match deps.DoHQuery 0 xt1 false url body proxy.timeout with
        | .ok _ => .ok (false, 1)
        | .error _ =>
          match deps.DoHQuery 1 xt1 true url body proxy.timeout with
          | .ok _ => .ok (true, 2)
          | .error err => .error err
      match method with
      | .error err => .ok (.error err, xt1, g)
      | .ok (useGet, calls) =>
        match dohNXTestPacket deps 51966 g with
        | .stop why => .stop why
        | .ok (body1, g1) =>
          match deps.DoHQuery calls xt1 useGet url body1 proxy.timeout with
          | .error err => .ok (.error err, xt1, g1)
          | .ok (serverResponse, tls, rtt) =>
            .ok (.ok { useGet := useGet, url := url, serverResponse := serverResponse,
                       tls := tls, rtt := rtt }, xt1, g1)

/-- The second part of `fetchDoHServerInfo`, from the test of the TLS state on: the
handshake, the parse of the response, the pinning step, the test of the response and
the `ServerInfo` that is returned. -/
def dohChecks (deps : Deps) (proxy : Proxy) (name : String) (stamp : ServerStamp)
    (answer : DohAnswer) : Res (Except String ServerInfo) :=
  match answer.tls with
  | none => .ok (.error "TLS handshake failed")
  | some tls =>
    if ¬ tls.HandshakeComplete = true then .ok (.error "TLS handshake failed")
    else
      match deps.Unpack answer.serverResponse with
      | .error err => .ok (.error err)
      | .ok _ =>
        let found := certPinned deps stamp.Hashes tls.PeerCertificates
        if ¬ found = true ∧ stamp.Hashes.length > 0 then
          .ok (.error "Certificate hash not found")
        else
          match unexpectedResponse deps answer.serverResponse with
          | .stop why => .stop why
          | .ok true => .ok (.error "Webserver returned an unexpected response")
          | .ok false =>
            let xrtt : Int := Int.tdiv answer.rtt 1000000
            .ok (.ok
              { Proto := .DoH, MagicQuery := [], ServerPk := [], SharedKey := [],
                CryptoConstruction := 0, Name := name, Timeout := proxy.timeout,
                URL := some answer.url.text, HostName := stamp.ProviderName,
                UDPAddr := none, TCPAddr := none, RelayUDPAddr := none, RelayTCPAddr := none,
                knownBugs := { fragmentsBlocked := false }, lastActionTS := 0,
                rtt := { decay := 0, value := 0, count := 0 }, initialRtt := xrtt,
                useGet := answer.useGet,
                DOHClientCreds := { clientCert := "", clientKey := "", rootCA := "" } })

/-- Go: `func fetchDoHServerInfo(proxy *Proxy, name string, stamp stamps.ServerStamp,
isNew bool) (ServerInfo, error)`; `isNew` only chooses the level of a log line. -/
def fetchDoHServerInfo (deps : Deps) (proxy : Proxy) (name : String) (stamp : ServerStamp)
    (_isNew : Bool) (g : Rng) : Res (Except String ServerInfo × XTransport × Rng) :=
  match dohQueries deps proxy name stamp g with
  | .stop why => .stop why
  | .ok (.error err, xt, g1) => .ok (.error err, xt, g1)
  | .ok (.ok answer, xt, g1) =>
    match dohChecks deps proxy name stamp answer with
    | .stop why => .stop why
    | .ok result => .ok (result, xt, g1)

/-- Go: `func fetchServerInfo(proxy *Proxy, name string, stamp stamps.ServerStamp,
isNew bool) (ServerInfo, error)`. -/
def fetchServerInfo (deps : Deps) (proxy : Proxy) (name : String) (stamp : ServerStamp)
    (isNew : Bool) (g : Rng) : Res (Except String ServerInfo × XTransport × Rng) :=
  if stamp.Proto = .DNSCrypt then
    match fetchDNSCryptServerInfo deps proxy name stamp isNew g with
    | .stop why => .stop why
    | .ok (result, g1) => .ok (result, proxy.xTransport, g1)
  else if stamp.Proto = .DoH then fetchDoHServerInfo deps proxy name stamp isNew g
  else .ok (.error "Unsupported protocol", proxy.xTransport, g)

/-- The value of the variable `partialSort` of `estimatorUpdate` when the step ends
(`false` also when the step returns at once or does not return): whether the step
promoted the drawn candidate or gave it a new chance. -/
def partialSort (s : ServersInfo) (now : Int) (g : Rng) : Bool :=
  match randIntn g (s.inner.length : Int) with
  | .stop _ => false
  | .ok (candidate, _) =>
    if candidate = 0 then false
    else
      match index s.inner candidate, index s.inner 0 with
      | .ok cand, .ok best =>
        let candidateRtt := cand.rtt.Value
        let seeded : Bool := decide (best.rtt.Value < 0)
        let currentBestRtt := if seeded then candidateRtt else best.rtt.Value
        let promoted : Bool := decide (candidateRtt < currentBestRtt)
        let rehabilitated : Bool :=
          !promoted && decide (candidateRtt > 0 ∧ candidateRtt ≥ currentBestRtt * 4) &&
            decide (now - cand.lastActionTS > 60000000000)
        promoted || rehabilitated
      | _, _ => false

/-- An entry apart from its moving average. The live list holds pointers, and the
average is the one field that the estimator step writes through them: two values with
the same `withoutRtt` stand for the same entry of the Go slice. -/
def withoutRtt (e : ServerInfo) : ServerInfo :=
  { e with rtt := { decay := 0, value := 0, count := 0 } }

/-- The bytes of a `net.IP`; the nil slice has none. -/
def ipBytes : NetIP → List Nat
  | none => []
  | some bytes => bytes

/-- Go: `v4InV6Prefix`, the 12 bytes that precede an IPv4 address in its 16-byte form. -/
def v4InV6Prefix : List Nat := [0, 0, 0, 0, 0, 0, 0, 0, 0, 0, 255, 255]

/-- Go: `func (ip IP) Equal(x IP) bool` of package `net`: whether two slices are the
same IP address; an IPv4 address and the same address in its 16-byte form are equal. -/
def ipEqual (ip x : NetIP) : Bool :=
  let a := ipBytes ip
  let b := ipBytes x
  if a.length = b.length then a == b
  else if a.length = 4 ∧ b.length = 16 then b.take 12 == v4InV6Prefix && a == b.drop 12
  else if a.length = 16 ∧ b.length = 4 then a.take 12 == v4InV6Prefix && a.drop 12 == b
  else false

/-! ## Worked examples -/

/-- A stamp for `addr` with the given protocol, used in the worked examples. -/
def sampleStamp (addr : String) (proto : StampProtoType) : ServerStamp :=
  { ServerAddrStr := addr, ServerPk := [], Hashes := [], ProviderName := "", Path := "",
    Proto := proto }

/-- Three calls, the third re-registering the first name with another stamp. -/
def sampleCalls : List (String × ServerStamp) :=
  [("a", sampleStamp "192.0.2.1:443" .DNSCrypt), ("b", sampleStamp "192.0.2.2:443" .DNSCrypt),
   ("a", sampleStamp "192.0.2.3:443" .DNSCrypt)]

/-- The `ServerInfo` a successful DNSCrypt probe of `name` builds, with initial
round-trip time `rtt` (milliseconds) and the server reached at `192.0.2.1:443`. -/
def sampleInfo (name : String) (rtt : Int) : ServerInfo :=
  { Proto := .DNSCrypt, MagicQuery := [], ServerPk := [], SharedKey := [],
    CryptoConstruction := 0, Name := name, Timeout := 2500000000, URL := none, HostName := "",
    UDPAddr := some { IP := some [192, 0, 2, 1], Port := 443, Zone := "" },
    TCPAddr := some { IP := some [192, 0, 2, 1], Port := 443, Zone := "" },
    RelayUDPAddr := none, RelayTCPAddr := none, knownBugs := { fragmentsBlocked := false },
    lastActionTS := 0, rtt := { decay := 0, value := 0, count := 0 }, initialRtt := rtt,
    useGet := false, DOHClientCreds := { clientCert := "", clientKey := "", rootCA := "" } }

/-- A probe that succeeds after 30 ms. -/
def okProbe : Probe := fun name _ _ => .ok (sampleInfo name 30)

/-- A probe that fails. -/
def failedProbe : Probe := fun _ _ _ => .error "i/o timeout"

/-- A registry in which `a` has been registered and nothing has been probed yet. -/
def registeredOnly : ServersInfo :=
  registerServer NewServersInfo "a" (sampleStamp "192.0.2.1:443" .DNSCrypt)

/-- A registry in which `b` and then `a` have been registered. -/
def registeredTwo : ServersInfo :=
  registerAll NewServersInfo
    [("b", sampleStamp "192.0.2.2:443" .DNSCrypt), ("a", sampleStamp "192.0.2.1:443" .DNSCrypt)]

/-- The probes of a pass in which the first probe fails and every later one succeeds. -/
def firstProbeFails : Nat → Probe := fun i => if i = 0 then failedProbe else okProbe

/-- The probes of a pass in which the first probe succeeds and every later one fails. -/
def laterProbesFail : Nat → Probe := fun i => if i = 0 then okProbe else failedProbe

/-- The registry an outcome of `refresh` leaves, `fallback` if the call did not return. -/
def registryAfter (r : Res (ServersInfo × Int × Option String)) (fallback : ServersInfo) :
    ServersInfo :=
  match r with
  | .ok (s1, _, _) => s1
  | .stop _ => fallback

/-- The registry after `a` was registered and a first refresh probed it with success. -/
def liveOnce : ServersInfo :=
  registryAfter (refresh (fun _ => okProbe) registeredOnly) registeredOnly

/-- The registry `liveOnce` after one query to `a` failed (`noticeFailure` with the
timeout of 2.5 s): the average of `a` has moved away from its initial 30 ms. -/
def afterFailure : ServersInfo :=
  liveOnce.feedback 0 (fun e => e.noticeFailure 2500000000)

/-- An environment with an empty deny table, a codec that finds no label and an
address parser that rejects every text. -/
def sampleEnv : Env :=
  { SplitDomainName := fun _ => [], ParseIP := fun _ => none, denylistRange := fun _ => [] }

/-- Three live servers `a`, `b`, `c`, each seeded with the 30 ms of its probe. -/
def threeLive : List ServerInfo :=
  [seedRtt (sampleInfo "a" 30), seedRtt (sampleInfo "b" 30), seedRtt (sampleInfo "c" 30)]

/-- Three consecutive selects for the same query name. -/
def threeCalls : List (String × Int × Rng) :=
  [("example.com.", 0, fun _ => 0), ("example.com.", 1, fun _ => 0),
   ("example.com.", 2, fun _ => 0)]

/-- The registry of seed scenario S2: policy `hash`, estimator off, live servers `a`,
`b`, `c`. -/
def hashRegistry : ServersInfo :=
  { inner := threeLive, registeredServers := [], lbStrategy := .Hash, lbStrategyStr := "hash",
    lbEstimator := false, prevCandidate := 0 }

/-- The entry of seed scenario S3 that is reached at `180.94.94.194`, the first address
of the deny table. -/
def listedInfo (name : String) : ServerInfo :=
  { seedRtt (sampleInfo name 30) with
    TCPAddr := some { IP := parseIP "180.94.94.194", Port := 443, Zone := "" } }

/-- The registry of seed scenario S3: policy `la` over the strategy `p2`, estimator off,
live servers `x` (listed) and `y` (not listed). -/
def laRegistry : ServersInfo :=
  { inner := [listedInfo "x", seedRtt (sampleInfo "y" 30)], registeredServers := [],
    lbStrategy := .P2, lbStrategyStr := "la", lbEstimator := false, prevCandidate := 0 }

/-- A generator whose first two draws pick index 0 and whose third picks index 1. -/
def laDraws : Rng := fun k => if k = 2 then 1 else 0

/-- Dependencies for the worked examples of the probes: every `host:port` resolves to
`192.0.2.9`, no text is a stamp, the certificate fetch succeeds after 30 ms and
observes that fragments are blocked, the first HTTPS query (a POST) fails and the later
ones return a 17-byte response that echoes the id `0xcafe` with one question, over a
connection that presents one certificate. -/
def sampleDeps : Deps :=
  { NewServerStampFromString := fun _ => .error "invalid stamp",
    ResolveUDPAddr := fun _ => .ok { IP := some [192, 0, 2, 9], Port := 443, Zone := "" },
    ResolveTCPAddr := fun _ => .ok { IP := some [192, 0, 2, 9], Port := 443, Zone := "" },
    hexDecode := fun _ => .error "encoding/hex: invalid byte",
    FetchCurrentDNSCryptCert := fun _ _ _ pk _ _ _ _ _ _ =>
      ({ MagicQuery := [], ServerPk := pk, SharedKey := [], CryptoConstruction := 1 }, 30, true,
        none),
    ExtractHostAndPort := fun s _ => (s, 443),
    ParseIP := parseIP,
    Pack := fun _ _ => .ok [202, 254, 1, 0, 0, 1, 0, 0, 0, 0, 0, 0, 0, 0, 2, 0, 1],
    DoHQuery := fun k _ _ _ _ _ =>
      if k = 0 then .error "405 Method Not Allowed"
      else .ok ([202, 254, 129, 131, 0, 1, 0, 0, 0, 0, 0, 0, 0, 0, 2, 0, 1],
        some { HandshakeComplete := true, NegotiatedProtocol := "h2", Version := 772,
               CipherSuite := 4865,
               PeerCertificates := [{ RawTBSCertificate := [1, 2, 3], Subject := "CN=doh" }] },
        42000000),
    Unpack := fun _ => .ok 3,
    Sum256 := fun bs => (bs ++ List.replicate 32 0).take 32,
    MinDNSPacketSize := 17,
    MaxDNSPacketSize := 4096 }

/-- A configuration that routes every server through the relay `192.0.2.9:443` and
ignores resolvers that are incompatible with anonymization. -/
def sampleProxy : Proxy :=
  { routes := some [("*", ["192.0.2.9:443"])], registeredRelays := [], registeredServers := [],
    serversBlockingFragments := [], skipAnonIncompatbibleResolvers := true, mainProto := "udp",
    timeout := 2500000000, showCerts := false, dohCreds := some [],
    xTransport := { cachedIPs := [],
                    tlsClientCreds := { clientCert := "", clientKey := "", rootCA := "" } } }

/-- A DNSCrypt stamp with a public key of 32 bytes. -/
def keyedStamp : ServerStamp :=
  { ServerAddrStr := "192.0.2.1:443", ServerPk := List.replicate 32 7, Hashes := [],
    ProviderName := "2.dnscrypt-cert.example", Path := "", Proto := .DNSCrypt }

/-- A DoH stamp that pins the digest of the certificate that `sampleDeps` presents. -/
def pinnedStamp : ServerStamp :=
  { ServerAddrStr := "192.0.2.1:443", ServerPk := [], Hashes := [[1, 2, 3] ++ List.replicate 29 0],
    ProviderName := "doh.example", Path := "/dns-query", Proto := .DoH }

/-- A DoH stamp that pins a digest which no certificate of `sampleDeps` has. -/
def mispinnedStamp : ServerStamp :=
  { pinnedStamp with Hashes := [List.replicate 32 9] }

/-- The answer that the queries of the worked examples hand to the checks. -/
def sampleAnswer : DohAnswer :=
  { useGet := true,
    url := { Scheme := "https", Host := "doh.example", Path := "/dns-query" },
    serverResponse := [202, 254, 129, 131, 0, 1, 0, 0, 0, 0, 0, 0, 0, 0, 2, 0, 1],
    tls := some { HandshakeComplete := true, NegotiatedProtocol := "h2", Version := 772,
                  CipherSuite := 4865,
                  PeerCertificates := [{ RawTBSCertificate := [1, 2, 3], Subject := "CN=doh" }] },
    rtt := 42000000 }

/-- The initial round-trip times of seed scenario S1, by name. -/
def rttScenarioOne (name : String) : Int :=
  if name = "a" then 30 else if name = "b" then 10 else 20

/-- A registry in which `a`, `b` and `c` have been registered. -/
def registeredThree : ServersInfo :=
  registerAll NewServersInfo
    [("a", sampleStamp "192.0.2.1:443" .DNSCrypt), ("b", sampleStamp "192.0.2.2:443" .DNSCrypt),
     ("c", sampleStamp "192.0.2.3:443" .DNSCrypt)]

/-- The registry of seed scenario S1: policy `p2`, estimator on, live list `a` (30 ms),
`b` (10 ms), `c` (20 ms), as a refresh of `registeredThree` leaves it. -/
def scenarioOne : ServersInfo :=
  registryAfter
    (refresh (fun _ name _ _ => .ok (sampleInfo name (rttScenarioOne name))) registeredThree)
    registeredThree

/-- The registry of seed scenario S6: live list `a` (10 ms), `b` (50 ms), both last used
at instant 0, as a refresh of `registeredTwo` leaves it. -/
def scenarioSix : ServersInfo :=
  registryAfter
    (refresh (fun _ name _ _ => .ok (sampleInfo name (if name = "a" then 10 else 50)))
      registeredTwo)
    registeredTwo

/-- Dependencies in which only the two addresses `198.51.100.1:443` and
`203.0.113.5:443` resolve, each to itself, and no text is a stamp. -/
def routeDeps : Deps :=
  { sampleDeps with
    ResolveUDPAddr := fun addr =>
      if addr = "198.51.100.1:443" then .ok { IP := some [198, 51, 100, 1], Port := 443, Zone := "" }
      else if addr = "203.0.113.5:443" then
        .ok { IP := some [203, 0, 113, 5], Port := 443, Zone := "" }
      else .error "missing port in address",
    ResolveTCPAddr := fun addr =>
      if addr = "198.51.100.1:443" then .ok { IP := some [198, 51, 100, 1], Port := 443, Zone := "" }
      else if addr = "203.0.113.5:443" then
        .ok { IP := some [203, 0, 113, 5], Port := 443, Zone := "" }
      else .error "missing port in address" }

/-- A configuration that routes every server through the relay named `relay-x`, a name
under which a relay at `198.51.100.1:443` is registered among the relays and a server
at `203.0.113.5:443` among the servers. -/
def collidingProxy : Proxy :=
  { sampleProxy with
    routes := some [("*", ["relay-x"])],
    registeredRelays :=
      [{ name := "relay-x", stamp := sampleStamp "198.51.100.1:443" .DNSCryptRelay,
         description := "" }],
    registeredServers :=
      [{ name := "relay-x", stamp := sampleStamp "203.0.113.5:443" .DNSCrypt,
         description := "" }] }

/-- The probe of the worked examples of policy `la`: `fetchServerInfo` with `sampleDeps`
and `sampleProxy`. An outcome that does not return is reported as an error; none
occurs in the examples. -/
def sampleProbe : Probe := fun name stamp isNew =>
  match fetchServerInfo sampleDeps sampleProxy name stamp isNew (fun _ => 0) with
  | .ok (result, _, _) => result
  | .stop _ => .error "the probe did not return"

/-- A registry with policy `la` over the strategy `p2`, estimator off, in which the DoH
server `doh` has been registered. -/
def registeredDoh : ServersInfo :=
  registerServer
    { NewServersInfo with lbStrategy := .P2, lbStrategyStr := "la", lbEstimator := false }
    "doh" pinnedStamp

/-- The registry after a refresh of `registeredDoh` in which `fetchDoHServerInfo` probed
`doh` with success: `doh` is live. -/
def dohLive : ServersInfo :=
  registryAfter (refresh (fun _ => sampleProbe) registeredDoh) registeredDoh

/-- A registry with policy `rr`, estimator off, in which `a`, `b` and `c` have been
registered. -/
def rrRegistered : ServersInfo :=
  registerAll
    { NewServersInfo with lbStrategy := .RR, lbStrategyStr := "rr", lbEstimator := false }
    [("a", sampleStamp "192.0.2.1:443" .DNSCrypt), ("b", sampleStamp "192.0.2.2:443" .DNSCrypt),
     ("c", sampleStamp "192.0.2.3:443" .DNSCrypt)]

/-- The registry after a refresh of `rrRegistered` whose probes succeed: `a`, `b` and
`c` are live and `prevCandidate` is still 0. -/
def rrLive : ServersInfo :=
  registryAfter (refresh (fun _ => okProbe) rrRegistered) rrRegistered

/-- A probe that succeeds after 30 ms and reaches the server at `180.94.94.194`, with
the address held in the 4-byte form in which the resolver returns the address of an A
record. -/
def fourByteProbe : Probe := fun name _ _ =>
  .ok { sampleInfo name 30 with
        UDPAddr := some { IP := some [180, 94, 94, 194], Port := 443, Zone := "" },
        TCPAddr := some { IP := some [180, 94, 94, 194], Port := 443, Zone := "" } }

/-- A registry with policy `la` over the strategy `p2`, estimator off, in which the
server `x` has been registered under a host name. -/
def registeredFourByte : ServersInfo :=
  registerServer
    { NewServersInfo with lbStrategy := .P2, lbStrategyStr := "la", lbEstimator := false }
    "x" (sampleStamp "resolver.example:443" .DNSCrypt)

/-- The registry after a refresh of `registeredFourByte` with `fourByteProbe`: `x` is
live, at `180.94.94.194`. -/
def fourByteLive : ServersInfo :=
  registryAfter (refresh (fun _ => fourByteProbe) registeredFourByte) registeredFourByte

theorem firstIndex_eq_none {α : Type} (p : α → Bool) (l : List α) :
    firstIndex p l = none ↔ ∀ x ∈ l, p x = false := by
  induction l with
  | nil => simp [firstIndex]
  | cons x xs ih =>
    by_cases hx : p x = true
    · simp [firstIndex, hx]
    · simp [firstIndex, hx, ih]

theorem firstIndex_eq_some {α : Type} (p : α → Bool) (l : List α) (i : Nat)
    (h : firstIndex p l = some i) :
    ∃ hi : i < l.length, p l[i] = true ∧ ∀ j (hj : j < i), p (l[j]) = false := by
  induction l generalizing i with
  | nil => simp [firstIndex] at h
  | cons x xs ih =>
    by_cases hx : p x = true
    · simp [firstIndex, hx] at h
      subst h
      exact ⟨by simp, by simpa using hx, fun j hj => absurd hj (Nat.not_lt_zero j)⟩
    · simp only [firstIndex, hx, Bool.false_eq_true, if_false, Option.map_eq_some'] at h
      obtain ⟨k, hk, rfl⟩ := h
      obtain ⟨hk1, hk2, hk3⟩ := ih k hk
      refine ⟨by simpa using hk1, by simpa using hk2, ?_⟩
      intro j hj
      cases j with
      | zero => simpa using hx
      | succ j => simpa using hk3 j (by omega)

/-- The scan succeeds exactly at the first index whose element satisfies `p`. -/
theorem firstIndex_of_first {α : Type} (p : α → Bool) (l : List α) (i : Nat) (hi : i < l.length)
    (hp : p l[i] = true) (hmin : ∀ j (hj : j < i), p (l[j]) = false) :
    firstIndex p l = some i := by
  cases h : firstIndex p l with
  | none =>
    have := (firstIndex_eq_none p l).1 h l[i] (List.getElem_mem _)
    simp [hp] at this
  | some k =>
    obtain ⟨hk1, hk2, hk3⟩ := firstIndex_eq_some p l k h
    rcases Nat.lt_trichotomy k i with hlt | heq | hgt
    · have := hmin k hlt
      simp [hk2] at this
    · simp [heq]
    · have := hk3 i hgt
      simp [hp] at this

/-! ## `registerServer`: last write wins -/

theorem registerServer_names (s : ServersInfo) (name : String) (stamp : ServerStamp) :
    registeredNames (registerServer s name stamp) =
      if name ∈ registeredNames s then registeredNames s else registeredNames s ++ [name] := by
  unfold registerServer registeredNames
  cases h : firstIndex (fun oldRegisteredServer => oldRegisteredServer.name == name)
      s.registeredServers with
  | none =>
    have hall := (firstIndex_eq_none _ _).1 h
    have hnot : name ∉ s.registeredServers.map (fun r => r.name) := by
      intro hmem
      obtain ⟨r, hr, hrn⟩ := List.mem_map.1 hmem
      have := hall r hr
      simp [hrn] at this
    simp [hnot]
  | some i =>
    obtain ⟨hi, hp, -⟩ := firstIndex_eq_some _ _ i h
    have hname : s.registeredServers[i].name = name := by simpa using hp
    have hmem : name ∈ s.registeredServers.map (fun r => r.name) :=
      List.mem_map.2 ⟨s.registeredServers[i], List.getElem_mem _, hname⟩
    simp only [hmem, if_true, List.map_set]
    apply List.ext_getElem
    · simp
    · intro j h1 h2
      simp only [List.getElem_set, List.getElem_map]
      split
      · next hij => subst hij; exact hname.symm
      · rfl

theorem mem_firstOccurrences (a : String) (l : List String) :
    a ∈ firstOccurrences l ↔ a ∈ l := by
  induction l with
  | nil => simp [firstOccurrences]
  | cons b l ih =>
    simp only [firstOccurrences, List.mem_cons, List.mem_filter, ih]
    by_cases hab : a = b
    · simp [hab]
    · simp [hab]

theorem nodup_firstOccurrences (l : List String) : (firstOccurrences l).Nodup := by
  induction l with
  | nil => simp [firstOccurrences]
  | cons b l ih =>
    simp only [firstOccurrences, List.nodup_cons]
    exact ⟨by simp [List.mem_filter], ih.filter _⟩

theorem firstOccurrences_append (l : List String) (a : String) :
    firstOccurrences (l ++ [a]) =
      if a ∈ l then firstOccurrences l else firstOccurrences l ++ [a] := by
  induction l with
  | nil => simp [firstOccurrences]
  | cons b l ih =>
    have hstep : firstOccurrences (b :: l ++ [a]) =
        b :: (firstOccurrences (l ++ [a])).filter (fun x => x != b) := rfl
    rw [hstep, ih]
    simp only [firstOccurrences, List.mem_cons]
    by_cases hab : a = b
    · subst hab
      by_cases hal : a ∈ l
      · simp [hal]
      · simp [hal, List.filter_append]
    · by_cases hal : a ∈ l
      · simp [hal, hab]
      · simp [hal, hab, List.filter_append]

theorem registerAll_append (s : ServersInfo) (l : List (String × ServerStamp))
    (c : String × ServerStamp) :
    registerAll s (l ++ [c]) = registerServer (registerAll s l) c.1 c.2 := by
  simp [registerAll, List.foldl_append]

theorem registerAll_names (s0 : ServersInfo) (h0 : s0.registeredServers = [])
    (calls : List (String × ServerStamp)) :
    registeredNames (registerAll s0 calls) = firstOccurrences (calls.map (fun c => c.1)) := by
  induction calls using List.reverseRecOn with
  | nil => simp [registerAll, registeredNames, h0, firstOccurrences]
  | append_singleton l c ih =>
    rw [registerAll_append, registerServer_names, ih, List.map_append, List.map_singleton,
      firstOccurrences_append]
    simp only [mem_firstOccurrences]

theorem lastStamp_append (l : List (String × ServerStamp)) (c : String × ServerStamp)
    (name : String) :
    lastStamp (l ++ [c]) name = if c.1 = name then some c.2 else lastStamp l name := by
  unfold lastStamp
  by_cases h : c.1 = name
  · simp [h, List.find?_cons]
  · simp [h, List.find?_cons]

theorem registerAll_stamps (s0 : ServersInfo) (h0 : s0.registeredServers = [])
    (calls : List (String × ServerStamp)) :
    ∀ r ∈ (registerAll s0 calls).registeredServers, lastStamp calls r.name = some r.stamp := by
  induction calls using List.reverseRecOn with
  | nil => simp [registerAll, h0]
  | append_singleton l c ih =>
    intro r hr
    have hnodup : (registeredNames (registerAll s0 l)).Nodup := by
      rw [registerAll_names s0 h0]; exact nodup_firstOccurrences _
    rw [registerAll_append] at hr
    rw [lastStamp_append]
    unfold registerServer at hr
    cases h : firstIndex (fun oldRegisteredServer => oldRegisteredServer.name == c.1)
        (registerAll s0 l).registeredServers with
    | none =>
      rw [h] at hr
      have hall := (firstIndex_eq_none _ _).1 h
      simp only [List.mem_append, List.mem_singleton] at hr
      rcases hr with hr | hr
      · have hne : ¬ c.1 = r.name := by
          have := hall r hr
          intro hc
          simp [hc] at this
        simp [hne, ih r hr]
      · subst hr; simp
    | some i =>
      rw [h] at hr
      obtain ⟨hi, hp, -⟩ := firstIndex_eq_some _ _ i h
      have hname : (registerAll s0 l).registeredServers[i].name = c.1 := by simpa using hp
      obtain ⟨j, hj, hjr⟩ := List.mem_iff_getElem.1 hr
      simp only [List.getElem_set] at hjr
      by_cases hij : i = j
      · simp only [hij, if_true] at hjr
        subst hjr; simp
      · simp only [hij, if_false] at hjr
        have hj2 : j < (registerAll s0 l).registeredServers.length := by simpa using hj
        have hi3 : i < (registeredNames (registerAll s0 l)).length := by
          simpa [registeredNames] using hi
        have hj3 : j < (registeredNames (registerAll s0 l)).length := by
          simpa [registeredNames] using hj2
        have hne : ¬ c.1 = r.name := by
          intro hc
          have h1 : (registeredNames (registerAll s0 l))[i] =
              (registeredNames (registerAll s0 l))[j] := by
            simp only [registeredNames, List.getElem_map]
            rw [hname, hc, ← hjr]
          exact hij ((List.Nodup.getElem_inj_iff hnodup).1 h1)
        rw [if_neg hne]
        exact ih r (hjr ▸ List.getElem_mem _)

/-- One `registerServer` call on a registry whose name is already registered
rewrites one slot and nothing else. -/
theorem registerServer_present (t : ServersInfo) (name : String) (stamp : ServerStamp)
    (hmem : name ∈ registeredNames t) :
    ∃ i, i < t.registeredServers.length ∧
      (t.registeredServers[i]?).map (fun r => r.name) = some name ∧
      (∀ j, j < i → (t.registeredServers[j]?).map (fun r => r.name) ≠ some name) ∧
      (registerServer t name stamp).registeredServers.length = t.registeredServers.length ∧
      (registerServer t name stamp).registeredServers[i]? =
        some { name := name, stamp := stamp, description := "" } ∧
      ∀ j, j ≠ i →
        (registerServer t name stamp).registeredServers[j]? = t.registeredServers[j]? := by
  unfold registerServer
  cases h : firstIndex (fun oldRegisteredServer => oldRegisteredServer.name == name)
      t.registeredServers with
  | none =>
    have hall := (firstIndex_eq_none _ _).1 h
    obtain ⟨r, hr, hrn⟩ := List.mem_map.1 hmem
    have := hall r hr
    simp [hrn] at this
  | some i =>
    obtain ⟨hi, hp, hmin⟩ := firstIndex_eq_some _ _ i h
    refine ⟨i, hi, ?_, ?_, by simp, by simp [List.getElem?_set, hi], ?_⟩
    · simpa [List.getElem?_eq_getElem hi] using hp
    · intro j hj
      have hjl : j < t.registeredServers.length := by omega
      simpa [List.getElem?_eq_getElem hjl] using hmin j hj
    · intro j hj
      simp [List.getElem?_set, Ne.symm hj]

/-- One `registerServer` call with a name that is not registered appends. -/
theorem registerServer_absent (t : ServersInfo) (name : String) (stamp : ServerStamp)
    (hmem : name ∉ registeredNames t) :
    (registerServer t name stamp).registeredServers =
      t.registeredServers ++ [{ name := name, stamp := stamp, description := "" }] := by
  unfold registerServer
  cases h : firstIndex (fun oldRegisteredServer => oldRegisteredServer.name == name)
      t.registeredServers with
  | none => rfl
  | some i =>
    obtain ⟨hi, hp, -⟩ := firstIndex_eq_some _ _ i h
    exact absurd (List.mem_map.2 ⟨t.registeredServers[i], List.getElem_mem _, by simpa using hp⟩)
      hmem

/-- C1. `registerServer` is last-write-wins. Starting from a registry without
registered servers, after any finite sequence of calls the registered names are the
distinct names of the sequence, each once, in order of first occurrence, and every
entry carries the stamp of the last call made with its name. A further call with a
name already present rewrites the slot at the index where that name is and leaves the
length and every other slot unchanged; a call with a new name appends. The live list
is never touched. -/
theorem registerServer_last_write_wins (s0 : ServersInfo) (h0 : s0.registeredServers = [])
    (calls : List (String × ServerStamp)) :
    registeredNames (registerAll s0 calls) = firstOccurrences (calls.map (fun c => c.1)) ∧
    (registeredNames (registerAll s0 calls)).Nodup ∧
    (∀ r ∈ (registerAll s0 calls).registeredServers, lastStamp calls r.name = some r.stamp) ∧
    (registerAll s0 calls).inner = s0.inner ∧
    (∀ (name : String) (stamp : ServerStamp), name ∈ registeredNames (registerAll s0 calls) →
      ∃ i, i < (registerAll s0 calls).registeredServers.length ∧
        ((registerAll s0 calls).registeredServers[i]?).map (fun r => r.name) = some name ∧
        (registerServer (registerAll s0 calls) name stamp).registeredServers.length =
          (registerAll s0 calls).registeredServers.length ∧
        (registerServer (registerAll s0 calls) name stamp).registeredServers[i]? =
          some { name := name, stamp := stamp, description := "" } ∧
        ∀ j, j ≠ i →
          (registerServer (registerAll s0 calls) name stamp).registeredServers[j]? =
            (registerAll s0 calls).registeredServers[j]?) ∧
    (∀ (name : String) (stamp : ServerStamp), name ∉ registeredNames (registerAll s0 calls) →
      (registerServer (registerAll s0 calls) name stamp).registeredServers =
        (registerAll s0 calls).registeredServers ++
          [{ name := name, stamp := stamp, description := "" }]) := by
  refine ⟨registerAll_names s0 h0 calls, ?_, registerAll_stamps s0 h0 calls, ?_, ?_, ?_⟩
  · rw [registerAll_names s0 h0]
    exact nodup_firstOccurrences _
  · induction calls using List.reverseRecOn with
    | nil => rfl
    | append_singleton l c ih =>
      rw [registerAll_append, ← ih]
      unfold registerServer
      split <;> rfl
  · intro name stamp hmem
    obtain ⟨i, hi, h1, -, h3, h4, h5⟩ := registerServer_present _ name stamp hmem
    exact ⟨i, hi, h1, h3, h4, h5⟩
  · intro name stamp hmem
    exact registerServer_absent _ name stamp hmem

/-- C1 at `sampleCalls`: the registry ends with the names `a`, `b`, and `a` carries
the stamp of the third call. -/
theorem registerServer_last_write_wins_witness :
    NewServersInfo.registeredServers = [] ∧
    registeredNames (registerAll NewServersInfo sampleCalls) = ["a", "b"] ∧
    (registerAll NewServersInfo sampleCalls).registeredServers =
      [{ name := "a", stamp := sampleStamp "192.0.2.3:443" .DNSCrypt, description := "" },
       { name := "b", stamp := sampleStamp "192.0.2.2:443" .DNSCrypt, description := "" }] :=
  ⟨rfl, (registerServer_last_write_wins NewServersInfo rfl sampleCalls).1.trans (by decide),
    by decide⟩

/-! ## Facts about lists -/

theorem set_perm_cons {α : Type} (t : List α) (k : Nat) (a b : α) (h : t[k]? = some b) :
    (b :: t.set k a).Perm (a :: t) := by
  induction t generalizing k with
  | nil => simp at h
  | cons x t ih =>
    cases k with
    | zero =>
      simp at h
      subst h
      simpa using List.Perm.swap a x t
    | succ k =>
      simp at h
      have h1 : (b :: x :: t.set k a).Perm (x :: b :: t.set k a) := List.Perm.swap _ _ _
      have h2 : (x :: b :: t.set k a).Perm (x :: a :: t) := (ih k h).cons x
      have h3 : (x :: a :: t).Perm (a :: x :: t) := List.Perm.swap _ _ _
      simpa using (h1.trans h2).trans h3

theorem swap_perm {α : Type} (l : List α) (i j : Nat) : (swap l i j).Perm l := by
  unfold swap
  cases hi : l[i]? with
  | none => simp
  | some a =>
    cases hj : l[j]? with
    | none => simp
    | some b =>
      simp only
      induction l generalizing i j with
      | nil => simp at hi
      | cons x t ih =>
        cases i with
        | zero =>
          cases j with
          | zero =>
            simp at hi hj
            subst hi
            simp
          | succ j =>
            simp at hi hj
            subst hi
            simpa using set_perm_cons t j x b hj
        | succ i =>
          cases j with
          | zero =>
            simp at hi hj
            subst hj
            simpa using set_perm_cons t i x a hi
          | succ j =>
            simp at hi hj
            simpa using (ih i j hi hj).cons x

theorem length_swap {α : Type} (l : List α) (i j : Nat) : (swap l i j).length = l.length :=
  (swap_perm l i j).length_eq

theorem bubbleFrom_perm (cur : ServerInfo) (l : List ServerInfo) :
    (bubbleFrom cur l).Perm (cur :: l) := by
  induction l generalizing cur with
  | nil => simp [bubbleFrom]
  | cons next rest ih =>
    unfold bubbleFrom
    split
    · exact ((ih cur).cons next).trans (List.Perm.swap _ _ _)
    · exact (ih next).cons cur

theorem bubblePass_perm (l : List ServerInfo) : (bubblePass l).Perm l := by
  cases l with
  | nil => simp [bubblePass]
  | cons first rest => exact bubbleFrom_perm first rest

theorem map_set_of_eq {α β : Type} (f : α → β) (l : List α) (i : Nat) (e e1 : α)
    (h : l[i]? = some e) (hf : f e1 = f e) : (l.set i e1).map f = l.map f := by
  apply List.ext_getElem?
  intro j
  simp only [List.getElem?_map, List.getElem?_set]
  by_cases hij : i = j
  · subst hij
    have hi : i < l.length := by
      by_contra hlt
      simp [List.getElem?_eq_none (Nat.le_of_not_lt hlt)] at h
    simp [hi, h, hf]
  · simp [hij]

/-! ## Facts about `refreshServer` -/

theorem stringLess_iff (a b : String) : stringLess a b = true ↔ a < b := by
  simp [stringLess, String.lt_iff_toList_lt]

theorem seedRtt_Name (e : ServerInfo) : (seedRtt e).Name = e.Name := rfl

theorem seedRtt_initialRtt (e : ServerInfo) : (seedRtt e).initialRtt = e.initialRtt := rfl

/-- A freshly seeded average reports the initial round-trip time. -/
theorem seedRtt_Value (e : ServerInfo) : (seedRtt e).rtt.Value = (e.initialRtt : ℚ) := by
  simp [seedRtt, NewMovingAverage, MovingAverage.Set, MovingAverage.Value, WARMUP_SAMPLES]

/-- A failed probe: `refreshServer` hands the error back and changes nothing. -/
theorem refreshServer_error (p : Probe) (s : ServersInfo) (name : String) (stamp : ServerStamp)
    (err : String) (h : p name stamp (isNewServer s name) = .error err) :
    refreshServer p s name stamp = .ok (s, some err) := by
  simp [refreshServer, h]

/-- The ways in which `refreshServer` returns. -/
theorem refreshServer_ok_inv (p : Probe) (s s1 : ServersInfo) (name : String)
    (stamp : ServerStamp) (err : Option String)
    (h : refreshServer p s name stamp = .ok (s1, err)) :
    (∃ e, err = some e ∧ s1 = s ∧ p name stamp (isNewServer s name) = .error e) ∨
    (err = none ∧ ∃ fetched, p name stamp (isNewServer s name) = .ok fetched ∧
      fetched.Name = name ∧
      ((∃ i, firstIndex (fun oldServer => oldServer.Name == name) s.inner = some i ∧
          s1 = { s with inner := s.inner.set i (seedRtt fetched) }) ∨
       (firstIndex (fun oldServer => oldServer.Name == name) s.inner = none ∧
          s1 = { s with
                  inner := s.inner ++ [seedRtt fetched],
                  registeredServers := s.registeredServers ++
                    [{ name := name, stamp := stamp, description := "" }] }))) := by
  unfold refreshServer at h
  cases hp : p name stamp (isNewServer s name) with
  | error e =>
    rw [hp] at h
    simp only [Res.ok.injEq, Prod.mk.injEq] at h
    exact Or.inl ⟨e, h.2.symm, h.1.symm, rfl⟩
  | ok fetched =>
    rw [hp] at h
    simp only at h
    by_cases hn : name ≠ fetched.Name
    · simp [hn] at h
    · rw [if_neg hn] at h
      have hn1 : fetched.Name = name := by
        by_contra hc
        exact hn (fun hh => hc hh.symm)
      refine Or.inr ?_
      cases hf : firstIndex (fun oldServer => oldServer.Name == name) s.inner with
      | none =>
        rw [hf] at h
        simp only [Res.ok.injEq, Prod.mk.injEq] at h
        exact ⟨h.2.symm, fetched, rfl, hn1, Or.inr ⟨rfl, h.1.symm⟩⟩
      | some i =>
        rw [hf] at h
        simp only [Res.ok.injEq, Prod.mk.injEq] at h
        exact ⟨h.2.symm, fetched, rfl, hn1, Or.inl ⟨i, rfl, h.1.symm⟩⟩

theorem mem_liveNames_iff_firstIndex (s : ServersInfo) (name : String) :
    name ∉ liveNames s ↔
      firstIndex (fun oldServer : ServerInfo => oldServer.Name == name) s.inner = none := by
  rw [firstIndex_eq_none]
  simp [liveNames]

/-- The live names after a `refreshServer` that returned. -/
theorem refreshServer_liveNames (p : Probe) (s s1 : ServersInfo) (name : String)
    (stamp : ServerStamp) (err : Option String)
    (h : refreshServer p s name stamp = .ok (s1, err)) :
    liveNames s1 =
      if err = none ∧ name ∉ liveNames s then liveNames s ++ [name] else liveNames s := by
  rcases refreshServer_ok_inv p s s1 name stamp err h with
    ⟨e, he, hs, -⟩ | ⟨he, fetched, -, hname, ⟨i, hi, hs⟩ | ⟨hi, hs⟩⟩
  · simp [he, hs]
  · have hmem : ¬ name ∉ liveNames s := by
      rw [mem_liveNames_iff_firstIndex, hi]; simp
    obtain ⟨hlt, hp, -⟩ := firstIndex_eq_some _ _ i hi
    have hnm : s.inner[i].Name = name := by simpa using hp
    rw [if_neg (fun hc => hmem hc.2), hs]
    exact map_set_of_eq (fun e => e.Name) s.inner i s.inner[i] (seedRtt fetched)
      (List.getElem?_eq_getElem hlt) (by simp [seedRtt_Name, hname, hnm])
  · have hmem : name ∉ liveNames s := (mem_liveNames_iff_firstIndex s name).2 hi
    rw [if_pos ⟨he, hmem⟩, hs]
    simp [liveNames, seedRtt_Name, hname]

theorem refreshServer_nodup (p : Probe) (s s1 : ServersInfo) (name : String)
    (stamp : ServerStamp) (err : Option String)
    (h : refreshServer p s name stamp = .ok (s1, err)) (hn : (liveNames s).Nodup) :
    (liveNames s1).Nodup := by
  rw [refreshServer_liveNames p s s1 name stamp err h]
  split
  · next hc =>
    rw [List.nodup_append]
    exact ⟨hn, by simp, by simpa using hc.2⟩
  · exact hn

theorem refreshLoop_nodup (probes : Nat → Probe) (regs : List RegisteredServer) :
    ∀ (i : Nat) (s s1 : ServersInfo) (liveServers n : Int) (err0 err : Option String),
      refreshLoop probes i regs s liveServers err0 = .ok (s1, n, err) →
      (liveNames s).Nodup → (liveNames s1).Nodup := by
  induction regs with
  | nil =>
    intro i s s1 liveServers n err0 err h hn
    simp only [refreshLoop, Res.ok.injEq, Prod.mk.injEq] at h
    rw [← h.1]; exact hn
  | cons r rest ih =>
    intro i s s1 liveServers n err0 err h hn
    unfold refreshLoop at h
    cases hr : refreshServer (probes i) s r.name r.stamp with
    | stop why => rw [hr] at h; simp at h
    | ok res =>
      obtain ⟨s2, err2⟩ := res
      rw [hr] at h
      exact ih _ _ _ _ _ _ _ h (refreshServer_nodup _ _ _ _ _ _ hr hn)

theorem sortByName_perm (l : List ServerInfo) : (sortByName l).Perm l :=
  List.perm_insertionSort _ l

/-- The ways in which `refresh` returns: the loop returned, and the live list was sorted. -/
theorem refresh_ok_inv (probes : Nat → Probe) (s s1 : ServersInfo) (n : Int)
    (err : Option String) (h : refresh probes s = .ok (s1, n, err)) :
    ∃ s2, refreshLoop probes 0 s.registeredServers s 0 none = .ok (s2, n, err) ∧
      s1 = { s2 with inner := sortByName s2.inner } := by
  unfold refresh at h
  cases hl : refreshLoop probes 0 s.registeredServers s 0 none with
  | stop why => rw [hl] at h; simp at h
  | ok res =>
    obtain ⟨s2, n2, err2⟩ := res
    rw [hl] at h
    simp only [Res.ok.injEq, Prod.mk.injEq] at h
    obtain ⟨h1, h2, h3⟩ := h
    subst h2 h3
    exact ⟨s2, rfl, h1.symm⟩

theorem refresh_nodup (probes : Nat → Probe) (s s1 : ServersInfo) (n : Int)
    (err : Option String) (h : refresh probes s = .ok (s1, n, err))
    (hn : (liveNames s).Nodup) : (liveNames s1).Nodup := by
  obtain ⟨s2, hl, hs⟩ := refresh_ok_inv probes s s1 n err h
  have h2 := refreshLoop_nodup probes _ _ _ _ _ _ _ _ hl hn
  rw [hs]
  unfold liveNames at h2 ⊢
  exact (((sortByName_perm s2.inner).map (fun e : ServerInfo => e.Name)).nodup_iff).2 h2

/-! ## Facts about `getOne` and the estimator -/

theorem index_ok {α : Type} (l : List α) (i : Int) (a : α) (h : index l i = .ok a) :
    0 ≤ i ∧ i < (l.length : Int) ∧ l[i.toNat]? = some a := by
  unfold index at h
  by_cases hi : i < 0
  · simp [hi] at h
  · rw [if_neg hi] at h
    cases hg : l[i.toNat]? with
    | none => rw [hg] at h; simp at h
    | some b =>
      rw [hg] at h
      simp only [Res.ok.injEq] at h
      subst h
      have hlt : i.toNat < l.length := by
        by_contra hc
        simp [List.getElem?_eq_none (Nat.le_of_not_lt hc)] at hg
      exact ⟨by omega, by omega, rfl⟩

theorem index_of_lt {α : Type} (l : List α) (i : Int) (h0 : 0 ≤ i) (h1 : i < (l.length : Int)) :
    ∃ a, index l i = .ok a ∧ l[i.toNat]? = some a := by
  have hlt : i.toNat < l.length := by omega
  refine ⟨l[i.toNat], ?_, List.getElem?_eq_getElem hlt⟩
  unfold index
  rw [if_neg (by omega), List.getElem?_eq_getElem hlt]

theorem map_set_of_map_eq {α β : Type} (f : α → β) (l : List α) (i : Nat) (e1 : α)
    (h : (l.map f)[i]? = some (f e1)) : (l.set i e1).map f = l.map f := by
  rw [List.getElem?_map] at h
  cases hg : l[i]? with
  | none => rw [hg] at h; simp at h
  | some e =>
    rw [hg] at h
    simp only [Option.map_some', Option.some.injEq] at h
    exact map_set_of_eq f l i e e1 hg h.symm

theorem randIntn_ok (g g1 : Rng) (n c : Int) (h : randIntn g n = .ok (c, g1)) :
    0 < n ∧ 0 ≤ c ∧ c < n ∧ c = (g 0 : Int) % n ∧ g1 = fun k => g (k + 1) := by
  unfold randIntn at h
  by_cases hn : n ≤ 0
  · simp [hn] at h
  · rw [if_neg hn] at h
    simp only [Res.ok.injEq, Prod.mk.injEq] at h
    have hpos : 0 < n := by omega
    refine ⟨hpos, ?_, ?_, h.1.symm, h.2.symm⟩
    · rw [← h.1]; exact Int.emod_nonneg _ (by omega)
    · rw [← h.1]; exact Int.emod_lt_of_pos _ hpos

/-- The estimator step keeps the names of the live list, up to their order, and
touches nothing but the live list. -/
theorem estimatorUpdate_ok (s s1 : ServersInfo) (now : Int) (g g1 : Rng)
    (h : estimatorUpdate s now g = .ok (s1, g1)) :
    (liveNames s1).Perm (liveNames s) ∧ s1.registeredServers = s.registeredServers ∧
      s1.lbStrategy = s.lbStrategy ∧ s1.lbStrategyStr = s.lbStrategyStr ∧
      s1.lbEstimator = s.lbEstimator ∧ s1.prevCandidate = s.prevCandidate := by
  unfold estimatorUpdate at h
  cases hr : randIntn g (s.inner.length : Int) with
  | stop why => rw [hr] at h; simp at h
  | ok res =>
    obtain ⟨candidate, g2⟩ := res
    rw [hr] at h
    simp only at h
    by_cases hc : candidate = 0
    · rw [if_pos hc] at h
      simp only [Res.ok.injEq, Prod.mk.injEq] at h
      rw [← h.1]
      exact ⟨List.Perm.refl _, rfl, rfl, rfl, rfl, rfl⟩
    · rw [if_neg hc] at h
      cases hic : index s.inner candidate with
      | stop why => rw [hic] at h; simp at h
      | ok cand =>
        cases hib : index s.inner 0 with
        | stop why => rw [hic, hib] at h; simp at h
        | ok best =>
          rw [hic, hib] at h
          simp only [Res.ok.injEq, Prod.mk.injEq] at h
          obtain ⟨hs, -⟩ := h
          obtain ⟨hc0, hc1, hcg⟩ := index_ok _ _ _ hic
          obtain ⟨-, -, hbg⟩ := index_ok _ _ _ hib
          simp only [Int.toNat_zero] at hbg
          rw [← hs]
          refine ⟨?_, rfl, rfl, rfl, rfl, rfl⟩
          simp only [liveNames]
          -- the list after the seeding of `inner[0]`
          have h1 : ∀ b : Bool,
              (if b then s.inner.set 0 { best with rtt := best.rtt.Set cand.rtt.Value }
                else s.inner).map (fun e => e.Name) = s.inner.map (fun e => e.Name) := by
            intro b
            cases b with
            | false => simp
            | true =>
              simp only [if_true]
              exact map_set_of_eq _ _ _ best _ hbg rfl
          generalize hin1 : (if decide (best.rtt.Value < 0) = true then
              s.inner.set 0 { best with rtt := best.rtt.Set cand.rtt.Value }
            else s.inner) = inner1
          have h1n : inner1.map (fun e => e.Name) = s.inner.map (fun e => e.Name) := by
            rw [← hin1]; exact h1 _
          generalize (if decide (best.rtt.Value < 0) = true then cand.rtt.Value
            else best.rtt.Value) = currentBestRtt
          generalize decide (cand.rtt.Value < currentBestRtt) = promoted
          generalize (!promoted &&
            decide (cand.rtt.Value > 0 ∧ cand.rtt.Value ≥ currentBestRtt * 4) &&
            decide (now - cand.lastActionTS > 60000000000)) = rehabilitated
          have h2 : ∀ x : MovingAverage,
              (inner1.set candidate.toNat { cand with rtt := x }).map (fun e => e.Name) =
                inner1.map (fun e => e.Name) := by
            intro x
            apply map_set_of_map_eq
            rw [h1n, List.getElem?_map, hcg]
            rfl
          have h3 : (List.map (fun e => e.Name)
              (if promoted = true then swap inner1 candidate.toNat 0
               else if rehabilitated = true then
                 inner1.set candidate.toNat
                   { cand with
                     rtt := cand.rtt.Add
                       (MinF (MaxF (cand.rtt.Value / 2) (currentBestRtt * 2)) cand.rtt.Value) }
               else inner1)).Perm (List.map (fun e => e.Name) s.inner) := by
            rw [← h1n]
            split
            · exact (swap_perm _ _ _).map _
            · split
              · rw [h2]
              · exact List.Perm.refl _
          split
          · exact ((bubblePass_perm _).map _).trans h3
          · exact h3

/-- The ways in which `getOne` returns. -/
theorem getOne_ok_inv (env : Env) (fuel : Nat) (s s1 : ServersInfo) (qName : String) (now : Int)
    (g g1 : Rng) (chosen : Option ServerInfo)
    (h : getOne env fuel s qName now g = .ok (s1, chosen, g1)) :
    (s.inner = [] ∧ s1 = s ∧ chosen = none) ∨
    (s.inner ≠ [] ∧ ∃ s2 g2,
      (if s.lbEstimator then estimatorUpdate s now g else .ok (s, g)) = .ok (s2, g2) ∧
      ((chosen = none ∧ s1 = s2) ∨
       (∃ c e, chosen = some e ∧ s1 = { s2 with prevCandidate := c } ∧
          index s2.inner c = .ok e))) := by
  unfold getOne at h
  simp only at h
  by_cases hlen : (s.inner.length : Int) ≤ 0
  · rw [if_pos hlen] at h
    simp only [Res.ok.injEq, Prod.mk.injEq] at h
    have : s.inner = [] := List.length_eq_zero.1 (by omega)
    exact Or.inl ⟨this, h.1.symm, h.2.1.symm⟩
  · rw [if_neg hlen] at h
    have hne : s.inner ≠ [] := by
      intro hc
      simp [hc] at hlen
    refine Or.inr ⟨hne, ?_⟩
    cases he : (if s.lbEstimator then estimatorUpdate s now g else Res.ok (s, g)) with
    | stop why => rw [he] at h; simp at h
    | ok res =>
      obtain ⟨s2, g2⟩ := res
      rw [he] at h
      simp only at h
      refine ⟨s2, g2, rfl, ?_⟩
      cases hsw : switchCandidate env s2 (s.inner.length : Int) qName g2 with
      | stop why => rw [hsw] at h; simp at h
      | ok res2 =>
        obtain ⟨oc, g3⟩ := res2
        rw [hsw] at h
        cases oc with
        | none =>
          simp only [Res.ok.injEq, Prod.mk.injEq] at h
          exact Or.inl ⟨h.2.1.symm, h.1.symm⟩
        | some candidate =>
          simp only at h
          cases hla : locationAvoidant env fuel s2 (s.inner.length : Int) candidate g3 with
          | stop why => rw [hla] at h; simp at h
          | ok res3 =>
            obtain ⟨c1, g4⟩ := res3
            rw [hla] at h
            simp only at h
            cases hix : index s2.inner c1 with
            | stop why => rw [hix] at h; simp at h
            | ok e =>
              rw [hix] at h
              simp only [Res.ok.injEq, Prod.mk.injEq] at h
              exact Or.inr ⟨c1, e, h.2.1.symm, h.1.symm, hix⟩

/-- Whatever `getOne` does, the registry it leaves behind has the same live names, up
to their order, and the same registered servers. -/
theorem getOne_ok_names (env : Env) (fuel : Nat) (s s1 : ServersInfo) (qName : String)
    (now : Int) (g g1 : Rng) (chosen : Option ServerInfo)
    (h : getOne env fuel s qName now g = .ok (s1, chosen, g1)) :
    (liveNames s1).Perm (liveNames s) ∧ s1.registeredServers = s.registeredServers := by
  rcases getOne_ok_inv env fuel s s1 qName now g g1 chosen h with
    ⟨-, hs, -⟩ | ⟨-, s2, g2, he, hrest⟩
  · rw [hs]; exact ⟨List.Perm.refl _, rfl⟩
  · have h2 : (liveNames s2).Perm (liveNames s) ∧ s2.registeredServers = s.registeredServers := by
      by_cases hest : s.lbEstimator = true
      · rw [if_pos hest] at he
        have := estimatorUpdate_ok s s2 now g g2 he
        exact ⟨this.1, this.2.1⟩
      · rw [if_neg hest] at he
        simp only [Res.ok.injEq, Prod.mk.injEq] at he
        rw [← he.1]; exact ⟨List.Perm.refl _, rfl⟩
    rcases hrest with ⟨-, hs⟩ | ⟨c, e, -, hs, -⟩
    · rw [hs]; exact h2
    · rw [hs]; exact h2

theorem feedback_liveNames (s : ServersInfo) (i : Nat) (f : ServerInfo → ServerInfo)
    (hf : ∀ e, (f e).Name = e.Name) : liveNames (s.feedback i f) = liveNames s := by
  unfold ServersInfo.feedback
  cases hg : s.inner[i]? with
  | none => rfl
  | some e => exact map_set_of_eq (fun e => e.Name) s.inner i e (f e) hg (hf e)

theorem noticeSuccess_Name (e : ServerInfo) (timeout now : Int) :
    (e.noticeSuccess timeout now).Name = e.Name := by
  unfold ServerInfo.noticeSuccess
  simp only
  split <;> rfl

theorem registerServer_inner (s : ServersInfo) (name : String) (stamp : ServerStamp) :
    (registerServer s name stamp).inner = s.inner := by
  unfold registerServer
  simp only
  split <;> rfl

/-- In every reachable registry the live list holds at most one entry per name. -/
theorem reachable_liveNames_nodup (s : ServersInfo) (h : Reachable s) : (liveNames s).Nodup := by
  induction h with
  | init strategy strategyStr estimator => simp [liveNames, NewServersInfo]
  | registerServer name stamp _ ih =>
    unfold liveNames at ih ⊢
    rw [registerServer_inner]; exact ih
  | refreshServer probe name stamp err _ hr ih => exact refreshServer_nodup _ _ _ _ _ _ hr ih
  | refresh probes liveServers err _ hr ih => exact refresh_nodup _ _ _ _ _ hr ih
  | getOne env fuel qName now g g1 chosen _ hr ih =>
    exact ((getOne_ok_names _ _ _ _ _ _ _ _ _ hr).1.nodup_iff).2 ih
  | noticeFailure i timeout _ ih =>
    rw [feedback_liveNames _ _ (fun e => e.noticeFailure timeout) (fun _ => rfl)]; exact ih
  | noticeBegin i now _ ih =>
    rw [feedback_liveNames _ _ (fun e => e.noticeBegin now) (fun _ => rfl)]; exact ih
  | noticeSuccess i timeout now _ ih =>
    rw [feedback_liveNames _ _ _ (fun e => noticeSuccess_Name e timeout now)]; exact ih

/-! ## The registered list after a refresh -/

/-- C2 (the code departs from the claim). Register `a`, then refresh with a probe that
succeeds: `a` was registered but not yet live, and `refreshServer` appends a second
`RegisteredServer` named `a`, so the registered list of a reachable registry holds
the name twice. -/
theorem refresh_registers_name_twice :
    Reachable registeredOnly ∧ registeredNames registeredOnly = ["a"] ∧
    liveNames registeredOnly = [] ∧
    ((refresh (fun _ => okProbe) registeredOnly).value?.map
        (fun r => (registeredNames r.1, liveNames r.1, r.2.1, r.2.2))) =
      some (["a", "a"], ["a"], 1, none) := by
  refine ⟨Reachable.registerServer _ _ (Reachable.init _ _ _), by decide, by decide, by decide⟩

/-! ## The refresh merge is an upsert by name -/

/-- A probe that succeeds with the right name makes `refreshServer` return without an
error. -/
theorem refreshServer_returns (p : Probe) (s : ServersInfo) (name : String)
    (stamp : ServerStamp) (fetched : ServerInfo)
    (hp : p name stamp (isNewServer s name) = .ok fetched) (hname : fetched.Name = name) :
    ∃ s1, refreshServer p s name stamp = .ok (s1, none) := by
  unfold refreshServer
  rw [hp]
  simp only
  rw [if_neg (by simp [hname])]
  cases firstIndex (fun oldServer : ServerInfo => oldServer.Name == name) s.inner with
  | none => exact ⟨_, rfl⟩
  | some i => exact ⟨_, rfl⟩

/-- C3. The refresh merge is an upsert by name on the live list. For a live list with
pairwise distinct names and a successful probe result for `name`, `refreshServer`
returns without an error; if `name` is live, the entry at the index where it is gets
replaced by the probed entry, and the length and every other entry are unchanged;
otherwise the probed entry is appended at the end; in both cases the live names are
still pairwise distinct. -/
theorem refreshServer_upsert (p : Probe) (s : ServersInfo) (name : String) (stamp : ServerStamp)
    (fetched : ServerInfo) (hn : (liveNames s).Nodup)
    (hp : p name stamp (isNewServer s name) = .ok fetched) (hname : fetched.Name = name) :
    ∃ s1, refreshServer p s name stamp = .ok (s1, none) ∧ (liveNames s1).Nodup ∧
      (name ∈ liveNames s →
        ∃ i, i < s.inner.length ∧ (s.inner[i]?).map (fun e => e.Name) = some name ∧
          s1.inner.length = s.inner.length ∧ s1.inner[i]? = some (seedRtt fetched) ∧
          ∀ j, j ≠ i → s1.inner[j]? = s.inner[j]?) ∧
      (name ∉ liveNames s → s1.inner = s.inner ++ [seedRtt fetched]) := by
  obtain ⟨s1, h⟩ := refreshServer_returns p s name stamp fetched hp hname
  refine ⟨s1, h, refreshServer_nodup p s s1 name stamp none h hn, ?_, ?_⟩
  · intro hmem
    rcases refreshServer_ok_inv p s s1 name stamp none h with
      ⟨e, he, -, -⟩ | ⟨-, f, hf, -, ⟨i, hi, hs⟩ | ⟨hi, -⟩⟩
    · simp at he
    · have hff : f = fetched := by
        rw [hp] at hf
        exact (Except.ok.inj hf).symm
      subst hff
      obtain ⟨hlt, hpi, -⟩ := firstIndex_eq_some _ _ i hi
      refine ⟨i, hlt, ?_, ?_, ?_, ?_⟩
      · simpa [List.getElem?_eq_getElem hlt] using hpi
      · simp [hs]
      · simp [hs, List.getElem?_set, hlt]
      · intro j hj
        simp [hs, List.getElem?_set, Ne.symm hj]
    · exact absurd hmem ((mem_liveNames_iff_firstIndex s name).2 hi)
  · intro hmem
    rcases refreshServer_ok_inv p s s1 name stamp none h with
      ⟨e, he, -, -⟩ | ⟨-, f, hf, -, ⟨i, hi, -⟩ | ⟨-, hs⟩⟩
    · simp at he
    · rw [(mem_liveNames_iff_firstIndex s name).1 hmem] at hi
      simp at hi
    · have hff : f = fetched := by
        rw [hp] at hf
        exact (Except.ok.inj hf).symm
      subst hff
      simp [hs]

/-- C3 at two registries. In `scenarioSix`, where `a` (10 ms) and `b` (50 ms) are live, a
successful probe of `b` replaces the entry at index 1, where `b` stands, and leaves the
length and the entry of `a` at index 0 as they were. In `registeredOnly`, where nothing
is live, the probed entry for `a` is appended. -/
theorem refreshServer_upsert_witness :
    (liveNames scenarioSix = ["a", "b"] ∧
      ∃ s1, refreshServer okProbe scenarioSix "b" (sampleStamp "192.0.2.2:443" .DNSCrypt) =
          .ok (s1, none) ∧
        (liveNames s1).Nodup ∧ s1.inner.length = scenarioSix.inner.length ∧
        s1.inner[1]? = some (seedRtt (sampleInfo "b" 30)) ∧
        s1.inner[0]? = scenarioSix.inner[0]? ∧
        s1.inner.map (fun e => (e.Name, e.rtt.Value)) = [("a", 10), ("b", 30)]) ∧
    ((liveNames registeredOnly).Nodup ∧
      ∃ s1, refreshServer okProbe registeredOnly "a" (sampleStamp "192.0.2.1:443" .DNSCrypt) =
          .ok (s1, none) ∧ s1.inner = [seedRtt (sampleInfo "a" 30)]) := by
  constructor
  · have hnames : liveNames scenarioSix = ["a", "b"] := by decide!
    have hn : (liveNames scenarioSix).Nodup := by
      rw [hnames]
      decide
    obtain ⟨s1, h1, h2, h3, -⟩ :=
      refreshServer_upsert okProbe scenarioSix "b" (sampleStamp "192.0.2.2:443" .DNSCrypt)
        (sampleInfo "b" 30) hn rfl rfl
    obtain ⟨i, hi, hat, hlen, hrep, hothers⟩ := h3 (by rw [hnames]; decide)
    have hi1 : i = 1 := by
      have hl : scenarioSix.inner.length = 2 := by
        have := congrArg List.length hnames
        simpa [liveNames] using this
      have h0 : (scenarioSix.inner[0]?).map (fun e => e.Name) = some "a" := by decide!
      rcases Nat.lt_or_ge i 1 with hlt | hge
      · have hi0 : i = 0 := by omega
        rw [hi0, h0] at hat
        exact absurd hat (by decide)
      · omega
    subst hi1
    have hvals : (refreshServer okProbe scenarioSix "b"
        (sampleStamp "192.0.2.2:443" .DNSCrypt)).value?.map
          (fun r => r.1.inner.map (fun e => (e.Name, e.rtt.Value))) =
        some [("a", 10), ("b", 30)] := by decide!
    rw [h1] at hvals
    simp only [Res.value?, Option.map_some', Option.some.injEq] at hvals
    exact ⟨hnames, s1, h1, h2, hlen, hrep, hothers 0 (by decide), hvals⟩
  · have hn : (liveNames registeredOnly).Nodup := by decide
    obtain ⟨s1, h1, -, -, h4⟩ :=
      refreshServer_upsert okProbe registeredOnly "a" (sampleStamp "192.0.2.1:443" .DNSCrypt)
        (sampleInfo "a" 30) hn rfl rfl
    exact ⟨hn, s1, h1, h4 (by decide)⟩

/-! ## The live list after a refresh is sorted by name -/

theorem nameOrder_iff (a b : ServerInfo) : nameOrder a b ↔ a.Name ≤ b.Name := by
  unfold nameOrder
  rw [← not_lt, ← stringLess_iff]
  simp

instance : IsTotal ServerInfo nameOrder :=
  ⟨fun a b => by simp only [nameOrder_iff]; exact le_total _ _⟩

instance : IsTrans ServerInfo nameOrder :=
  ⟨fun a b c => by simp only [nameOrder_iff]; exact le_trans⟩

/-- The stable sort by name leaves the names in ascending order. -/
theorem sortByName_sorted (l : List ServerInfo) :
    ((sortByName l).map (fun e => e.Name)).Sorted (fun x y => x ≤ y) := by
  have h := List.sorted_insertionSort nameOrder l
  unfold List.Sorted at h ⊢
  rw [List.pairwise_map]
  exact h.imp (fun hab => (nameOrder_iff _ _).1 hab)

/-- C4. After `refresh` returns, run from any reachable registry and whatever the
probes answer, the live list is sorted strictly ascending by name: for all indices
`i < j`, `live[i].Name < live[j].Name`. -/
theorem refresh_sorted_by_name (s : ServersInfo) (hs : Reachable s) (probes : Nat → Probe)
    (s1 : ServersInfo) (n : Int) (err : Option String)
    (h : refresh probes s = .ok (s1, n, err)) :
    ∀ (i j : Nat) (a b : ServerInfo), i < j → s1.inner[i]? = some a → s1.inner[j]? = some b →
      a.Name < b.Name := by
  obtain ⟨s2, -, hs1⟩ := refresh_ok_inv probes s s1 n err h
  have hnodup : (liveNames s1).Nodup :=
    refresh_nodup probes s s1 n err h (reachable_liveNames_nodup s hs)
  have hle : (liveNames s1).Sorted (fun x y => x ≤ y) := by
    rw [hs1]; exact sortByName_sorted s2.inner
  have hlt : (liveNames s1).Sorted (fun x y => x < y) := hle.lt_of_le hnodup
  intro i j a b hij ha hb
  unfold List.Sorted at hlt
  rw [List.pairwise_iff_getElem] at hlt
  have hi : i < s1.inner.length := by
    by_contra hc
    simp [List.getElem?_eq_none (Nat.le_of_not_lt hc)] at ha
  have hj : j < s1.inner.length := by
    by_contra hc
    simp [List.getElem?_eq_none (Nat.le_of_not_lt hc)] at hb
  have := hlt i j (by simpa [liveNames] using hi) (by simpa [liveNames] using hj) hij
  simp only [liveNames, List.getElem_map] at this
  rw [List.getElem?_eq_getElem hi] at ha
  rw [List.getElem?_eq_getElem hj] at hb
  simp only [Option.some.injEq] at ha hb
  rw [← ha, ← hb]
  exact this

/-- C4 at `registeredTwo` (registered in the order `b`, `a`) with probes that succeed:
the refresh returns and leaves `a` before `b`. -/
theorem refresh_sorted_by_name_witness :
    Reachable registeredTwo ∧
    ∃ s1, refresh (fun _ => okProbe) registeredTwo = .ok (s1, 2, none) ∧
      liveNames s1 = ["a", "b"] ∧
      ∀ (i j : Nat) (a b : ServerInfo), i < j → s1.inner[i]? = some a →
        s1.inner[j]? = some b → a.Name < b.Name := by
  have hr : Reachable registeredTwo :=
    Reachable.registerServer "a" (sampleStamp "192.0.2.1:443" .DNSCrypt)
      (Reachable.registerServer "b" (sampleStamp "192.0.2.2:443" .DNSCrypt)
        (Reachable.init .P2 "" true))
  refine ⟨hr, ?_⟩
  cases h : refresh (fun _ => okProbe) registeredTwo with
  | stop why =>
    have hv : (refresh (fun _ => okProbe) registeredTwo).value?.isSome = true := by decide
    rw [h] at hv
    simp [Res.value?] at hv
  | ok r =>
    obtain ⟨s1, n, err⟩ := r
    have hv : (refresh (fun _ => okProbe) registeredTwo).value?.map
        (fun r => (liveNames r.1, r.2.1, r.2.2)) = some (["a", "b"], 2, none) := by decide
    rw [h] at hv
    simp only [Res.value?, Option.map_some', Option.some.injEq, Prod.mk.injEq] at hv
    obtain ⟨h1, h2, h3⟩ := hv
    subst h2 h3
    exact ⟨s1, rfl, h1, refresh_sorted_by_name registeredTwo hr _ s1 _ _ h⟩

/-! ## The error and the count that `refresh` returns -/

theorem refreshServer_err (p : Probe) (s s1 : ServersInfo) (name : String)
    (stamp : ServerStamp) (err : Option String)
    (h : refreshServer p s name stamp = .ok (s1, err)) :
    err = errorOf (p name stamp (isNewServer s name)) := by
  rcases refreshServer_ok_inv p s s1 name stamp err h with
    ⟨e, he, -, hp⟩ | ⟨he, fetched, hp, -, -⟩
  · rw [hp, he]; rfl
  · rw [hp, he]; rfl

/-- The loop of `refresh` returns the error of the last probe it made (its initial
`err` if it made none) and counts the probes that succeeded. -/
theorem refreshLoop_result (probes : Nat → Probe) (regs : List RegisteredServer) :
    ∀ (i : Nat) (s s1 : ServersInfo) (liveServers n : Int) (err0 err : Option String),
      refreshLoop probes i regs s liveServers err0 = .ok (s1, n, err) →
      (probeOutcomes probes i regs s).length = regs.length ∧
      err = (((probeOutcomes probes i regs s).map errorOf).getLast?).getD err0 ∧
      n = liveServers +
        (((probeOutcomes probes i regs s).map errorOf).count none : Nat) := by
  induction regs with
  | nil =>
    intro i s s1 liveServers n err0 err h
    simp only [refreshLoop, Res.ok.injEq, Prod.mk.injEq] at h
    simp [probeOutcomes, h.2.1, h.2.2]
  | cons r rest ih =>
    intro i s s1 liveServers n err0 err h
    unfold refreshLoop at h
    cases hr : refreshServer (probes i) s r.name r.stamp with
    | stop why => rw [hr] at h; simp at h
    | ok res =>
      obtain ⟨s2, err2⟩ := res
      rw [hr] at h
      simp only at h
      obtain ⟨h1, h2, h3⟩ := ih _ _ _ _ _ _ _ h
      have he2 := refreshServer_err _ _ _ _ _ _ hr
      unfold probeOutcomes
      rw [hr]
      simp only [List.length_cons, h1, List.map_cons, true_and]
      constructor
      · rw [h2, List.getLast?_cons, ← he2]
        cases hl : (List.map errorOf (probeOutcomes probes (i + 1) rest s2)).getLast? with
        | none => simp
        | some x => simp
      · rw [h3, ← he2, List.count_cons]
        by_cases hn : err2 = none
        · simp [hn]; ring
        · simp [hn]

/-- C6 as stated fails. With `b` and `a` registered, the probe of `b` fails and the
later probe of `a` succeeds: not every probe succeeded, yet `refresh` returns a `nil`
error (and the count 1), not the error of the failed probe. -/
theorem refresh_forgets_earlier_error :
    (probeOutcomes firstProbeFails 0 registeredTwo.registeredServers registeredTwo).map errorOf =
      [some "i/o timeout", none] ∧
    (refresh firstProbeFails registeredTwo).value?.map (fun r => (r.2.1, r.2.2)) =
      some (1, none) := by
  constructor <;> decide

/-- C6, amended. The error returned by `refresh` is the outcome of the last probe of
the pass alone: `nil` if that probe succeeded or if no server is registered, and that
probe's error if it failed. So it is `nil` whenever every probe succeeded, it is an
error whenever the last probe failed, and the error of an earlier probe is dropped.
The returned count is the number of probes that succeeded, one probe being made per
registered server. -/
theorem refresh_returns_last_probe_error (probes : Nat → Probe) (s s1 : ServersInfo) (n : Int)
    (err : Option String) (h : refresh probes s = .ok (s1, n, err)) :
    (probeOutcomes probes 0 s.registeredServers s).length = s.registeredServers.length ∧
    err = (((probeOutcomes probes 0 s.registeredServers s).map errorOf).getLast?).getD none ∧
    ((∀ o ∈ probeOutcomes probes 0 s.registeredServers s, errorOf o = none) → err = none) ∧
    (∀ o e, (probeOutcomes probes 0 s.registeredServers s).getLast? = some o →
      errorOf o = some e → err = some e) ∧
    n = ((((probeOutcomes probes 0 s.registeredServers s).map errorOf).count none : Nat) : Int) := by
  obtain ⟨s2, hl, -⟩ := refresh_ok_inv probes s s1 n err h
  obtain ⟨h1, h2, h3⟩ := refreshLoop_result probes _ _ _ _ _ _ _ _ hl
  refine ⟨h1, h2, ?_, ?_, by simpa using h3⟩
  · intro hall
    rw [h2]
    cases hlast : ((probeOutcomes probes 0 s.registeredServers s).map errorOf).getLast? with
    | none => rfl
    | some x =>
      have hx := List.mem_of_getLast?_eq_some hlast
      obtain ⟨o, ho, hox⟩ := List.mem_map.1 hx
      simp only [Option.getD_some]
      rw [← hox]; exact hall o ho
  · intro o e hlast hoe
    rw [h2, List.getLast?_map, hlast]
    simpa using hoe

/-- C6, amended, at a pass whose first probe succeeds and whose second probe fails:
`refresh` returns the error of the second probe and the count 1. -/
theorem refresh_returns_last_probe_error_witness :
    ∃ s1, refresh laterProbesFail registeredTwo = .ok (s1, 1, some "i/o timeout") ∧
      (((probeOutcomes laterProbesFail 0 registeredTwo.registeredServers registeredTwo).map
        errorOf).getLast?).getD none = some "i/o timeout" := by
  cases h : refresh laterProbesFail registeredTwo with
  | stop why =>
    have hv : (refresh laterProbesFail registeredTwo).value?.isSome = true := by decide
    rw [h] at hv
    simp [Res.value?] at hv
  | ok r =>
    obtain ⟨s1, n, err⟩ := r
    have hv : (refresh laterProbesFail registeredTwo).value?.map (fun r => (r.2.1, r.2.2)) =
        some (1, some "i/o timeout") := by decide
    rw [h] at hv
    simp only [Res.value?, Option.map_some', Option.some.injEq, Prod.mk.injEq] at hv
    obtain ⟨h2, h3⟩ := hv
    subst h2 h3
    exact ⟨s1, rfl, (refresh_returns_last_probe_error laterProbesFail registeredTwo s1 1
      (some "i/o timeout") h).2.1.symm⟩

/-! ## Failed probes -/

theorem refreshLoop_all_failed (probes : Nat → Probe) (s : ServersInfo)
    (regs : List RegisteredServer) :
    ∀ (i : Nat) (liveServers : Int) (err0 : Option String),
      (∀ k r, regs[k]? = some r →
        ∃ e, probes (i + k) r.name r.stamp (isNewServer s r.name) = .error e) →
      ∃ err, refreshLoop probes i regs s liveServers err0 = .ok (s, liveServers, err) ∧
        (regs ≠ [] → err ≠ none) := by
  induction regs with
  | nil =>
    intro i liveServers err0 _
    exact ⟨err0, rfl, fun hc => absurd rfl hc⟩
  | cons r rest ih =>
    intro i liveServers err0 hall
    obtain ⟨e, he⟩ := hall 0 r (by simp)
    have hr := refreshServer_error (probes i) s r.name r.stamp e (by simpa using he)
    obtain ⟨err, herr, hne⟩ := ih (i + 1) liveServers (some e) (by
      intro k r1 hk
      have := hall (k + 1) r1 (by simpa using hk)
      simpa [Nat.add_assoc, Nat.add_comm 1 k] using this)
    refine ⟨err, ?_, ?_⟩
    · unfold refreshLoop
      rw [hr]
      simpa using herr
    · intro _
      cases rest with
      | nil =>
        simp only [refreshLoop, Res.ok.injEq, Prod.mk.injEq] at herr
        rw [← herr.2.2]; simp
      | cons r2 rest2 => exact hne (by simp)

/-- C7. A failed probe does not change the registry. When the probe of a server
returns an error, `refreshServer` returns that error and leaves the registry (live and
registered lists included) exactly as it was. Consequently a pass of `refresh` in which
every probe fails returns; its live list is the stable sort by name of the live list
before the pass, so it has exactly the same entries with the same EWMA values; the
registered list and every other field are unchanged; the reported count is 0; and the
returned error is not `nil` when a server is registered. -/
theorem failed_probes_leave_registry (probes : Nat → Probe) (s : ServersInfo) :
    (∀ (p : Probe) (name : String) (stamp : ServerStamp) (e : String),
      p name stamp (isNewServer s name) = .error e →
        refreshServer p s name stamp = .ok (s, some e)) ∧
    ((∀ i r, s.registeredServers[i]? = some r →
        ∃ e, probes i r.name r.stamp (isNewServer s r.name) = .error e) →
      ∃ err, refresh probes s = .ok ({ s with inner := sortByName s.inner }, 0, err) ∧
        (sortByName s.inner).Perm s.inner ∧
        (∀ e, e ∈ sortByName s.inner ↔ e ∈ s.inner) ∧
        (s.registeredServers ≠ [] → err ≠ none)) := by
  refine ⟨fun p name stamp e hp => refreshServer_error p s name stamp e hp, ?_⟩
  intro hall
  obtain ⟨err, herr, hne⟩ := refreshLoop_all_failed probes s s.registeredServers 0 0 none
    (by simpa using hall)
  refine ⟨err, ?_, sortByName_perm _, fun e => (sortByName_perm s.inner).mem_iff, hne⟩
  unfold refresh
  rw [herr]

/-! ## The moving averages after a refresh -/

/-- The entries that the loop of `refresh` leaves in the live list: an entry whose
name was probed with success during the pass reports its initial round-trip time, and
an entry whose name was not is an entry of the live list the loop started from. -/
theorem refreshLoop_seeded (probes : Nat → Probe) (regs : List RegisteredServer) :
    ∀ (i : Nat) (s s1 : ServersInfo) (liveServers n : Int) (err0 err : Option String),
      refreshLoop probes i regs s liveServers err0 = .ok (s1, n, err) →
      (liveNames s).Nodup →
      ∀ e ∈ s1.inner,
        ((∃ r fetched, (r, Except.ok fetched) ∈ regs.zip (probeOutcomes probes i regs s) ∧
            r.name = e.Name) → e.rtt.Value = (e.initialRtt : ℚ)) ∧
        ((¬ ∃ r fetched, (r, Except.ok fetched) ∈ regs.zip (probeOutcomes probes i regs s) ∧
            r.name = e.Name) → e ∈ s.inner) := by
  induction regs with
  | nil =>
    intro i s s1 liveServers n err0 err h _ e he
    simp only [refreshLoop, Res.ok.injEq, Prod.mk.injEq] at h
    rw [← h.1] at he
    simp [probeOutcomes, he]
  | cons r rest ih =>
    intro i s s1 liveServers n err0 err h hn e he
    unfold refreshLoop at h
    cases hr : refreshServer (probes i) s r.name r.stamp with
    | stop why => rw [hr] at h; simp at h
    | ok res =>
      obtain ⟨s2, err2⟩ := res
      rw [hr] at h
      simp only at h
      have hn2 := refreshServer_nodup _ _ _ _ _ _ hr hn
      obtain ⟨ihA, ihB⟩ := ih _ _ _ _ _ _ _ h hn2 e he
      have hzip : ∀ (r1 : RegisteredServer) (f : ServerInfo),
          (r1, Except.ok f) ∈ (r :: rest).zip (probeOutcomes probes i (r :: rest) s) ↔
            (r1 = r ∧ probes i r.name r.stamp (isNewServer s r.name) = Except.ok f) ∨
            (r1, Except.ok f) ∈ rest.zip (probeOutcomes probes (i + 1) rest s2) := by
        intro r1 f
        conv_lhs => unfold probeOutcomes
        rw [hr]
        simp only [List.zip_cons_cons, List.mem_cons, Prod.mk.injEq]
        constructor
        · rintro (⟨h1, h2⟩ | h3)
          · exact Or.inl ⟨h1, h2.symm⟩
          · exact Or.inr h3
        · rintro (⟨h1, h2⟩ | h3)
          · exact Or.inl ⟨h1, h2.symm⟩
          · exact Or.inr h3
      by_cases hrest : ∃ r1 f, (r1, Except.ok f) ∈
          rest.zip (probeOutcomes probes (i + 1) rest s2) ∧ r1.name = e.Name
      · refine ⟨fun _ => ihA hrest, fun hc => ?_⟩
        obtain ⟨r1, f, hm, hname⟩ := hrest
        exact absurd ⟨r1, f, (hzip r1 f).2 (Or.inr hm), hname⟩ hc
      · have he2 : e ∈ s2.inner := ihB hrest
        rcases refreshServer_ok_inv _ _ _ _ _ _ hr with
          ⟨e1, -, hs2, hp⟩ | ⟨-, fetched, hp, hfn, hcase⟩
        · -- the probe of `r` failed
          refine ⟨?_, fun _ => hs2 ▸ he2⟩
          rintro ⟨r1, f, hm, hname⟩
          rcases (hzip r1 f).1 hm with ⟨-, hpf⟩ | hm2
          · rw [hp] at hpf; cases hpf
          · exact absurd ⟨r1, f, hm2, hname⟩ hrest
        · -- the probe of `r` succeeded with `fetched`
          have hnew : seedRtt fetched ∈ s2.inner := by
            rcases hcase with ⟨k, hk, hs2⟩ | ⟨-, hs2⟩
            · obtain ⟨hlt, -, -⟩ := firstIndex_eq_some _ _ k hk
              rw [hs2]
              exact List.mem_iff_getElem.2 ⟨k, by simpa using hlt, by simp⟩
            · rw [hs2]; simp
          have hold : e ∈ s.inner ∨ e = seedRtt fetched := by
            rcases hcase with ⟨k, -, hs2⟩ | ⟨-, hs2⟩
            · rw [hs2] at he2
              rcases List.mem_or_eq_of_mem_set he2 with h1 | h1
              · exact Or.inl h1
              · exact Or.inr h1
            · rw [hs2] at he2
              simp only [List.mem_append, List.mem_singleton] at he2
              exact he2
          constructor
          · rintro ⟨r1, f, hm, hname⟩
            rcases (hzip r1 f).1 hm with ⟨hr1, -⟩ | hm2
            · have hsame : e = seedRtt fetched := by
                apply List.inj_on_of_nodup_map hn2 he2 hnew
                rw [seedRtt_Name, hfn, ← hname, hr1]
              rw [hsame, seedRtt_Value, seedRtt_initialRtt]
            · exact absurd ⟨r1, f, hm2, hname⟩ hrest
          · intro hc
            rcases hold with h1 | h1
            · exact h1
            · exfalso
              apply hc
              refine ⟨r, fetched, (hzip r fetched).2 (Or.inl ⟨rfl, hp⟩), ?_⟩
              rw [h1, seedRtt_Name, hfn]

theorem reachable_liveOnce : Reachable liveOnce :=
  Reachable.refresh (fun _ => okProbe) 1 none
    (Reachable.registerServer "a" (sampleStamp "192.0.2.1:443" .DNSCrypt)
      (Reachable.init .P2 "" true))
    (by rfl)

theorem reachable_afterFailure : Reachable afterFailure :=
  Reachable.noticeFailure 0 2500000000 reachable_liveOnce

/-- C5 as stated fails. In the reachable registry `afterFailure` the server `a` is live
with initial round-trip time 30 and an average that a failed query has moved to
`5270/11`. A refresh whose probes all fail returns and leaves that entry as it is: its
average is not its initial round-trip time. -/
theorem refresh_keeps_stale_average :
    Reachable afterFailure ∧
    (refresh (fun _ => failedProbe) afterFailure).value?.map
        (fun r => r.1.inner.map (fun e => (e.Name, e.rtt.Value, e.initialRtt))) =
      some [("a", 5270 / 11, 30)] := by
  refine ⟨reachable_afterFailure, ?_⟩
  decide!

/-- C5, amended. After `refresh` returns, every live entry whose name was probed with
success during the pass has an average equal to its initial round-trip time, and every
live entry whose name was not probed with success during the pass is an entry that was
live before the pass, with the average it had then. -/
theorem refresh_seeds_probed_entries (probes : Nat → Probe) (s s1 : ServersInfo) (n : Int)
    (err : Option String) (hs : Reachable s) (h : refresh probes s = .ok (s1, n, err)) :
    ∀ e ∈ s1.inner,
      ((∃ r fetched, (r, Except.ok fetched) ∈
          s.registeredServers.zip (probeOutcomes probes 0 s.registeredServers s) ∧
          r.name = e.Name) → e.rtt.Value = (e.initialRtt : ℚ)) ∧
      ((¬ ∃ r fetched, (r, Except.ok fetched) ∈
          s.registeredServers.zip (probeOutcomes probes 0 s.registeredServers s) ∧
          r.name = e.Name) → e ∈ s.inner) := by
  obtain ⟨s2, hl, hs1⟩ := refresh_ok_inv probes s s1 n err h
  intro e he
  have he2 : e ∈ s2.inner := by
    rw [hs1] at he
    exact (sortByName_perm s2.inner).mem_iff.1 he
  exact refreshLoop_seeded probes _ _ _ _ _ _ _ _ hl (reachable_liveNames_nodup s hs) e he2

/-- C5, amended, at `registeredTwo` with probes that succeed: the refresh returns and
both live entries report the 30 ms of their probe. -/
theorem refresh_seeds_probed_entries_witness :
    Reachable registeredTwo ∧
    ∃ s1, refresh (fun _ => okProbe) registeredTwo = .ok (s1, 2, none) ∧
      s1.inner.map (fun e => (e.Name, e.rtt.Value, e.initialRtt)) =
        [("a", 30, 30), ("b", 30, 30)] ∧
      ∀ e ∈ s1.inner,
        ((∃ r fetched, (r, Except.ok fetched) ∈
            registeredTwo.registeredServers.zip
              (probeOutcomes (fun _ => okProbe) 0 registeredTwo.registeredServers registeredTwo) ∧
            r.name = e.Name) → e.rtt.Value = (e.initialRtt : ℚ)) ∧
        ((¬ ∃ r fetched, (r, Except.ok fetched) ∈
            registeredTwo.registeredServers.zip
              (probeOutcomes (fun _ => okProbe) 0 registeredTwo.registeredServers registeredTwo) ∧
            r.name = e.Name) → e ∈ registeredTwo.inner) := by
  have hr : Reachable registeredTwo :=
    Reachable.registerServer "a" (sampleStamp "192.0.2.1:443" .DNSCrypt)
      (Reachable.registerServer "b" (sampleStamp "192.0.2.2:443" .DNSCrypt)
        (Reachable.init .P2 "" true))
  refine ⟨hr, ?_⟩
  cases h : refresh (fun _ => okProbe) registeredTwo with
  | stop why =>
    have hv : (refresh (fun _ => okProbe) registeredTwo).value?.isSome = true := by decide
    rw [h] at hv
    simp [Res.value?] at hv
  | ok r =>
    obtain ⟨s1, n, err⟩ := r
    have hv : (refresh (fun _ => okProbe) registeredTwo).value?.map
        (fun r => (r.1.inner.map (fun e => (e.Name, e.rtt.Value, e.initialRtt)), r.2.1, r.2.2)) =
          some ([("a", 30, 30), ("b", 30, 30)], 2, none) := by decide!
    rw [h] at hv
    simp only [Res.value?, Option.map_some', Option.some.injEq, Prod.mk.injEq] at hv
    obtain ⟨h1, h2, h3⟩ := hv
    subst h2 h3
    exact ⟨s1, rfl, h1, refresh_seeds_probed_entries _ registeredTwo s1 _ _ hr h⟩

/-- C7 at `afterFailure`, where `a` is live with an average of `5270/11`: a pass whose
probes all fail returns the registry as it was. -/
theorem failed_probes_leave_registry_witness :
    ∃ err, refresh (fun _ => failedProbe) afterFailure =
        .ok ({ afterFailure with inner := sortByName afterFailure.inner }, 0, err) ∧
      sortByName afterFailure.inner = afterFailure.inner ∧
      afterFailure.inner.map (fun e => (e.Name, e.rtt.Value)) = [("a", 5270 / 11)] := by
  obtain ⟨err, h1, -⟩ := (failed_probes_leave_registry (fun _ => failedProbe) afterFailure).2
    (fun i r _ => ⟨"i/o timeout", rfl⟩)
  exact ⟨err, h1, by decide!, by decide!⟩

/-! ## The index that `getOne` uses -/

theorem Min_le_left (a b : Int) : Min a b ≤ a := by
  unfold Min; split <;> omega

theorem Min_eq_min (a b : Int) : Min a b = min a b := by
  unfold Min; split <;> omega

theorem Max_eq_max (a b : Int) : Max a b = max a b := by
  unfold Max; split <;> omega

theorem halfPrefix_le (n : Int) (hn : 1 ≤ n) : Max (Min n 2) (Int.tdiv n 2) ≤ n := by
  rw [Int.tdiv_eq_ediv (by omega) (by omega)]
  unfold Max Min
  split <;> split <;> omega

/-- A candidate that a strategy returns for a non-empty live list is an index of it. -/
theorem getCandidate_ok (strategy : LBStrategy) (n c : Int) (g g1 : Rng) (hn : 1 ≤ n)
    (h : strategy.getCandidate n g = .ok (c, g1)) : 0 ≤ c ∧ c < n := by
  cases strategy with
  | P2 =>
    obtain ⟨-, h0, h1, -, -⟩ := randIntn_ok _ _ _ _ h
    exact ⟨h0, lt_of_lt_of_le h1 (Min_le_left n 2)⟩
  | PN j =>
    obtain ⟨-, h0, h1, -, -⟩ := randIntn_ok _ _ _ _ h
    exact ⟨h0, lt_of_lt_of_le h1 (Min_le_left n j)⟩
  | PH =>
    obtain ⟨-, h0, h1, -, -⟩ := randIntn_ok _ _ _ _ h
    exact ⟨h0, lt_of_lt_of_le h1 (halfPrefix_le n hn)⟩
  | Random =>
    obtain ⟨-, h0, h1, -, -⟩ := randIntn_ok _ _ _ _ h
    exact ⟨h0, h1⟩
  | First =>
    simp only [LBStrategy.getCandidate, Res.ok.injEq, Prod.mk.injEq] at h
    omega
  | RR =>
    simp only [LBStrategy.getCandidate, Res.ok.injEq, Prod.mk.injEq] at h
    omega
  | Hash =>
    simp only [LBStrategy.getCandidate, Res.ok.injEq, Prod.mk.injEq] at h
    omega
  | LocationAvoidant =>
    simp only [LBStrategy.getCandidate, Res.ok.injEq, Prod.mk.injEq] at h
    omega

theorem randIntn_stop (g : Rng) (n : Int) (why : Stop) (h : randIntn g n = .stop why) :
    why = .invalidArgument ∧ n ≤ 0 := by
  unfold randIntn at h
  by_cases hn : n ≤ 0
  · rw [if_pos hn] at h
    simp only [Res.stop.injEq] at h
    exact ⟨h.symm, hn⟩
  · rw [if_neg hn] at h
    cases h

/-- A strategy stops only through `rand.Intn`. -/
theorem getCandidate_stop (strategy : LBStrategy) (n : Int) (g : Rng) (why : Stop)
    (h : strategy.getCandidate n g = .stop why) : why = .invalidArgument := by
  cases strategy with
  | P2 => exact (randIntn_stop _ _ _ h).1
  | PN j => exact (randIntn_stop _ _ _ h).1
  | PH => exact (randIntn_stop _ _ _ h).1
  | Random => exact (randIntn_stop _ _ _ h).1
  | First => cases h
  | RR => cases h
  | Hash => cases h
  | LocationAvoidant => cases h

/-- With a non-empty live list every strategy returns a candidate, `pN(j)` provided
`j >= 1`. -/
theorem getCandidate_total (strategy : LBStrategy) (n : Int) (g : Rng) (hn : 1 ≤ n)
    (hpn : ∀ j, strategy = .PN j → 1 ≤ j) : ∃ c g1, strategy.getCandidate n g = .ok (c, g1) := by
  cases hc : strategy.getCandidate n g with
  | ok res => exact ⟨res.1, res.2, rfl⟩
  | stop why =>
    exfalso
    cases strategy with
    | P2 =>
      have := (randIntn_stop _ _ _ hc).2
      unfold Min at this; split at this <;> omega
    | PN j =>
      have := (randIntn_stop _ _ _ hc).2
      have hj := hpn j rfl
      unfold Min at this; split at this <;> omega
    | PH =>
      have := (randIntn_stop _ _ _ hc).2
      rw [Int.tdiv_eq_ediv (by omega) (by omega)] at this
      unfold Max Min at this
      split at this <;> split at this <;> omega
    | Random =>
      have := (randIntn_stop _ _ _ hc).2
      omega
    | First => cases hc
    | RR => cases hc
    | Hash => cases hc
    | LocationAvoidant => cases hc

theorem laAddresses_inRange (env : Env) (s : ServersInfo) (n : Int) (hn : 1 ≤ n)
    (hlen : n = (s.inner.length : Int)) (l : List (String × List String)) :
    ∀ st : LaState, 0 ≤ st.candidate ∧ st.candidate < n →
      InRange n (laAddresses env s n l st) := by
  induction l with
  | nil => intro st hst; exact hst
  | cons kv rest ih =>
    intro st hst
    obtain ⟨key, val⟩ := kv
    unfold laAddresses
    cases htcp : st.serverInfo.TCPAddr with
    | none => simp [InRange]
    | some tcpAddr =>
      simp only
      by_cases hip : tcpAddr.IP = env.ParseIP key
      · rw [if_pos hip]
        cases hc : s.lbStrategy.getCandidate n st.g with
        | stop why =>
          simp only [InRange]
          rw [getCandidate_stop _ _ _ _ hc]
          decide
        | ok res =>
          obtain ⟨c, g1⟩ := res
          obtain ⟨h0, h1⟩ := getCandidate_ok _ _ _ _ _ hn hc
          obtain ⟨e, he, -⟩ := index_of_lt s.inner c h0 (by omega)
          simp only [he, InRange]
          exact ⟨h0, h1⟩
      · rw [if_neg hip]
        exact ih st hst

theorem laCountries_inRange (env : Env) (s : ServersInfo) (n : Int) (hn : 1 ≤ n)
    (hlen : n = (s.inner.length : Int)) (l : List (String × List (String × List String))) :
    ∀ st : LaState, 0 ≤ st.candidate ∧ st.candidate < n →
      InRange n (laCountries env s n l st) := by
  induction l with
  | nil => intro st hst; exact hst
  | cons kv rest ih =>
    intro st hst
    obtain ⟨k, v⟩ := kv
    unfold laCountries
    have h1 := laAddresses_inRange env s n hn hlen v st hst
    cases ha : laAddresses env s n v st with
    | stop why =>
      rw [ha] at h1
      exact h1
    | ok st1 =>
      rw [ha] at h1
      exact ih st1 h1

theorem laLoop_inRange (env : Env) (s : ServersInfo) (n : Int) (hn : 1 ≤ n)
    (hlen : n = (s.inner.length : Int)) (fuel : Nat) :
    ∀ (pass : Nat) (st : LaState), 0 ≤ st.candidate ∧ st.candidate < n →
      InRange n (laLoop env s n fuel pass st) := by
  induction fuel with
  | zero =>
    intro pass st _
    simp [laLoop, InRange]
  | succ fuel ih =>
    intro pass st hst
    unfold laLoop
    have h1 := laCountries_inRange env s n hn hlen (env.denylistRange pass)
      { st with changed := false } hst
    cases hc : laCountries env s n (env.denylistRange pass) { st with changed := false } with
    | stop why =>
      rw [hc] at h1
      exact h1
    | ok st1 =>
      rw [hc] at h1
      simp only
      split
      · exact ih (pass + 1) st1 h1
      · exact h1

/-- The location-avoidant block hands on a candidate inside the live list, or stops
otherwise than by the index panic. -/
theorem locationAvoidant_inRange (env : Env) (fuel : Nat) (s : ServersInfo) (n : Int)
    (hn : 1 ≤ n) (hlen : n = (s.inner.length : Int)) (candidate : Int) (g : Rng)
    (hc : 0 ≤ candidate ∧ candidate < n) :
    (∀ c g1, locationAvoidant env fuel s n candidate g = .ok (c, g1) → 0 ≤ c ∧ c < n) ∧
    (∀ why, locationAvoidant env fuel s n candidate g = .stop why → why ≠ .indexOutOfRange) := by
  unfold locationAvoidant
  by_cases hla : s.lbStrategyStr = "la"
  · rw [if_pos hla]
    cases hg : s.lbStrategy.getCandidate n g with
    | stop why =>
      refine ⟨fun c g1 h => (by cases h), fun why1 h => ?_⟩
      simp only [Res.stop.injEq] at h
      rw [← h, getCandidate_stop _ _ _ _ hg]
      decide
    | ok res =>
      obtain ⟨c1, g1⟩ := res
      obtain ⟨h0, h1⟩ := getCandidate_ok _ _ _ _ _ hn hg
      obtain ⟨e, he, -⟩ := index_of_lt s.inner c1 h0 (by omega)
      simp only [he]
      have hl := laLoop_inRange env s n hn hlen fuel 0
        { candidate := c1, serverInfo := e, changed := false, g := g1 } ⟨h0, h1⟩
      cases hloop : laLoop env s n fuel 0
          { candidate := c1, serverInfo := e, changed := false, g := g1 } with
      | stop why =>
        rw [hloop] at hl
        refine ⟨fun c g2 h => (by cases h), fun why1 h => ?_⟩
        simp only [Res.stop.injEq] at h
        rw [← h]; exact hl
      | ok st =>
        rw [hloop] at hl
        refine ⟨fun c g2 h => ?_, fun why1 h => by cases h⟩
        simp only [Res.ok.injEq, Prod.mk.injEq] at h
        rw [← h.1]; exact hl
  · rw [if_neg hla]
    refine ⟨fun c g2 h => ?_, fun why1 h => by cases h⟩
    simp only [Res.ok.injEq, Prod.mk.injEq] at h
    rw [← h.1]; exact hc

theorem wrapInt_succ (p : Int) (h0 : 0 ≤ p) (h1 : p < 2 ^ 63 - 1) : wrapInt (p + 1) = p + 1 := by
  unfold wrapInt
  omega

/-- The `switch` of `getOne` assigns a candidate inside the live list, or stops
otherwise than by the index panic. -/
theorem switchCandidate_inRange (env : Env) (s : ServersInfo) (n : Int) (qName : String)
    (g : Rng) (hn : 1 ≤ n)
    (hrr : s.lbStrategyStr = "rr" → 0 ≤ s.prevCandidate ∧ s.prevCandidate < 2 ^ 63 - 1) :
    (∀ c g1, switchCandidate env s n qName g = .ok (some c, g1) → 0 ≤ c ∧ c < n) ∧
    (∀ why, switchCandidate env s n qName g = .stop why → why ≠ .indexOutOfRange) := by
  unfold switchCandidate
  by_cases h1 : s.lbStrategyStr = "rr"
  · rw [if_pos h1]
    obtain ⟨hp0, hp1⟩ := hrr h1
    rw [wrapInt_succ _ hp0 hp1]
    refine ⟨fun c g2 h => ?_, fun why1 h => by cases h⟩
    simp only [Res.ok.injEq, Prod.mk.injEq, Option.some.injEq] at h
    rw [← h.1]
    exact ⟨Int.tmod_nonneg _ (by omega), Int.tmod_lt_of_pos _ (by omega)⟩
  · rw [if_neg h1]
    by_cases h2 : s.lbStrategyStr = "hash"
    · rw [if_pos h2]
      cases hsld : parseSLD env qName with
      | error e =>
        refine ⟨fun c g2 h => ?_, fun why1 h => by cases h⟩
        simp at h
      | ok sld =>
        simp only
        by_cases h3 : n % 4294967296 = 0
        · rw [if_pos h3]
          refine ⟨fun c g2 h => (by cases h), fun why1 h => ?_⟩
          simp only [Res.stop.injEq] at h
          rw [← h]
          decide
        · rw [if_neg h3]
          refine ⟨fun c g2 h => ?_, fun why1 h => by cases h⟩
          simp only [Res.ok.injEq, Prod.mk.injEq, Option.some.injEq] at h
          rw [← h.1]
          have hpos : 0 < n % 4294967296 := by omega
          have hle : n % 4294967296 ≤ n := by omega
          exact ⟨Int.emod_nonneg _ h3, lt_of_lt_of_le (Int.emod_lt_of_pos _ hpos) hle⟩
    · rw [if_neg h2]
      cases hg : s.lbStrategy.getCandidate n g with
      | stop why =>
        refine ⟨fun c g2 h => (by cases h), fun why1 h => ?_⟩
        simp only [Res.stop.injEq] at h
        rw [← h, getCandidate_stop _ _ _ _ hg]
        decide
      | ok res =>
        obtain ⟨c1, g1⟩ := res
        refine ⟨fun c g2 h => ?_, fun why1 h => by cases h⟩
        simp only [Res.ok.injEq, Prod.mk.injEq, Option.some.injEq] at h
        rw [← h.1]
        exact getCandidate_ok _ _ _ _ _ hn hg

/-- On a non-empty live list the estimator step returns. -/
theorem estimatorUpdate_total (s : ServersInfo) (now : Int) (g : Rng) (hne : s.inner ≠ []) :
    ∃ s1 g1, estimatorUpdate s now g = .ok (s1, g1) := by
  have hlen : 0 < s.inner.length := List.length_pos.2 hne
  unfold estimatorUpdate
  cases hr : randIntn g (s.inner.length : Int) with
  | stop why =>
    have := (randIntn_stop _ _ _ hr).2
    omega
  | ok res =>
    obtain ⟨candidate, g2⟩ := res
    obtain ⟨-, h0, h1, -, -⟩ := randIntn_ok _ _ _ _ hr
    simp only
    by_cases hc : candidate = 0
    · rw [if_pos hc]; exact ⟨_, _, rfl⟩
    · rw [if_neg hc]
      obtain ⟨cand, hcand, -⟩ := index_of_lt s.inner candidate h0 h1
      obtain ⟨best, hbest, -⟩ := index_of_lt s.inner 0 (le_refl 0) (by omega)
      rw [hcand, hbest]
      exact ⟨_, _, rfl⟩

/-- The estimator step of `getOne`, when the live list is not empty: it returns, and
it changes neither the length of the live list nor the selection policy nor
`prevCandidate`. -/
theorem getOne_estimator (s : ServersInfo) (now : Int) (g : Rng) (hne : s.inner ≠ []) :
    ∃ s2 g2, (if s.lbEstimator then estimatorUpdate s now g else .ok (s, g)) = .ok (s2, g2) ∧
      s2.inner.length = s.inner.length ∧ s2.lbStrategy = s.lbStrategy ∧
      s2.lbStrategyStr = s.lbStrategyStr ∧ s2.prevCandidate = s.prevCandidate := by
  by_cases hest : s.lbEstimator = true
  · rw [if_pos hest]
    obtain ⟨s2, g2, h⟩ := estimatorUpdate_total s now g hne
    obtain ⟨hperm, -, h3, h4, -, h6⟩ := estimatorUpdate_ok s s2 now g g2 h
    refine ⟨s2, g2, h, ?_, h3, h4, h6⟩
    simpa [liveNames] using hperm.length_eq
  · rw [if_neg hest]
    exact ⟨s, g, rfl, rfl, rfl, rfl, rfl⟩

/-- The rest of `getOne` once the estimator step has returned `s2`. -/
theorem getOne_after_estimator (env : Env) (fuel : Nat) (s s2 : ServersInfo) (qName : String)
    (now : Int) (g g2 : Rng) (hne : s.inner ≠ [])
    (he : (if s.lbEstimator then estimatorUpdate s now g else .ok (s, g)) = .ok (s2, g2)) :
    getOne env fuel s qName now g =
      match switchCandidate env s2 (s.inner.length : Int) qName g2 with
      | .stop why => .stop why
      | .ok (none, g3) => .ok (s2, none, g3)
      | .ok (some candidate, g3) =>
        match locationAvoidant env fuel s2 (s.inner.length : Int) candidate g3 with
        | .stop why => .stop why
        | .ok (candidate1, g4) =>
          match index s2.inner candidate1 with
          | .stop why => .stop why
          | .ok serverInfo => .ok ({ s2 with prevCandidate := candidate1 }, some serverInfo, g4) := by
  have hlen : 0 < s.inner.length := List.length_pos.2 hne
  unfold getOne
  simp only
  rw [if_neg (by omega), he]

/-- The index panic cannot end `getOne`, provided round-robin starts from a
`prevCandidate` that is at least 0 and below the largest `int`. -/
theorem getOne_no_index_panic (env : Env) (fuel : Nat) (s : ServersInfo) (qName : String)
    (now : Int) (g : Rng) (hne : s.inner ≠ [])
    (hrr : s.lbStrategyStr = "rr" → 0 ≤ s.prevCandidate ∧ s.prevCandidate < 2 ^ 63 - 1) :
    getOne env fuel s qName now g ≠ .stop .indexOutOfRange := by
  have hlen : 0 < s.inner.length := List.length_pos.2 hne
  obtain ⟨s2, g2, he, hl2, -, hstr, hprev⟩ := getOne_estimator s now g hne
  rw [getOne_after_estimator env fuel s s2 qName now g g2 hne he]
  have hrr2 : s2.lbStrategyStr = "rr" → 0 ≤ s2.prevCandidate ∧ s2.prevCandidate < 2 ^ 63 - 1 := by
    rw [hstr, hprev]; exact hrr
  obtain ⟨hsw1, hsw2⟩ :=
    switchCandidate_inRange env s2 (s.inner.length : Int) qName g2 (by omega) hrr2
  cases hsw : switchCandidate env s2 (s.inner.length : Int) qName g2 with
  | stop why =>
    simp only
    intro hc
    simp only [Res.stop.injEq] at hc
    exact hsw2 why hsw hc
  | ok res =>
    obtain ⟨oc, g3⟩ := res
    cases oc with
    | none => simp
    | some candidate =>
      simp only
      obtain ⟨hla1, hla2⟩ := locationAvoidant_inRange env fuel s2 (s.inner.length : Int)
        (by omega) (by rw [hl2]) candidate g3 (hsw1 candidate g3 hsw)
      cases hla : locationAvoidant env fuel s2 (s.inner.length : Int) candidate g3 with
      | stop why =>
        simp only
        intro hc
        simp only [Res.stop.injEq] at hc
        exact hla2 why hla hc
      | ok res2 =>
        obtain ⟨c1, g4⟩ := res2
        obtain ⟨h0, h1⟩ := hla1 c1 g4 hla
        obtain ⟨e, hix, -⟩ := index_of_lt s2.inner c1 h0 (by omega)
        simp [hix]

/-- An entry that `getOne` returns is the entry of the live list at the index that
the call stored in `prevCandidate`. -/
theorem getOne_returned_entry (env : Env) (fuel : Nat) (s s1 : ServersInfo) (qName : String)
    (now : Int) (g g1 : Rng) (e : ServerInfo)
    (h : getOne env fuel s qName now g = .ok (s1, some e, g1)) :
    0 ≤ s1.prevCandidate ∧ s1.prevCandidate < (s1.inner.length : Int) ∧
      s1.inner[s1.prevCandidate.toNat]? = some e ∧ e ∈ s1.inner ∧
      s1.inner.length = s.inner.length := by
  have hperm := (getOne_ok_names env fuel s s1 qName now g g1 (some e) h).1
  have hlen : s1.inner.length = s.inner.length := by simpa [liveNames] using hperm.length_eq
  rcases getOne_ok_inv env fuel s s1 qName now g g1 (some e) h with
    ⟨-, -, hc⟩ | ⟨-, s2, g2, -, ⟨hc, -⟩ | ⟨c, e1, hc, hs1, hix⟩⟩
  · cases hc
  · cases hc
  · simp only [Option.some.injEq] at hc
    subst hc
    obtain ⟨h0, h1, h2⟩ := index_ok _ _ _ hix
    have hin : s1.inner = s2.inner := by rw [hs1]
    have hp : s1.prevCandidate = c := by rw [hs1]
    rw [hin, hp]
    exact ⟨h0, h1, h2, List.getElem?_mem h2, by rw [← hin]; exact hlen⟩

/-- Outside the location-avoidant policy `getOne` returns on every non-empty live list
of fewer than `2^32` servers: an entry, or `nil` when the policy is `hash` and the query
name has no second-level domain. -/
theorem getOne_returns (env : Env) (fuel : Nat) (s : ServersInfo) (qName : String)
    (now : Int) (g : Rng) (hne : s.inner ≠ [])
    (hrr : s.lbStrategyStr = "rr" → 0 ≤ s.prevCandidate ∧ s.prevCandidate < 2 ^ 63 - 1)
    (hla : s.lbStrategyStr ≠ "la")
    (hpn : s.lbStrategyStr ≠ "rr" → s.lbStrategyStr ≠ "hash" →
      ∀ j, s.lbStrategy = .PN j → 1 ≤ j)
    (h32 : (s.inner.length : Int) < 4294967296) :
    ∃ s1 r g1, getOne env fuel s qName now g = .ok (s1, r, g1) ∧
      (r = none → s.lbStrategyStr = "hash" ∧ ∃ msg, parseSLD env qName = .error msg) := by
  have hlen : 0 < s.inner.length := List.length_pos.2 hne
  obtain ⟨s2, g2, he, hl2, hst, hstr, hprev⟩ := getOne_estimator s now g hne
  rw [getOne_after_estimator env fuel s s2 qName now g g2 hne he]
  have hrr2 : s2.lbStrategyStr = "rr" → 0 ≤ s2.prevCandidate ∧ s2.prevCandidate < 2 ^ 63 - 1 := by
    rw [hstr, hprev]; exact hrr
  obtain ⟨hsw1, -⟩ :=
    switchCandidate_inRange env s2 (s.inner.length : Int) qName g2 (by omega) hrr2
  -- the `switch` returns
  have hsw : ∃ oc g3, switchCandidate env s2 (s.inner.length : Int) qName g2 = .ok (oc, g3) ∧
      (oc = none → s.lbStrategyStr = "hash" ∧ ∃ msg, parseSLD env qName = .error msg) := by
    unfold switchCandidate
    rw [hstr, hprev, hst]
    by_cases h1 : s.lbStrategyStr = "rr"
    · rw [if_pos h1]
      exact ⟨_, _, rfl, fun hc => by cases hc⟩
    · rw [if_neg h1]
      by_cases h2 : s.lbStrategyStr = "hash"
      · rw [if_pos h2]
        cases hsld : parseSLD env qName with
        | error msg => exact ⟨none, g2, rfl, fun _ => ⟨h2, msg, rfl⟩⟩
        | ok sld =>
          simp only
          rw [if_neg (by omega)]
          exact ⟨_, _, rfl, fun hc => by cases hc⟩
      · rw [if_neg h2]
        obtain ⟨c, g3, hc⟩ := getCandidate_total s.lbStrategy (s.inner.length : Int) g2
          (by omega) (hpn h1 h2)
        rw [hc]
        exact ⟨_, _, rfl, fun hc => by cases hc⟩
  obtain ⟨oc, g3, hsweq, hnone⟩ := hsw
  rw [hsweq]
  cases oc with
  | none => exact ⟨s2, none, g3, rfl, fun _ => hnone rfl⟩
  | some candidate =>
    simp only
    obtain ⟨h0, h1⟩ := hsw1 candidate g3 hsweq
    have hla2 : locationAvoidant env fuel s2 (s.inner.length : Int) candidate g3 =
        .ok (candidate, g3) := by
      unfold locationAvoidant
      rw [if_neg (by rw [hstr]; exact hla)]
    rw [hla2]
    simp only
    obtain ⟨e, hix, -⟩ := index_of_lt s2.inner candidate h0 (by omega)
    rw [hix]
    exact ⟨_, some e, g3, rfl, fun hc => by cases hc⟩

/-! ## `prevCandidate` in reachable registries -/

theorem refreshServer_prevCandidate (p : Probe) (s s1 : ServersInfo) (name : String)
    (stamp : ServerStamp) (err : Option String)
    (h : refreshServer p s name stamp = .ok (s1, err)) :
    s1.prevCandidate = s.prevCandidate ∧ s.inner.length ≤ s1.inner.length := by
  rcases refreshServer_ok_inv p s s1 name stamp err h with
    ⟨e, -, hs, -⟩ | ⟨-, fetched, -, -, ⟨i, -, hs⟩ | ⟨-, hs⟩⟩
  · rw [hs]; exact ⟨rfl, le_refl _⟩
  · rw [hs]; exact ⟨rfl, by simp⟩
  · rw [hs]; exact ⟨rfl, by simp⟩

theorem refreshLoop_prevCandidate (probes : Nat → Probe) (regs : List RegisteredServer) :
    ∀ (i : Nat) (s s1 : ServersInfo) (liveServers n : Int) (err0 err : Option String),
      refreshLoop probes i regs s liveServers err0 = .ok (s1, n, err) →
      s1.prevCandidate = s.prevCandidate ∧ s.inner.length ≤ s1.inner.length := by
  induction regs with
  | nil =>
    intro i s s1 liveServers n err0 err h
    simp only [refreshLoop, Res.ok.injEq, Prod.mk.injEq] at h
    rw [← h.1]; exact ⟨rfl, le_refl _⟩
  | cons r rest ih =>
    intro i s s1 liveServers n err0 err h
    unfold refreshLoop at h
    cases hr : refreshServer (probes i) s r.name r.stamp with
    | stop why => rw [hr] at h; simp at h
    | ok res =>
      obtain ⟨s2, err2⟩ := res
      rw [hr] at h
      obtain ⟨h1, h2⟩ := ih _ _ _ _ _ _ _ h
      obtain ⟨h3, h4⟩ := refreshServer_prevCandidate _ _ _ _ _ _ hr
      exact ⟨h1.trans h3, le_trans h4 h2⟩

theorem registerServer_prevCandidate (s : ServersInfo) (name : String) (stamp : ServerStamp) :
    (registerServer s name stamp).prevCandidate = s.prevCandidate := by
  unfold registerServer
  simp only
  split <;> rfl

theorem feedback_prevCandidate (s : ServersInfo) (i : Nat) (f : ServerInfo → ServerInfo) :
    (s.feedback i f).prevCandidate = s.prevCandidate ∧
      (s.feedback i f).inner.length = s.inner.length := by
  unfold ServersInfo.feedback
  cases s.inner[i]? with
  | none => exact ⟨rfl, rfl⟩
  | some e => exact ⟨rfl, by simp⟩

/-- In every reachable registry `prevCandidate` is 0 or an index of the live list:
round-robin never starts from a value near the largest `int`. -/
theorem reachable_prevCandidate (s : ServersInfo) (h : Reachable s) :
    0 ≤ s.prevCandidate ∧
      (s.prevCandidate = 0 ∨ s.prevCandidate < (s.inner.length : Int)) := by
  induction h with
  | init strategy strategyStr estimator => exact ⟨le_refl 0, Or.inl rfl⟩
  | registerServer name stamp _ ih =>
    rw [registerServer_prevCandidate, registerServer_inner]
    exact ih
  | refreshServer probe name stamp err _ hr ih =>
    obtain ⟨h1, h2⟩ := refreshServer_prevCandidate _ _ _ _ _ _ hr
    rw [h1]
    refine ⟨ih.1, ?_⟩
    rcases ih.2 with h3 | h3
    · exact Or.inl h3
    · exact Or.inr (by omega)
  | refresh probes liveServers err _ hr ih =>
    obtain ⟨s2, hl, hs1⟩ := refresh_ok_inv _ _ _ _ _ hr
    obtain ⟨h1, h2⟩ := refreshLoop_prevCandidate _ _ _ _ _ _ _ _ _ hl
    have hlen : (sortByName s2.inner).length = s2.inner.length :=
      (sortByName_perm s2.inner).length_eq
    rw [hs1]
    simp only [hlen, h1]
    refine ⟨ih.1, ?_⟩
    rcases ih.2 with h3 | h3
    · exact Or.inl h3
    · exact Or.inr (by omega)
  | getOne env fuel qName now g g1 chosen _ hr ih =>
    have hlen := (getOne_ok_names _ _ _ _ _ _ _ _ _ hr).1.length_eq
    simp only [liveNames, List.length_map] at hlen
    rcases getOne_ok_inv _ _ _ _ _ _ _ _ _ hr with ⟨-, hs, -⟩ | ⟨hne, s2, g2, he, hrest⟩
    · rw [hs]; exact ih
    · obtain ⟨s3, g3, he3, -, -, -, hp3⟩ := getOne_estimator _ now g hne
      rw [he] at he3
      simp only [Res.ok.injEq, Prod.mk.injEq] at he3
      rcases hrest with ⟨-, hs⟩ | ⟨c, e, -, hs, hix⟩
      · rw [hlen, hs, he3.1, hp3]; exact ih
      · obtain ⟨h0, h1, -⟩ := index_ok _ _ _ hix
        rw [hs]
        exact ⟨h0, Or.inr h1⟩
  | noticeFailure i timeout _ ih =>
    obtain ⟨h1, h2⟩ := feedback_prevCandidate _ i (fun e => e.noticeFailure timeout)
    rw [h1, h2]; exact ih
  | noticeBegin i now _ ih =>
    obtain ⟨h1, h2⟩ := feedback_prevCandidate _ i (fun e => e.noticeBegin now)
    rw [h1, h2]; exact ih
  | noticeSuccess i timeout now _ ih =>
    obtain ⟨h1, h2⟩ := feedback_prevCandidate _ i (fun e => e.noticeSuccess timeout now)
    rw [h1, h2]; exact ih

/-! ## The index that `getOne` uses, continued -/

/-- In a reachable registry whose live list has a length that a Go `int` holds,
`prevCandidate` is at least 0 and below the largest `int`, so `prevCandidate + 1` does
not wrap. -/
theorem reachable_prevCandidate_bound (s : ServersInfo) (hs : Reachable s)
    (hlen : (s.inner.length : Int) < 2 ^ 63) :
    0 ≤ s.prevCandidate ∧ s.prevCandidate < 2 ^ 63 - 1 := by
  obtain ⟨h0, h1⟩ := reachable_prevCandidate s hs
  refine ⟨h0, ?_⟩
  rcases h1 with h1 | h1
  · rw [h1]
    decide
  · omega

/-- The registry `rrLive` is reachable. -/
theorem reachable_rrLive : Reachable rrLive := by
  have hr : Reachable rrRegistered :=
    Reachable.registerServer "c" (sampleStamp "192.0.2.3:443" .DNSCrypt)
      (Reachable.registerServer "b" (sampleStamp "192.0.2.2:443" .DNSCrypt)
        (Reachable.registerServer "a" (sampleStamp "192.0.2.1:443" .DNSCrypt)
          (Reachable.init .RR "rr" false)))
  unfold rrLive
  cases h : refresh (fun _ => okProbe) rrRegistered with
  | stop why => exact hr
  | ok r => exact Reachable.refresh _ r.2.1 r.2.2 hr h

/-- C8. In every reachable registry (whose live list has a length that a Go `int`
holds), `getOne` returns `nil` when the live list is empty. When it is not empty, for
every policy and every outcome of the random generator, the index it uses lies in
`[0, |live|)`: no lookup `live[index]` goes out of range, and an entry that is returned
is the entry of the live list at the index stored in `prevCandidate`, hence a member of
the live list. Round-robin needs no proviso: in a reachable registry `prevCandidate` is
0 or an index of the live list. Outside the location-avoidant policy, with `pN(j)` only
for `j >= 1` and fewer than `2^32` live servers, the call does return. -/
theorem getOne_index_in_range (env : Env) (fuel : Nat) (s : ServersInfo) (qName : String)
    (now : Int) (g : Rng) (hs : Reachable s) (hlen : (s.inner.length : Int) < 2 ^ 63) :
    (s.inner = [] → getOne env fuel s qName now g = .ok (s, none, g)) ∧
    (s.inner ≠ [] →
      getOne env fuel s qName now g ≠ .stop .indexOutOfRange ∧
      (∀ s1 e g1, getOne env fuel s qName now g = .ok (s1, some e, g1) →
        0 ≤ s1.prevCandidate ∧ s1.prevCandidate < (s1.inner.length : Int) ∧
        s1.inner[s1.prevCandidate.toNat]? = some e ∧ e ∈ s1.inner ∧
        s1.inner.length = s.inner.length) ∧
      (s.lbStrategyStr ≠ "la" →
        (s.lbStrategyStr ≠ "rr" → s.lbStrategyStr ≠ "hash" →
          ∀ j, s.lbStrategy = .PN j → 1 ≤ j) →
        (s.inner.length : Int) < 4294967296 →
        ∃ s1 r g1, getOne env fuel s qName now g = .ok (s1, r, g1) ∧
          (r = none → s.lbStrategyStr = "hash" ∧ ∃ msg, parseSLD env qName = .error msg))) := by
  have hrr : s.lbStrategyStr = "rr" → 0 ≤ s.prevCandidate ∧ s.prevCandidate < 2 ^ 63 - 1 :=
    fun _ => reachable_prevCandidate_bound s hs hlen
  refine ⟨fun hnil => ?_, fun hne => ⟨getOne_no_index_panic env fuel s qName now g hne hrr,
    fun s1 e g1 h => getOne_returned_entry env fuel s s1 qName now g g1 e h,
    fun hla hpn h32 => getOne_returns env fuel s qName now g hne hrr hla hpn h32⟩⟩
  unfold getOne
  simp [hnil]

/-- C8 at the reachable round-robin registry `rrLive`, whose three servers are live and
whose `prevCandidate` is 0: the call returns the entry at index 1, which is `b`. -/
theorem getOne_index_in_range_witness :
    Reachable rrLive ∧ liveNames rrLive = ["a", "b", "c"] ∧ rrLive.lbStrategyStr = "rr" ∧
    getOne sampleEnv 0 rrLive "example.com." 0 (fun _ => 0) ≠ .stop .indexOutOfRange ∧
    ∃ s1 e g1, getOne sampleEnv 0 rrLive "example.com." 0 (fun _ => 0) =
        .ok (s1, some e, g1) ∧ s1.prevCandidate = 1 ∧ e.Name = "b" ∧ e ∈ s1.inner := by
  have hnames : liveNames rrLive = ["a", "b", "c"] := by decide!
  have hl : rrLive.inner.length = 3 := by
    have := congrArg List.length hnames
    simpa [liveNames] using this
  have hne : rrLive.inner ≠ [] := by
    intro h
    rw [h] at hl
    cases hl
  obtain ⟨h1, h2, h3⟩ :=
    (getOne_index_in_range sampleEnv 0 rrLive "example.com." 0 (fun _ => 0) reachable_rrLive
      (by rw [hl]; decide)).2 hne
  obtain ⟨s1, r, g1, hget, hnone⟩ := h3 (by decide!) (fun hc => absurd (by decide!) hc)
    (by rw [hl]; decide)
  have hv : (getOne sampleEnv 0 rrLive "example.com." 0 (fun _ => 0)).value?.map
      (fun r => (r.1.prevCandidate, r.2.1.map (fun e => e.Name))) = some (1, some "b") := by
    decide!
  rw [hget] at hv
  simp only [Res.value?, Option.map_some', Option.some.injEq, Prod.mk.injEq] at hv
  obtain ⟨hp, hname⟩ := hv
  cases r with
  | none => simp at hname
  | some e =>
    simp only [Option.map_some', Option.some.injEq] at hname
    exact ⟨reachable_rrLive, hnames, by decide!, h1, s1, e, g1, hget, hp, hname,
      (h2 s1 e g1 hget).2.2.2.1⟩

/-! ## The prefix each sampling policy draws from -/

theorem randIntn_pos (g : Rng) (k : Int) (hk : 0 < k) :
    randIntn g k = .ok ((g 0 : Int) % k, fun i => g (i + 1)) ∧
      0 ≤ (g 0 : Int) % k ∧ (g 0 : Int) % k < k := by
  unfold randIntn
  rw [if_neg (by omega)]
  exact ⟨rfl, Int.emod_nonneg _ (by omega), Int.emod_lt_of_pos _ hk⟩

theorem randIntn_attains (k c : Int) (hc0 : 0 ≤ c) (hck : c < k) :
    ∃ g g1, randIntn g k = .ok (c, g1) := by
  refine ⟨fun _ => c.toNat, fun _ => c.toNat, ?_⟩
  unfold randIntn
  rw [if_neg (by omega)]
  have : ((c.toNat : Nat) : Int) % k = c := by
    rw [Int.toNat_of_nonneg hc0]
    exact Int.emod_eq_of_lt hc0 hck
  simp only [this]

/-- C9. For every count `n >= 1` of servers each sampling policy draws its index from
the prefix `[0, k)` that the table of the spec gives, and `k` never exceeds `n`: with
`k` the table's length for the strategy (`first`: 1, `random`: `n`, `p2`: `min(n, 2)`,
`pN(j)` with `j >= 1`: `min(n, j)`, `pH`: `max(min(n, 2), n/2)`), `1 <= k <= n`, every
call returns an index in `[0, k)`, every index of `[0, k)` is returned for some outcome
of the generator, and `first` always returns 0. -/
theorem getCandidate_samples_table_prefix (strategy : LBStrategy) (n k : Int) (hn : 1 ≤ n)
    (hpn : ∀ j, strategy = .PN j → 1 ≤ j) (hk : tableLength strategy n = some k) :
    1 ≤ k ∧ k ≤ n ∧
    (∀ g, ∃ c g1, strategy.getCandidate n g = .ok (c, g1) ∧ 0 ≤ c ∧ c < k) ∧
    (∀ c, 0 ≤ c → c < k → ∃ g g1, strategy.getCandidate n g = .ok (c, g1)) ∧
    (strategy = .First → ∀ g, strategy.getCandidate n g = .ok (0, g)) := by
  cases strategy with
  | First =>
    simp only [tableLength, Option.some.injEq] at hk
    subst hk
    refine ⟨le_refl 1, hn, fun g => ⟨0, g, rfl, by omega, by omega⟩, fun c h0 h1 => ?_,
      fun _ g => rfl⟩
    have : c = 0 := by omega
    subst this
    exact ⟨fun _ => 0, fun _ => 0, rfl⟩
  | Random =>
    simp only [tableLength, Option.some.injEq] at hk
    subst hk
    refine ⟨hn, le_refl n, fun g => ?_, fun c h0 h1 => randIntn_attains n c h0 h1,
      fun hc => by cases hc⟩
    obtain ⟨h1, h2, h3⟩ := randIntn_pos g n (by omega)
    exact ⟨_, _, h1, h2, h3⟩
  | P2 =>
    simp only [tableLength, Option.some.injEq] at hk
    have hkk : Min n 2 = k := by rw [Min_eq_min, hk]
    have hk1 : 1 ≤ k ∧ k ≤ n := by omega
    refine ⟨hk1.1, hk1.2, fun g => ?_, fun c h0 h1 => ?_, fun hc => by cases hc⟩
    · obtain ⟨h1, h2, h3⟩ := randIntn_pos g k (by omega)
      exact ⟨_, _, by simp only [LBStrategy.getCandidate, hkk]; exact h1, h2, h3⟩
    · simp only [LBStrategy.getCandidate, hkk]
      exact randIntn_attains k c h0 h1
  | PN j =>
    have hj := hpn j rfl
    simp only [tableLength, Option.some.injEq] at hk
    have hkk : Min n j = k := by rw [Min_eq_min, hk]
    have hk1 : 1 ≤ k ∧ k ≤ n := by omega
    refine ⟨hk1.1, hk1.2, fun g => ?_, fun c h0 h1 => ?_, fun hc => by cases hc⟩
    · obtain ⟨h1, h2, h3⟩ := randIntn_pos g k (by omega)
      exact ⟨_, _, by simp only [LBStrategy.getCandidate, hkk]; exact h1, h2, h3⟩
    · simp only [LBStrategy.getCandidate, hkk]
      exact randIntn_attains k c h0 h1
  | PH =>
    simp only [tableLength, Option.some.injEq] at hk
    have hkk : Max (Min n 2) (Int.tdiv n 2) = k := by
      rw [Int.tdiv_eq_ediv (by omega) (by omega), Max_eq_max, Min_eq_min, hk]
    have hk1 : 1 ≤ k ∧ k ≤ n := by omega
    refine ⟨hk1.1, hk1.2, fun g => ?_, fun c h0 h1 => ?_, fun hc => by cases hc⟩
    · obtain ⟨h1, h2, h3⟩ := randIntn_pos g k (by omega)
      exact ⟨_, _, by simp only [LBStrategy.getCandidate, hkk]; exact h1, h2, h3⟩
    · simp only [LBStrategy.getCandidate, hkk]
      exact randIntn_attains k c h0 h1
  | RR => simp [tableLength] at hk
  | Hash => simp [tableLength] at hk
  | LocationAvoidant => simp [tableLength] at hk

/-- C9 at `pH` with seven servers: the prefix has length `max(min(7, 2), 7/2) = 3`, and
the raw outcome 5 of the generator gives the index `5 mod 3 = 2`. -/
theorem getCandidate_samples_table_prefix_witness :
    (1 : Int) ≤ 7 ∧ tableLength .PH 7 = some 3 ∧
    ((1 : Int) ≤ 3 ∧ (3 : Int) ≤ 7) ∧
    (∃ g1, LBStrategy.PH.getCandidate 7 (fun _ => 5) = .ok (2, g1)) := by
  have h := getCandidate_samples_table_prefix .PH 7 3 (by decide) (fun j hj => by cases hj)
    (by decide)
  refine ⟨by decide, by decide, ⟨h.1, h.2.1⟩, ?_⟩
  obtain ⟨c, g1, hc, -, -⟩ := h.2.2.1 (fun _ => 5)
  exact ⟨fun _ => 5, by rfl⟩

/-! ## Round-robin -/

/-- One round-robin `getOne` with the estimator off: it uses the index
`(prevCandidate + 1) mod n`, stores it, and returns the entry at that index. -/
theorem getOne_rr_step (env : Env) (fuel : Nat) (s : ServersInfo) (qName : String) (now : Int)
    (g : Rng) (hstr : s.lbStrategyStr = "rr") (hest : s.lbEstimator = false)
    (hne : s.inner ≠ []) (hp0 : 0 ≤ s.prevCandidate) (hp1 : s.prevCandidate < 2 ^ 63 - 1) :
    ∃ e, getOne env fuel s qName now g =
        .ok ({ s with prevCandidate := (s.prevCandidate + 1) % (s.inner.length : Int) },
          some e, g) ∧
      s.inner[((s.prevCandidate + 1) % (s.inner.length : Int)).toNat]? = some e := by
  have hlen : 0 < s.inner.length := List.length_pos.2 hne
  have he : (if s.lbEstimator then estimatorUpdate s now g else Res.ok (s, g)) = .ok (s, g) := by
    rw [hest]; rfl
  rw [getOne_after_estimator env fuel s s qName now g g hne he]
  have hsw : switchCandidate env s (s.inner.length : Int) qName g =
      .ok (some ((s.prevCandidate + 1) % (s.inner.length : Int)), g) := by
    unfold switchCandidate
    rw [if_pos hstr, wrapInt_succ _ hp0 hp1, Int.tmod_eq_emod (by omega) (by omega)]
  rw [hsw]
  simp only
  have hla : locationAvoidant env fuel s (s.inner.length : Int)
      ((s.prevCandidate + 1) % (s.inner.length : Int)) g =
        .ok ((s.prevCandidate + 1) % (s.inner.length : Int), g) := by
    unfold locationAvoidant
    rw [if_neg (by rw [hstr]; decide)]
  rw [hla]
  simp only
  obtain ⟨e, hix, hget⟩ := index_of_lt s.inner ((s.prevCandidate + 1) % (s.inner.length : Int))
    (Int.emod_nonneg _ (by omega)) (Int.emod_lt_of_pos _ (by omega))
  rw [hix]
  exact ⟨e, rfl, hget⟩

/-- The indices that consecutive round-robin selects use, starting from
`prevCandidate = p`: `(p + 1) mod n`, `(p + 2) mod n`, and so on. -/
theorem selectIndices_rr (env : Env) (fuel : Nat) (calls : List (String × Int × Rng)) :
    ∀ s : ServersInfo, s.lbStrategyStr = "rr" → s.lbEstimator = false → s.inner ≠ [] →
      0 ≤ s.prevCandidate → s.prevCandidate < 2 ^ 63 - 1 → (s.inner.length : Int) < 2 ^ 63 →
      selectIndices env fuel calls s =
        .ok ((List.range calls.length).map
          (fun k : Nat => (s.prevCandidate + 1 + (k : Int)) % (s.inner.length : Int))) := by
  induction calls with
  | nil => intro s _ _ _ _ _ _; rfl
  | cons call rest ih =>
    intro s hstr hest hne hp0 hp1 hlen
    obtain ⟨qName, now, g⟩ := call
    have hpos : 0 < s.inner.length := List.length_pos.2 hne
    obtain ⟨e, hstep, -⟩ := getOne_rr_step env fuel s qName now g hstr hest hne hp0 hp1
    unfold selectIndices
    rw [hstep]
    simp only
    have hnext0 : 0 ≤ (s.prevCandidate + 1) % (s.inner.length : Int) :=
      Int.emod_nonneg _ (by omega)
    have hnext1 : (s.prevCandidate + 1) % (s.inner.length : Int) < (s.inner.length : Int) :=
      Int.emod_lt_of_pos _ (by omega)
    rw [ih { s with prevCandidate := (s.prevCandidate + 1) % (s.inner.length : Int) }
      hstr hest hne hnext0 (by simp only; omega) hlen]
    simp only [List.length_cons, List.range_succ_eq_map, List.map_cons, List.map_map,
      Nat.cast_zero, add_zero, Res.ok.injEq, List.cons.injEq, true_and]
    apply List.map_congr_left
    intro k _
    simp only [Function.comp, Nat.succ_eq_add_one, Nat.cast_add, Nat.cast_one]
    rw [add_assoc ((s.prevCandidate + 1) % (s.inner.length : Int)), Int.emod_add_emod]
    congr 1
    ring

/-- Shifting `0, ..., n-1` by a constant modulo `n` gives every index of `[0, n)`
exactly once. -/
theorem shifted_range_count (n : Nat) (a i : Int) (hn : 0 < n) (hi0 : 0 ≤ i) (hi1 : i < n) :
    ((List.range n).map (fun k : Nat => (a + (k : Int)) % (n : Int))).count i = 1 := by
  apply List.count_eq_one_of_mem
  · apply List.Nodup.map_on _ (List.nodup_range n)
    intro x hx y hy hxy
    have hx1 : x < n := List.mem_range.1 hx
    have hy1 : y < n := List.mem_range.1 hy
    rw [Int.emod_eq_emod_iff_emod_sub_eq_zero] at hxy
    have hdvd : (n : Int) ∣ ((x : Int) - (y : Int)) := by
      have := Int.dvd_of_emod_eq_zero hxy
      simpa using this
    have hz : (x : Int) - (y : Int) = 0 :=
      Int.eq_zero_of_abs_lt_dvd hdvd (by rw [abs_lt]; constructor <;> omega)
    omega
  · rw [List.mem_map]
    have hk0 : 0 ≤ (i - a) % (n : Int) := Int.emod_nonneg _ (by omega)
    have hk1 : (i - a) % (n : Int) < (n : Int) := Int.emod_lt_of_pos _ (by omega)
    refine ⟨((i - a) % (n : Int)).toNat, List.mem_range.2 (by omega), ?_⟩
    rw [Int.toNat_of_nonneg hk0, Int.add_emod_emod]
    have : a + (i - a) = i := by ring
    rw [this]
    exact Int.emod_eq_of_lt hi0 hi1

/-- C10. Round-robin cycles. In every reachable registry with policy `rr`, the
estimator disabled and a live list of size `n >= 1` (a length that a Go `int` holds),
whatever `prevCandidate` is (it is at least 0), each select uses the index
`(prevCandidate + 1) mod n`, returns the entry at that index and stores the index as the
new `prevCandidate`, so any `n` consecutive selects use every index of `[0, n)` exactly
once. -/
theorem rr_cycles (env : Env) (fuel : Nat) (s : ServersInfo) (calls : List (String × Int × Rng))
    (hs : Reachable s) (hstr : s.lbStrategyStr = "rr") (hest : s.lbEstimator = false)
    (hne : s.inner ≠ []) (hlen : (s.inner.length : Int) < 2 ^ 63) :
    0 ≤ s.prevCandidate ∧
    (∀ qName now g, ∃ e, getOne env fuel s qName now g =
        .ok ({ s with prevCandidate := (s.prevCandidate + 1) % (s.inner.length : Int) },
          some e, g) ∧
      s.inner[((s.prevCandidate + 1) % (s.inner.length : Int)).toNat]? = some e) ∧
    (calls.length = s.inner.length →
      ∃ used, selectIndices env fuel calls s = .ok used ∧ used.length = s.inner.length ∧
        ∀ i : Int, 0 ≤ i → i < (s.inner.length : Int) → used.count i = 1) := by
  obtain ⟨hp0, hp1⟩ := reachable_prevCandidate_bound s hs hlen
  refine ⟨hp0, fun qName now g => getOne_rr_step env fuel s qName now g hstr hest hne hp0 hp1,
    ?_⟩
  intro hcalls
  refine ⟨_, selectIndices_rr env fuel calls s hstr hest hne hp0 hp1 hlen, by simp [hcalls], ?_⟩
  intro i hi0 hi1
  rw [hcalls]
  exact shifted_range_count s.inner.length (s.prevCandidate + 1) i (List.length_pos.2 hne) hi0 hi1

/-- C10 at the reachable round-robin registry `rrLive`, whose three servers are live and
whose `prevCandidate` is 0: three consecutive selects use the indices 1, 2, 0. -/
theorem rr_cycles_witness :
    Reachable rrLive ∧
    selectIndices sampleEnv 0 threeCalls rrLive = .ok [1, 2, 0] ∧
    ∃ used, selectIndices sampleEnv 0 threeCalls rrLive = .ok used ∧
      used.length = rrLive.inner.length ∧
      ∀ i : Int, 0 ≤ i → i < (rrLive.inner.length : Int) → used.count i = 1 := by
  have hl : rrLive.inner.length = 3 := by decide!
  have hne : rrLive.inner ≠ [] := by
    intro h
    rw [h] at hl
    cases hl
  exact ⟨reachable_rrLive, by rfl,
    (rr_cycles sampleEnv 0 rrLive threeCalls reachable_rrLive (by decide!) (by decide!) hne
      (by rw [hl]; decide)).2.2 (by rw [hl]; rfl)⟩

/-! ## The second-level domain -/

theorem parseSLD_of_labels (env : Env) (qName : String) (pre : List String) (a b : String)
    (h : env.SplitDomainName qName = pre ++ [a, b]) :
    parseSLD env qName = .ok (a ++ "." ++ b) := by
  have h1 : (pre ++ [a, b]).getD ((pre ++ [a, b]).length - 2) "" = a := by
    rw [List.getD_eq_getElem?_getD]
    have : (pre ++ [a, b]).length - 2 = pre.length := by simp
    rw [this, List.getElem?_append_right (le_refl _)]
    simp
  have h2 : (pre ++ [a, b]).getD ((pre ++ [a, b]).length - 1) "" = b := by
    rw [List.getD_eq_getElem?_getD]
    have : (pre ++ [a, b]).length - 1 = pre.length + 1 := by simp
    rw [this, List.getElem?_append_right (by omega)]
    simp
  unfold parseSLD
  simp only [h]
  rw [if_neg (by simp), h1, h2]

theorem parseSLD_error (env : Env) (qName : String)
    (h : (env.SplitDomainName qName).length < 2) : ∃ msg, parseSLD env qName = .error msg := by
  unfold parseSLD
  simp only
  rw [if_pos h]
  exact ⟨_, rfl⟩

theorem labels_split {α : Type} (l : List α) (h : 2 ≤ l.length) :
    ∃ pre a b, l = pre ++ [a, b] := by
  induction l using List.reverseRecOn with
  | nil => simp at h
  | append_singleton l1 b _ =>
    induction l1 using List.reverseRecOn with
    | nil => simp at h
    | append_singleton l2 a _ => exact ⟨l2, a, b, by simp⟩

/-- C13. `parseSLD` implements the two-label rule. For every codec and every query name
whose label list has at least two labels it succeeds and returns the second-to-last
label, a dot, and the last label; for every query name with fewer than two labels it
returns an error. With the codec that splits at dots, with or without a trailing dot,
`parseSLD("a.b.example.co.uk") = "co.uk"`. -/
theorem parseSLD_two_label_rule (env : Env) (qName : String) :
    (∀ pre a b, env.SplitDomainName qName = pre ++ [a, b] →
      parseSLD env qName = .ok (a ++ "." ++ b)) ∧
    (2 ≤ (env.SplitDomainName qName).length →
      ∃ pre a b, env.SplitDomainName qName = pre ++ [a, b] ∧
        parseSLD env qName = .ok (a ++ "." ++ b)) ∧
    ((env.SplitDomainName qName).length < 2 → ∃ msg, parseSLD env qName = .error msg) ∧
    parseSLD goEnv "a.b.example.co.uk" = .ok "co.uk" ∧
    parseSLD goEnv "a.b.example.co.uk." = .ok "co.uk" ∧
    (∃ msg, parseSLD goEnv "uk" = .error msg) := by
  refine ⟨fun pre a b h => parseSLD_of_labels env qName pre a b h, fun h => ?_,
    fun h => parseSLD_error env qName h, by rfl, by rfl, ⟨_, rfl⟩⟩
  obtain ⟨pre, a, b, hl⟩ := labels_split _ h
  exact ⟨pre, a, b, hl, parseSLD_of_labels env qName pre a b hl⟩

/-! ## The `hash` policy -/

/-- C12 as stated fails. The FNV-1a-32 hash of `example.com` is not `0x478bbfc3`,
neither that number nor the hash is `0` modulo 3, and in scenario S2 `getOne` returns
`c` (`live[2]`), not `a`. -/
theorem hash_scenario_value_differs :
    parseSLD goEnv "news.example.com." = .ok "example.com" ∧
    fnv32a (stringBytes "example.com") ≠ 0x478bbfc3 ∧
    0x478bbfc3 % 3 ≠ 0 ∧
    getOne goEnv 0 hashRegistry "news.example.com." 0 (fun _ => 0) =
      .ok ({ hashRegistry with prevCandidate := 2 }, some (seedRtt (sampleInfo "c" 30)),
        fun _ => 0) ∧
    hashRegistry.inner[0]? = some (seedRtt (sampleInfo "a" 30)) ∧
    seedRtt (sampleInfo "c" 30) ≠ seedRtt (sampleInfo "a" 30) := by
  refine ⟨by rfl, by decide, by decide, by rfl, by rfl, ?_⟩
  intro h
  have := congrArg ServerInfo.Name h
  exact absurd this (by decide)

/-- C12, amended. Seed scenario S2: with policy `hash`, the estimator disabled,
`live = [a, b, c]` and `qname = "news.example.com."`, the SLD is `example.com`, its
FNV-1a-32 hash is `0x431ceb26`, the index is that hash modulo 3, which equals 2, and
`getOne` returns `c` (`live[2]`). -/
theorem hash_scenario (fuel : Nat) (now : Int) (g : Rng) :
    parseSLD goEnv "news.example.com." = .ok "example.com" ∧
    fnv32a (stringBytes "example.com") = 0x431ceb26 ∧
    0x431ceb26 % 3 = 2 ∧
    hashRegistry.inner[2]? = some (seedRtt (sampleInfo "c" 30)) ∧
    getOne goEnv fuel hashRegistry "news.example.com." now g =
      .ok ({ hashRegistry with prevCandidate := 2 }, some (seedRtt (sampleInfo "c" 30)), g) := by
  refine ⟨by rfl, by decide, by decide, by rfl, by rfl⟩

/-- Under policy `hash` the count of servers is converted to `uint32` before the hash
is reduced: with a second-level domain and a count that is not a multiple of `2^32`,
`getOne` uses the index `FNV-1a-32(sld) mod (n mod 2^32)`. -/
theorem getOne_hash_uint32 (env : Env) (fuel : Nat) (s : ServersInfo) (qName : String)
    (now : Int) (g : Rng) (sld : String) (hstr : s.lbStrategyStr = "hash") (hne : s.inner ≠ [])
    (hmod : (s.inner.length : Int) % 4294967296 ≠ 0) (hsld : parseSLD env qName = .ok sld) :
    ∃ s1 e g1, getOne env fuel s qName now g = .ok (s1, some e, g1) ∧
      s1.prevCandidate =
        (fnv32a (stringBytes sld) : Int) % ((s.inner.length : Int) % 4294967296) := by
  have hlen : 0 < s.inner.length := List.length_pos.2 hne
  obtain ⟨s2, g2, he, hl2, -, hstr2, hprev⟩ := getOne_estimator s now g hne
  rw [getOne_after_estimator env fuel s s2 qName now g g2 hne he]
  have hsw : switchCandidate env s2 (s.inner.length : Int) qName g2 =
      .ok (some ((fnv32a (stringBytes sld) : Int) % ((s.inner.length : Int) % 4294967296)),
        g2) := by
    unfold switchCandidate
    rw [hstr2, hstr, if_neg (by decide), if_pos rfl, hsld]
    simp only
    rw [if_neg hmod]
  rw [hsw]
  simp only
  have hla : locationAvoidant env fuel s2 (s.inner.length : Int)
      ((fnv32a (stringBytes sld) : Int) % ((s.inner.length : Int) % 4294967296)) g2 =
        .ok ((fnv32a (stringBytes sld) : Int) % ((s.inner.length : Int) % 4294967296), g2) := by
    unfold locationAvoidant
    rw [if_neg (by rw [hstr2, hstr]; decide)]
  rw [hla]
  simp only
  have hpos : 0 < (s.inner.length : Int) % 4294967296 := by omega
  have hle : (s.inner.length : Int) % 4294967296 ≤ (s.inner.length : Int) := by omega
  obtain ⟨e, hix, -⟩ := index_of_lt s2.inner
    ((fnv32a (stringBytes sld) : Int) % ((s.inner.length : Int) % 4294967296))
    (Int.emod_nonneg _ hmod)
    (by rw [hl2]; exact lt_of_lt_of_le (Int.emod_lt_of_pos _ hpos) hle)
  rw [hix]
  exact ⟨_, e, g2, rfl, rfl⟩

/-- C16 as stated fails. A query that took 500 microseconds (a positive duration below
one millisecond, far below the timeout of 2.5 s) leaves the average unchanged: the
elapsed time in whole milliseconds is 0 and `noticeSuccess` folds nothing. -/
theorem noticeSuccess_skips_short_sample :
    (0 : Int) < 500000 - (seedRtt (sampleInfo "a" 30)).lastActionTS ∧
    500000 - (seedRtt (sampleInfo "a" 30)).lastActionTS < (2500000000 : Int) ∧
    ((seedRtt (sampleInfo "a" 30)).noticeSuccess 2500000000 500000).rtt =
      (seedRtt (sampleInfo "a" 30)).rtt ∧
    (seedRtt (sampleInfo "a" 30)).rtt.Add 0 ≠ (seedRtt (sampleInfo "a" 30)).rtt := by
  refine ⟨by decide, by decide, by rfl, ?_⟩
  intro h
  have := congrArg MovingAverage.value h
  revert this
  decide!

/-- C16, amended. `noticeSuccess` folds the sample `elapsed_ms` (the elapsed time since
`lastActionTS` in whole milliseconds, rounded down) into the entry's average exactly
when `elapsed_ms > 0`, that is when the elapsed time is at least one millisecond, and
`elapsed < timeout`; otherwise, in particular for every positive elapsed time below
one millisecond, it leaves the entry unchanged. -/
theorem noticeSuccess_folds (e : ServerInfo) (timeout now : Int) :
    (1000000 ≤ now - e.lastActionTS ∧ now - e.lastActionTS < timeout →
      e.noticeSuccess timeout now =
        { e with rtt := e.rtt.Add (((now - e.lastActionTS) / 1000000 : Int) : ℚ) }) ∧
    (¬ (1000000 ≤ now - e.lastActionTS ∧ now - e.lastActionTS < timeout) →
      e.noticeSuccess timeout now = e) ∧
    (0 < now - e.lastActionTS → now - e.lastActionTS < 1000000 →
      e.noticeSuccess timeout now = e) := by
  have key : (Int.tdiv (now - e.lastActionTS) 1000000 > 0) ↔ 1000000 ≤ now - e.lastActionTS := by
    constructor
    · intro h
      by_contra hc
      by_cases h0 : 0 ≤ now - e.lastActionTS
      · rw [Int.tdiv_eq_ediv h0 (by decide)] at h
        omega
      · have hneg : now - e.lastActionTS < 0 := by omega
        have h1 : (now - e.lastActionTS).tdiv 1000000 =
            -((-(now - e.lastActionTS)).tdiv 1000000) := by
          rw [Int.neg_tdiv, neg_neg]
        have h2 : 0 ≤ (-(now - e.lastActionTS)).tdiv 1000000 :=
          Int.tdiv_nonneg (by omega) (by decide)
        omega
    · intro h
      rw [Int.tdiv_eq_ediv (by omega) (by decide)]
      omega
  have hfalse : ¬ (1000000 ≤ now - e.lastActionTS ∧ now - e.lastActionTS < timeout) →
      e.noticeSuccess timeout now = e := by
    intro h
    unfold ServerInfo.noticeSuccess
    simp only
    rw [if_neg]
    rw [key]
    exact h
  refine ⟨fun h => ?_, hfalse, fun h0 h1 => hfalse (by omega)⟩
  unfold ServerInfo.noticeSuccess
  simp only
  rw [if_pos (by rw [key]; exact h), Int.tdiv_eq_ediv (by omega) (by decide)]

/-! ## The location-avoidant loop: what an exit means -/

/-- The addresses of one country of a deny table. -/
theorem mem_addresses (table : List (String × List (String × List String))) (ip : String) :
    ip ∈ addresses table ↔ ∃ country ∈ table, ∃ entry ∈ country.2, entry.1 = ip := by
  simp only [addresses, List.mem_flatMap, List.mem_map]

/-- One country's loop either redraws (and sets `changed_flag`) or leaves the state as
it was, having compared the candidate's address with every address of the country and
found it different; either way the state's entry stays the one at the state's index. -/
theorem laAddresses_ok (env : Env) (s : ServersInfo) (n : Int)
    (l : List (String × List String)) :
    ∀ st st1 : LaState, laAddresses env s n l st = .ok st1 →
      index s.inner st.candidate = .ok st.serverInfo →
      index s.inner st1.candidate = .ok st1.serverInfo ∧
      (st1.changed = true ∨
        (st1 = st ∧ ∀ entry ∈ l, ∃ tcpAddr, st.serverInfo.TCPAddr = some tcpAddr ∧
          tcpAddr.IP ≠ env.ParseIP entry.1)) := by
  induction l with
  | nil =>
    intro st st1 h hlink
    simp only [laAddresses, Res.ok.injEq] at h
    subst h
    exact ⟨hlink, Or.inr ⟨rfl, fun entry he => by cases he⟩⟩
  | cons kv rest ih =>
    intro st st1 h hlink
    obtain ⟨key, val⟩ := kv
    unfold laAddresses at h
    cases htcp : st.serverInfo.TCPAddr with
    | none => rw [htcp] at h; cases h
    | some tcpAddr =>
      rw [htcp] at h
      simp only at h
      by_cases hip : tcpAddr.IP = env.ParseIP key
      · rw [if_pos hip] at h
        cases hc : s.lbStrategy.getCandidate n st.g with
        | stop why => rw [hc] at h; cases h
        | ok res =>
          obtain ⟨c, g1⟩ := res
          rw [hc] at h
          simp only at h
          cases hix : index s.inner c with
          | stop why => rw [hix] at h; cases h
          | ok e =>
            rw [hix] at h
            simp only [Res.ok.injEq] at h
            subst h
            exact ⟨hix, Or.inl rfl⟩
      · rw [if_neg hip] at h
        obtain ⟨h1, h2⟩ := ih st st1 h hlink
        refine ⟨h1, ?_⟩
        rcases h2 with h2 | ⟨h2, h3⟩
        · exact Or.inl h2
        · refine Or.inr ⟨h2, ?_⟩
          intro entry he
          rcases List.mem_cons.1 he with he1 | he1
          · rw [he1]
            exact ⟨tcpAddr, rfl, hip⟩
          · have h4 := h3 entry he1
            rw [htcp] at h4
            exact h4

/-- One pass over the deny table either sets `changed_flag` or leaves the state as it
was, having found the candidate's address different from every address of the pass. -/
theorem laCountries_ok (env : Env) (s : ServersInfo) (n : Int)
    (l : List (String × List (String × List String))) :
    ∀ st st1 : LaState, laCountries env s n l st = .ok st1 →
      index s.inner st.candidate = .ok st.serverInfo →
      index s.inner st1.candidate = .ok st1.serverInfo ∧
      (st1.changed = true ∨
        (st1 = st ∧ ∀ ip ∈ addresses l, ∃ tcpAddr, st.serverInfo.TCPAddr = some tcpAddr ∧
          tcpAddr.IP ≠ env.ParseIP ip)) := by
  induction l with
  | nil =>
    intro st st1 h hlink
    simp only [laCountries, Res.ok.injEq] at h
    subst h
    exact ⟨hlink, Or.inr ⟨rfl, fun ip hip => by simp [addresses] at hip⟩⟩
  | cons kv rest ih =>
    intro st st1 h hlink
    obtain ⟨k, v⟩ := kv
    unfold laCountries at h
    cases ha : laAddresses env s n v st with
    | stop why => rw [ha] at h; cases h
    | ok st2 =>
      rw [ha] at h
      simp only at h
      obtain ⟨hl2, hc2⟩ := laAddresses_ok env s n v st st2 ha hlink
      obtain ⟨hl1, hc1⟩ := ih st2 st1 h hl2
      refine ⟨hl1, ?_⟩
      rcases hc1 with hc1 | ⟨hs1, hrest⟩
      · exact Or.inl hc1
      · rcases hc2 with hc2 | ⟨hs2, hv⟩
        · exact Or.inl (by rw [hs1]; exact hc2)
        · refine Or.inr ⟨hs1.trans hs2, ?_⟩
          intro ip hip
          simp only [addresses, List.flatMap_cons, List.mem_append, List.mem_map] at hip
          rcases hip with ⟨entry, he, hent⟩ | hip
          · rw [← hent]
            exact hv entry he
          · rw [← hs2]
            exact hrest ip hip

/-- The loop exits only after a complete pass in which the candidate's address was
found different from every address of the pass; the state's entry is the one at the
state's index. -/
theorem laLoop_ok (env : Env) (s : ServersInfo) (n : Int) (fuel : Nat) :
    ∀ (pass : Nat) (st st1 : LaState), laLoop env s n fuel pass st = .ok st1 →
      index s.inner st.candidate = .ok st.serverInfo →
      index s.inner st1.candidate = .ok st1.serverInfo ∧
      ∃ p, ∀ ip ∈ addresses (env.denylistRange p),
        ∃ tcpAddr, st1.serverInfo.TCPAddr = some tcpAddr ∧ tcpAddr.IP ≠ env.ParseIP ip := by
  induction fuel with
  | zero =>
    intro pass st st1 h _
    cases h
  | succ fuel ih =>
    intro pass st st1 h hlink
    unfold laLoop at h
    cases hc : laCountries env s n (env.denylistRange pass) { st with changed := false } with
    | stop why => rw [hc] at h; cases h
    | ok st2 =>
      rw [hc] at h
      simp only at h
      obtain ⟨hl2, hc2⟩ := laCountries_ok env s n _ _ st2 hc hlink
      by_cases hch : st2.changed = true
      · rw [if_pos hch] at h
        exact ih (pass + 1) st2 st1 h hl2
      · rw [if_neg hch] at h
        simp only [Res.ok.injEq] at h
        subst h
        refine ⟨hl2, pass, ?_⟩
        rcases hc2 with hc2 | ⟨hs2, hall⟩
        · exact absurd hc2 hch
        · intro ip hip
          rw [hs2]
          exact hall ip hip

/-- What a call of `getOne` under the `la` policy returns passed a complete pass of the
loop in which its TCP address differed from every address of the pass. -/
theorem getOne_la_exit (env : Env) (fuel : Nat) (s s1 : ServersInfo) (qName : String)
    (now : Int) (g g1 : Rng) (e : ServerInfo) (hla : s.lbStrategyStr = "la")
    (h : getOne env fuel s qName now g = .ok (s1, some e, g1)) :
    ∃ p, ∀ ip ∈ addresses (env.denylistRange p),
      ∃ tcpAddr, e.TCPAddr = some tcpAddr ∧ tcpAddr.IP ≠ env.ParseIP ip := by
  have hne : s.inner ≠ [] := by
    intro hnil
    simp [getOne, hnil] at h
  obtain ⟨s2, g2, he, -, -, hstr, -⟩ := getOne_estimator s now g hne
  rw [getOne_after_estimator env fuel s s2 qName now g g2 hne he] at h
  have hla2 : s2.lbStrategyStr = "la" := hstr.trans hla
  cases hsw : switchCandidate env s2 (s.inner.length : Int) qName g2 with
  | stop why => rw [hsw] at h; cases h
  | ok res =>
    obtain ⟨oc, g3⟩ := res
    rw [hsw] at h
    cases oc with
    | none => simp at h
    | some c =>
      simp only at h
      unfold locationAvoidant at h
      rw [if_pos hla2] at h
      cases hc : s2.lbStrategy.getCandidate (s.inner.length : Int) g3 with
      | stop why => rw [hc] at h; cases h
      | ok res1 =>
        obtain ⟨c1, g4⟩ := res1
        rw [hc] at h
        simp only at h
        cases hix : index s2.inner c1 with
        | stop why => rw [hix] at h; cases h
        | ok e1 =>
          rw [hix] at h
          simp only at h
          cases hloop : laLoop env s2 (s.inner.length : Int) fuel 0
              { candidate := c1, serverInfo := e1, changed := false, g := g4 } with
          | stop why => rw [hloop] at h; cases h
          | ok st =>
            rw [hloop] at h
            simp only at h
            obtain ⟨hlink, p, hp⟩ := laLoop_ok env s2 _ fuel 0 _ st hloop hix
            rw [hlink] at h
            simp only [Res.ok.injEq, Prod.mk.injEq, Option.some.injEq] at h
            obtain ⟨-, h2, -⟩ := h
            rw [← h2]
            exact ⟨p, hp⟩

/-- The first address of the deny table. -/
theorem denylist_first : "180.94.94.194" ∈ addresses denylist := by
  decide

/-- The environment built from the table of the source covers the table in every pass. -/
theorem goEnv_covers : Covers goEnv := fun _ _ h => h

/-- What the loop of policy `la` does guarantee, slice by slice. In an environment
whose ranges over the `denylist` map visit every address of the table, an entry that
`getOne` returns has a TCP address whose IP, as a byte slice, differs from what
`net.ParseIP` makes of every address listed in any country of the deny table; and the
loop was left after a complete pass (pass number `p`) in which the entry matched no
address of the pass. -/
theorem la_returns_unlisted (env : Env) (fuel : Nat) (s s1 : ServersInfo) (qName : String)
    (now : Int) (g g1 : Rng) (e : ServerInfo) (hla : s.lbStrategyStr = "la")
    (hcover : Covers env) (h : getOne env fuel s qName now g = .ok (s1, some e, g1)) :
    (∃ tcpAddr, e.TCPAddr = some tcpAddr ∧
      ∀ ip ∈ addresses denylist, tcpAddr.IP ≠ env.ParseIP ip) ∧
    ¬ Listed env e ∧
    ∃ p, ∀ ip ∈ addresses (env.denylistRange p),
      ∃ tcpAddr, e.TCPAddr = some tcpAddr ∧ tcpAddr.IP ≠ env.ParseIP ip := by
  obtain ⟨p, hp⟩ := getOne_la_exit env fuel s s1 qName now g g1 e hla h
  obtain ⟨tcpAddr, htcp, -⟩ := hp _ (hcover p _ denylist_first)
  have hall : ∀ ip ∈ addresses denylist, tcpAddr.IP ≠ env.ParseIP ip := by
    intro ip hip
    obtain ⟨t, ht, hne⟩ := hp ip (hcover p ip hip)
    rw [htcp] at ht
    cases ht
    exact hne
  refine ⟨⟨tcpAddr, htcp, hall⟩, ?_, p, hp⟩
  rintro ⟨t, key, ht, hkey, heq⟩
  rw [htcp] at ht
  cases ht
  exact hall key hkey heq

/-- Seed scenario S3: with `x` held in the 16-byte form of a listed address, `y` not
listed and a generator that draws `x`, `x` and then `y`, two passes return `y`. -/
theorem la_returns_unlisted_witness :
    ∃ s1 g1, getOne goEnv 2 laRegistry "example.com." 0 laDraws =
        .ok (s1, some (seedRtt (sampleInfo "y" 30)), g1) ∧
      ¬ Listed goEnv (seedRtt (sampleInfo "y" 30)) := by
  have h : getOne goEnv 2 laRegistry "example.com." 0 laDraws =
      .ok ({ laRegistry with prevCandidate := 1 }, some (seedRtt (sampleInfo "y" 30)),
        fun k => laDraws (k + 1 + 1 + 1)) := by
    rfl
  exact ⟨_, _, h, (la_returns_unlisted goEnv 2 laRegistry _ "example.com." 0 laDraws _ _
    rfl goEnv_covers h).2.1⟩

/-! ## The location-avoidant loop: an address in its 4-byte form -/

/-- The registry `fourByteLive` is reachable. -/
theorem reachable_fourByteLive : Reachable fourByteLive := by
  have hr : Reachable registeredFourByte :=
    Reachable.registerServer "x" (sampleStamp "resolver.example:443" .DNSCrypt)
      (Reachable.init .P2 "la" false)
  unfold fourByteLive
  cases h : refresh (fun _ => fourByteProbe) registeredFourByte with
  | stop why => exact hr
  | ok r => exact Reachable.refresh _ r.2.1 r.2.2 hr h

/-- C14 fails on the code. The deny table lists `180.94.94.194`. In the reachable
registry `fourByteLive`, with policy `la`, the only live server `x` is reached at that
address, held as the 4-byte slice `180, 94, 94, 194`, which `net.IP.Equal` finds equal
to what `net.ParseIP` makes of the listed text. `getOne` returns `x` all the same: the
loop compares the slices with `reflect.DeepEqual`, to which the 4-byte form and the
16-byte form that `net.ParseIP` returns are different, so no pass finds a match. -/
theorem la_returns_listed_address :
    "180.94.94.194" ∈ addresses denylist ∧
    Reachable fourByteLive ∧ fourByteLive.lbStrategyStr = "la" ∧
    fourByteLive.inner.map (fun e => (e.Name, e.TCPAddr)) =
      [("x", some { IP := some [180, 94, 94, 194], Port := 443, Zone := "" })] ∧
    ipEqual (some [180, 94, 94, 194]) (goEnv.ParseIP "180.94.94.194") = true ∧
    (some [180, 94, 94, 194] : NetIP) ≠ goEnv.ParseIP "180.94.94.194" ∧
    (getOne goEnv 1 fourByteLive "example.com." 0 (fun _ => 0)).value?.map
        (fun r => r.2.1.map (fun e => (e.Name, e.TCPAddr))) =
      some (some ("x", some { IP := some [180, 94, 94, 194], Port := 443, Zone := "" })) := by
  refine ⟨denylist_first, reachable_fourByteLive, by decide!, by decide!, by decide, by decide,
    by decide!⟩

/-! ## The location-avoidant loop: when it cannot exit -/

/-- The name is configured as blocking fragments exactly when the loop over
`proxy.serversBlockingFragments` finds it. -/
theorem configuredBugs_iff (proxy : Proxy) (name : String) :
    (configuredBugs proxy name).fragmentsBlocked = true ↔
      name ∈ proxy.serversBlockingFragments := by
  simp only [configuredBugs, List.any_eq_true, decide_eq_true_eq]
  constructor
  · rintro ⟨x, hx, rfl⟩
    exact hx
  · intro h
    exact ⟨name, h, rfl⟩

/-- What a `ServerInfo` returned by the DNSCrypt probe says about the probe: the key
was accepted, `route` returned addresses `u` and `t`, the entry records
`fragmentsBlocked` when it was configured or observed, and its relay addresses are
unset when fragments are blocked and those of `route` otherwise. -/
theorem fetchDNSCrypt_ok_inv (deps : Deps) (proxy : Proxy) (name : String)
    (stamp : ServerStamp) (isNew : Bool) (g g1 : Rng) (info : ServerInfo)
    (h : fetchDNSCryptServerInfo deps proxy name stamp isNew g = .ok (.ok info, g1)) :
    ∃ serverPk u t, fixServerPk deps stamp = .ok serverPk ∧
      route deps proxy name g = .ok (.ok (u, t), g1) ∧
      info.knownBugs.fragmentsBlocked =
        ((configuredBugs proxy name).fragmentsBlocked ||
          (deps.FetchCurrentDNSCryptCert proxy name proxy.mainProto serverPk stamp.ServerAddrStr
            stamp.ProviderName isNew u t (configuredBugs proxy name)).2.2.1) ∧
      (info.knownBugs.fragmentsBlocked = true →
        info.RelayUDPAddr = none ∧ info.RelayTCPAddr = none) ∧
      (info.knownBugs.fragmentsBlocked = false →
        info.RelayUDPAddr = u ∧ info.RelayTCPAddr = t) ∧
      (info.knownBugs.fragmentsBlocked = true → (u ≠ none ∨ t ≠ none) →
        proxy.skipAnonIncompatbibleResolvers = false) ∧
      info.Name = name ∧ info.Proto = .DNSCrypt ∧ info.TCPAddr ≠ none := by
  unfold fetchDNSCryptServerInfo at h
  cases hpk : fixServerPk deps stamp with
  | stop why => rw [hpk] at h; cases h
  | ok serverPk =>
    rw [hpk] at h
    simp only at h
    cases hroute : route deps proxy name g with
    | stop why => rw [hroute] at h; cases h
    | ok res =>
      obtain ⟨r, g2⟩ := res
      rw [hroute] at h
      cases r with
      | error err => cases h
      | ok addrs =>
        obtain ⟨u, t⟩ := addrs
        simp only at h
        refine ⟨serverPk, u, t, rfl, ?_⟩
        generalize deps.FetchCurrentDNSCryptCert proxy name proxy.mainProto serverPk
          stamp.ServerAddrStr stamp.ProviderName isNew u t (configuredBugs proxy name) = fetched
          at h ⊢
        obtain ⟨certInfo, rtt, fragmentsBlocked, err⟩ := fetched
        simp only at h ⊢
        generalize configuredBugs proxy name = kb at h ⊢
        obtain ⟨kb0⟩ := kb
        simp only at h ⊢
        by_cases hinc : ((if ¬ kb0 = true ∧ fragmentsBlocked = true then
            ({ fragmentsBlocked := true } : ServerBugs)
          else { fragmentsBlocked := kb0 }).fragmentsBlocked && (u.isSome || t.isSome)) = true
        · by_cases hskip : proxy.skipAnonIncompatbibleResolvers = true
          · rw [if_pos ⟨hinc, hskip⟩] at h
            cases h
          · rw [if_neg (fun hh => hskip hh.2)] at h
            split at h
            · cases h
            split at h
            · cases h
            split at h
            · cases h
            simp only [Res.ok.injEq, Prod.mk.injEq, Except.ok.injEq] at h
            obtain ⟨h1, h2⟩ := h
            subst h1
            subst h2
            simp only [hinc, if_true]
            cases kb0 <;> cases fragmentsBlocked <;> cases u <;> cases t <;> simp_all
        · rw [if_neg (fun hh => hinc hh.1)] at h
          split at h
          · cases h
          split at h
          · cases h
          split at h
          · cases h
          simp only [Res.ok.injEq, Prod.mk.injEq, Except.ok.injEq] at h
          obtain ⟨h1, h2⟩ := h
          subst h1
          subst h2
          simp only [hinc]
          cases kb0 <;> cases fragmentsBlocked <;> cases u <;> cases t <;> simp_all

/-- With fragments blocked, a relay routed and incompatible resolvers skipped, the
DNSCrypt probe returns the error about anonymization. -/
theorem fetchDNSCrypt_skip (deps : Deps) (proxy : Proxy) (name : String)
    (stamp : ServerStamp) (isNew : Bool) (g g1 : Rng) (serverPk : List Nat)
    (u : Option NetUDPAddr) (t : Option NetTCPAddr)
    (hpk : fixServerPk deps stamp = .ok serverPk)
    (hroute : route deps proxy name g = .ok (.ok (u, t), g1))
    (hrelay : u ≠ none ∨ t ≠ none)
    (hfrag : (configuredBugs proxy name).fragmentsBlocked = true ∨
      (deps.FetchCurrentDNSCryptCert proxy name proxy.mainProto serverPk stamp.ServerAddrStr
        stamp.ProviderName isNew u t (configuredBugs proxy name)).2.2.1 = true)
    (hskip : proxy.skipAnonIncompatbibleResolvers = true) :
    fetchDNSCryptServerInfo deps proxy name stamp isNew g =
      .ok (.error "Resolver is incompatible with anonymization", g1) := by
  unfold fetchDNSCryptServerInfo
  rw [hpk]
  simp only
  rw [hroute]
  simp only
  generalize deps.FetchCurrentDNSCryptCert proxy name proxy.mainProto serverPk
    stamp.ServerAddrStr stamp.ProviderName isNew u t (configuredBugs proxy name) = fetched
    at hfrag ⊢
  obtain ⟨certInfo, rtt, fragmentsBlocked, err⟩ := fetched
  generalize configuredBugs proxy name = kb at hfrag ⊢
  obtain ⟨kb0⟩ := kb
  simp only at hfrag ⊢
  rw [if_pos]
  refine ⟨?_, hskip⟩
  cases kb0 <;> cases fragmentsBlocked <;> cases u <;> cases t <;> simp_all

/-- C17. In the DNSCrypt probe: a `ServerInfo` that the probe returns with
`fragmentsBlocked` set has both relay addresses unset; and when the key is accepted,
`route` returned a relay address and fragments are blocked (the name is listed in
`serversBlockingFragments`, or the certificate fetch observed it), the probe returns
the error about anonymization and no `ServerInfo` if `skipAnonIncompatbibleResolvers`
is set, and otherwise any `ServerInfo` it returns has `fragmentsBlocked` set and both
relay addresses unset. Seed scenario S4 is an instance of the first case, and the same
probe without the skip is an instance of the second. -/
theorem anon_incompatible_probe (deps : Deps) (proxy : Proxy) (name : String)
    (stamp : ServerStamp) (isNew : Bool) (g : Rng) :
    (∀ info g1, fetchDNSCryptServerInfo deps proxy name stamp isNew g = .ok (.ok info, g1) →
      info.knownBugs.fragmentsBlocked = true →
      info.RelayUDPAddr = none ∧ info.RelayTCPAddr = none) ∧
    (∀ serverPk u t g1, fixServerPk deps stamp = .ok serverPk →
      route deps proxy name g = .ok (.ok (u, t), g1) → (u ≠ none ∨ t ≠ none) →
      (name ∈ proxy.serversBlockingFragments ∨
        (deps.FetchCurrentDNSCryptCert proxy name proxy.mainProto serverPk stamp.ServerAddrStr
          stamp.ProviderName isNew u t (configuredBugs proxy name)).2.2.1 = true) →
      (proxy.skipAnonIncompatbibleResolvers = true →
        fetchDNSCryptServerInfo deps proxy name stamp isNew g =
          .ok (.error "Resolver is incompatible with anonymization", g1)) ∧
      (proxy.skipAnonIncompatbibleResolvers = false →
        ∀ info g2, fetchDNSCryptServerInfo deps proxy name stamp isNew g = .ok (.ok info, g2) →
          info.knownBugs.fragmentsBlocked = true ∧
          info.RelayUDPAddr = none ∧ info.RelayTCPAddr = none)) ∧
    (∃ g1, fetchDNSCryptServerInfo sampleDeps sampleProxy "a" keyedStamp true (fun _ => 0) =
      .ok (.error "Resolver is incompatible with anonymization", g1)) ∧
    (∃ info g1, fetchDNSCryptServerInfo sampleDeps
        { sampleProxy with skipAnonIncompatbibleResolvers := false } "a" keyedStamp true
        (fun _ => 0) = .ok (.ok info, g1) ∧
      info.knownBugs.fragmentsBlocked = true ∧ info.RelayUDPAddr = none ∧
      info.RelayTCPAddr = none) := by
  refine ⟨?_, ?_, ⟨_, rfl⟩, ⟨_, _, rfl, rfl, rfl, rfl⟩⟩
  · intro info g1 h hb
    obtain ⟨_, _, _, -, -, -, hrel, -⟩ := fetchDNSCrypt_ok_inv deps proxy name stamp isNew g g1 info h
    exact hrel hb
  · intro serverPk u t g1 hpk hroute hrelay hfrag
    have hfrag1 : (configuredBugs proxy name).fragmentsBlocked = true ∨
        (deps.FetchCurrentDNSCryptCert proxy name proxy.mainProto serverPk stamp.ServerAddrStr
          stamp.ProviderName isNew u t (configuredBugs proxy name)).2.2.1 = true :=
      hfrag.imp (configuredBugs_iff proxy name).2 id
    refine ⟨fetchDNSCrypt_skip deps proxy name stamp isNew g g1 serverPk u t hpk hroute hrelay
      hfrag1, ?_⟩
    intro _ info g2 h
    obtain ⟨pk1, u1, t1, hpk1, hroute1, hkb, hrel, -⟩ :=
      fetchDNSCrypt_ok_inv deps proxy name stamp isNew g g2 info h
    rw [hpk] at hpk1
    rw [hroute] at hroute1
    simp only [Res.ok.injEq, Prod.mk.injEq, Except.ok.injEq] at hpk1 hroute1
    obtain ⟨⟨hu, ht⟩, -⟩ := hroute1
    subst hpk1
    subst hu
    subst ht
    have hb : info.knownBugs.fragmentsBlocked = true := by
      rw [hkb]
      rcases hfrag1 with h1 | h1
      · rw [h1]
        rfl
      · rw [h1]
        exact Bool.or_true _
    exact ⟨hb, hrel hb⟩

/-! ## The HTTPS probe: pinning and the test of the response -/

/-- The inner pinning loop finds a digest of 32 bytes exactly when it is an entry. -/
theorem hashPinned_iff (h : List Nat) (hlen : h.length = 32) (hashes : List (List Nat)) :
    hashPinned h hashes = true ↔ h ∈ hashes := by
  induction hashes with
  | nil => simp [hashPinned]
  | cons hash rest ih =>
    unfold hashPinned
    by_cases h32 : hash.length = 32
    · rw [if_pos h32]
      by_cases heq : h = hash
      · rw [if_pos heq]
        simp [heq]
      · rw [if_neg heq, ih]
        simp [heq]
    · rw [if_neg h32, ih]
      have hne : h ≠ hash := by
        intro heq
        rw [heq] at hlen
        exact h32 hlen
      simp [hne]

/-- The pinning loops set `found` exactly when some presented certificate has a digest
that is an entry of the pinned hashes. -/
theorem certPinned_iff (deps : Deps) (hsum : ∀ bs, (deps.Sum256 bs).length = 32)
    (hashes : List (List Nat)) (certs : List Certificate) :
    certPinned deps hashes certs = true ↔
      ∃ cert ∈ certs, deps.Sum256 cert.RawTBSCertificate ∈ hashes := by
  induction certs with
  | nil => simp [certPinned]
  | cons cert rest ih =>
    unfold certPinned
    by_cases hp : hashPinned (deps.Sum256 cert.RawTBSCertificate) hashes = true
    · rw [if_pos hp]
      simp only [List.mem_cons, exists_eq_or_imp, true_iff]
      exact Or.inl ((hashPinned_iff _ (hsum _) hashes).1 hp)
    · rw [if_neg hp, ih]
      simp only [List.mem_cons, exists_eq_or_imp]
      rw [hashPinned_iff _ (hsum _) hashes] at hp
      constructor
      · exact Or.inr
      · rintro (h | h)
        · exact absurd h hp
        · exact h

/-- With no pinned hash the pinning loops find nothing. -/
theorem certPinned_nil (deps : Deps) (certs : List Certificate) :
    certPinned deps [] certs = false := by
  induction certs with
  | nil => rfl
  | cons cert rest ih =>
    unfold certPinned
    simp [hashPinned, ih]

/-- The probe once its queries have returned an answer. -/
theorem fetchDoH_of_answer (deps : Deps) (proxy : Proxy) (name : String) (stamp : ServerStamp)
    (isNew : Bool) (g g1 : Rng) (answer : DohAnswer) (xt : XTransport)
    (hq : dohQueries deps proxy name stamp g = .ok (.ok answer, xt, g1)) :
    fetchDoHServerInfo deps proxy name stamp isNew g =
      match dohChecks deps proxy name stamp answer with
      | .stop why => .stop why
      | .ok result => .ok (result, xt, g1) := by
  unfold fetchDoHServerInfo
  rw [hq]

/-- The checks once the handshake is complete and the response parses. -/
theorem dohChecks_of_parsed (deps : Deps) (proxy : Proxy) (name : String) (stamp : ServerStamp)
    (answer : DohAnswer) (tls : TLSState) (rcode : Nat) (htls : answer.tls = some tls)
    (hhs : tls.HandshakeComplete = true) (hun : deps.Unpack answer.serverResponse = .ok rcode) :
    dohChecks deps proxy name stamp answer =
      if ¬ certPinned deps stamp.Hashes tls.PeerCertificates = true ∧ stamp.Hashes.length > 0
      then .ok (.error "Certificate hash not found")
      else
        match unexpectedResponse deps answer.serverResponse with
        | .stop why => .stop why
        | .ok true => .ok (.error "Webserver returned an unexpected response")
        | .ok false =>
          .ok (.ok
            { Proto := .DoH, MagicQuery := [], ServerPk := [], SharedKey := [],
              CryptoConstruction := 0, Name := name, Timeout := proxy.timeout,
              URL := some answer.url.text, HostName := stamp.ProviderName,
              UDPAddr := none, TCPAddr := none, RelayUDPAddr := none, RelayTCPAddr := none,
              knownBugs := { fragmentsBlocked := false }, lastActionTS := 0,
              rtt := { decay := 0, value := 0, count := 0 },
              initialRtt := Int.tdiv answer.rtt 1000000, useGet := answer.useGet,
              DOHClientCreds := { clientCert := "", clientKey := "", rootCA := "" } }) := by
  unfold dohChecks
  rw [htls]
  simp only
  rw [if_neg (by simp [hhs]), hun]

/-- With a minimum size of at least 6 the test of the response reads no byte outside
the response, and it accepts exactly the responses whose length is within the limits
and whose bytes 0, 1, 4 and 5 are `0xca`, `0xfe`, `0x00` and `0x01`. -/
theorem unexpectedResponse_spec (deps : Deps) (h6 : 6 ≤ deps.MinDNSPacketSize)
    (respBody : List Nat) :
    ∃ b, unexpectedResponse deps respBody = .ok b ∧
      (b = false ↔
        (deps.MinDNSPacketSize ≤ (respBody.length : Int) ∧
          (respBody.length : Int) ≤ deps.MaxDNSPacketSize ∧
          respBody[0]? = some 202 ∧ respBody[1]? = some 254 ∧
          respBody[4]? = some 0 ∧ respBody[5]? = some 1)) := by
  unfold unexpectedResponse
  by_cases hmin : (respBody.length : Int) < deps.MinDNSPacketSize
  · rw [if_pos hmin]
    exact ⟨true, rfl, by constructor <;> intro h <;> [cases h; omega]⟩
  · rw [if_neg hmin]
    by_cases hmax : (respBody.length : Int) > deps.MaxDNSPacketSize
    · rw [if_pos hmax]
      exact ⟨true, rfl, by constructor <;> intro h <;> [cases h; omega]⟩
    · rw [if_neg hmax]
      match respBody, hmin, hmax with
      | b0 :: b1 :: b2 :: b3 :: b4 :: b5 :: rest, hmin, hmax =>
        have hmin1 : deps.MinDNSPacketSize ≤
            ((b0 :: b1 :: b2 :: b3 :: b4 :: b5 :: rest).length : Int) := by omega
        have hmax1 : ((b0 :: b1 :: b2 :: b3 :: b4 :: b5 :: rest).length : Int) ≤
            deps.MaxDNSPacketSize := by omega
        have i0 : index (b0 :: b1 :: b2 :: b3 :: b4 :: b5 :: rest) 0 = .ok b0 := by
          simp [index]
        have i1 : index (b0 :: b1 :: b2 :: b3 :: b4 :: b5 :: rest) 1 = .ok b1 := by
          simp [index]
        have i4 : index (b0 :: b1 :: b2 :: b3 :: b4 :: b5 :: rest) 4 = .ok b4 := by
          simp [index]
        have i5 : index (b0 :: b1 :: b2 :: b3 :: b4 :: b5 :: rest) 5 = .ok b5 := by
          simp [index]
        rw [i0, i1, i4, i5]
        simp only
        by_cases h0 : b0 = 202
        · by_cases h1 : b1 = 254
          · by_cases h4 : b4 = 0
            · refine ⟨decide (b5 ≠ 1), ?_, ?_⟩
              · simp [h0, h1, h4]
              · constructor
                · intro h
                  have h5 : b5 = 1 := by simpa using h
                  exact ⟨hmin1, hmax1, by simp [h0], by simp [h1], by simp [h4], by simp [h5]⟩
                · rintro ⟨-, -, -, -, -, h5⟩
                  have h5a : b5 = 1 := by simpa using h5
                  simp [h5a]
            · refine ⟨true, ?_, ?_⟩
              · simp [h0, h1, h4]
              · simp [h4]
          · refine ⟨true, ?_, ?_⟩
            · simp [h0, h1]
            · simp [h1]
        · refine ⟨true, ?_, ?_⟩
          · simp [h0]
          · simp [h0]
      | [], hmin, _ => simp at hmin; omega
      | [_], hmin, _ => simp at hmin; omega
      | [_, _], hmin, _ => simp at hmin; omega
      | [_, _, _], hmin, _ => simp at hmin; omega
      | [_, _, _, _], hmin, _ => simp at hmin; omega
      | [_, _, _, _, _], hmin, _ => simp at hmin; omega

/-- The digests of `sampleDeps` have 32 bytes. -/
theorem sampleDeps_sum (bs : List Nat) : (sampleDeps.Sum256 bs).length = 32 := by
  simp [sampleDeps]

/-- C18. Certificate pinning in the HTTPS probe, with digests of 32 bytes: once the
queries have returned an answer with a completed TLS handshake and a response that
parses, the probe fails with the error `Certificate hash not found` if and only if
`stamp.Hashes` is not empty and no presented certificate has a digest of its TBS bytes
that is an entry of `stamp.Hashes`; with `stamp.Hashes` empty the probe does not fail
with that error, whatever certificates are presented. -/
theorem pinning_step (deps : Deps) (proxy : Proxy) (name : String) (stamp : ServerStamp)
    (isNew : Bool) (g g1 : Rng) (answer : DohAnswer) (xt : XTransport) (tls : TLSState)
    (rcode : Nat) (hsum : ∀ bs, (deps.Sum256 bs).length = 32)
    (hq : dohQueries deps proxy name stamp g = .ok (.ok answer, xt, g1))
    (htls : answer.tls = some tls) (hhs : tls.HandshakeComplete = true)
    (hun : deps.Unpack answer.serverResponse = .ok rcode) :
    (fetchDoHServerInfo deps proxy name stamp isNew g =
        .ok (.error "Certificate hash not found", xt, g1) ↔
      stamp.Hashes ≠ [] ∧
        ∀ cert ∈ tls.PeerCertificates, deps.Sum256 cert.RawTBSCertificate ∉ stamp.Hashes) ∧
    (stamp.Hashes = [] →
      fetchDoHServerInfo deps proxy name stamp isNew g ≠
        .ok (.error "Certificate hash not found", xt, g1)) := by
  have hother : (match unexpectedResponse deps answer.serverResponse with
      | .stop why => .stop why
      | .ok true => .ok (.error "Webserver returned an unexpected response")
      | .ok false =>
        .ok (.ok
          { Proto := .DoH, MagicQuery := [], ServerPk := [], SharedKey := [],
            CryptoConstruction := 0, Name := name, Timeout := proxy.timeout,
            URL := some answer.url.text, HostName := stamp.ProviderName,
            UDPAddr := none, TCPAddr := none, RelayUDPAddr := none, RelayTCPAddr := none,
            knownBugs := { fragmentsBlocked := false }, lastActionTS := 0,
            rtt := { decay := 0, value := 0, count := 0 },
            initialRtt := Int.tdiv answer.rtt 1000000, useGet := answer.useGet,
            DOHClientCreds := { clientCert := "", clientKey := "", rootCA := "" } }) :
        Res (Except String ServerInfo)) ≠ .ok (.error "Certificate hash not found") := by
    cases unexpectedResponse deps answer.serverResponse with
    | stop why => simp
    | ok b => cases b <;> simp
  have hmain : fetchDoHServerInfo deps proxy name stamp isNew g =
        .ok (.error "Certificate hash not found", xt, g1) ↔
      stamp.Hashes ≠ [] ∧
        ∀ cert ∈ tls.PeerCertificates, deps.Sum256 cert.RawTBSCertificate ∉ stamp.Hashes := by
    rw [fetchDoH_of_answer deps proxy name stamp isNew g g1 answer xt hq,
      dohChecks_of_parsed deps proxy name stamp answer tls rcode htls hhs hun]
    have hfound := certPinned_iff deps hsum stamp.Hashes tls.PeerCertificates
    by_cases hcond : ¬ certPinned deps stamp.Hashes tls.PeerCertificates = true ∧
        stamp.Hashes.length > 0
    · rw [if_pos hcond]
      simp only [true_iff]
      refine ⟨?_, ?_⟩
      · intro hnil
        rw [hnil] at hcond
        exact absurd hcond.2 (by simp)
      · intro cert hc hmem
        exact hcond.1 (hfound.2 ⟨cert, hc, hmem⟩)
    · rw [if_neg hcond]
      constructor
      · intro h
        exfalso
        apply hother
        revert h
        cases unexpectedResponse deps answer.serverResponse with
        | stop why => simp
        | ok b => cases b <;> simp
      · rintro ⟨hne, hall⟩
        exfalso
        apply hcond
        refine ⟨?_, List.length_pos.2 hne⟩
        intro hp
        obtain ⟨cert, hc, hmem⟩ := hfound.1 hp
        exact hall cert hc hmem
  exact ⟨hmain, fun hnil h => (hmain.1 h).1 hnil⟩

/-- An instance of C18: the stamp pins a digest that the presented certificate has
not, and the probe fails with the certificate-hash error. -/
theorem pinning_step_witness :
    ∃ xt g1, fetchDoHServerInfo sampleDeps sampleProxy "doh" mispinnedStamp true (fun _ => 0) =
      .ok (.error "Certificate hash not found", xt, g1) := by
  have hq : dohQueries sampleDeps sampleProxy "doh" mispinnedStamp (fun _ => 0) =
      .ok (.ok sampleAnswer, sampleProxy.xTransport, fun _ => 0) := by
    rfl
  exact ⟨_, _, ((pinning_step sampleDeps sampleProxy "doh" mispinnedStamp true (fun _ => 0) _
    sampleAnswer _ _ 3 sampleDeps_sum hq rfl rfl rfl).1).2 ⟨by decide, by decide⟩⟩

/-- C19. The test of the response in the HTTPS probe, for a minimum packet size of at
least 6: once the queries have returned an answer with a completed TLS handshake and a
response that parses, and the pinning step has passed, the probe returns a `ServerInfo`
if and only if the length of the response is within `[MinDNSPacketSize,
MaxDNSPacketSize]`, its bytes 0 and 1 are `0xca 0xfe` and its bytes 4 and 5 are
`0x00 0x01`; otherwise it returns the error `Webserver returned an unexpected response`
and no `ServerInfo`; and the test reads no byte outside the response, whatever the
length of the response. -/
theorem response_check (deps : Deps) (proxy : Proxy) (name : String) (stamp : ServerStamp)
    (isNew : Bool) (g g1 : Rng) (answer : DohAnswer) (xt : XTransport) (tls : TLSState)
    (rcode : Nat) (h6 : 6 ≤ deps.MinDNSPacketSize)
    (hq : dohQueries deps proxy name stamp g = .ok (.ok answer, xt, g1))
    (htls : answer.tls = some tls) (hhs : tls.HandshakeComplete = true)
    (hun : deps.Unpack answer.serverResponse = .ok rcode)
    (hpin : certPinned deps stamp.Hashes tls.PeerCertificates = true ∨ stamp.Hashes = []) :
    ((∃ info, fetchDoHServerInfo deps proxy name stamp isNew g = .ok (.ok info, xt, g1)) ↔
      (deps.MinDNSPacketSize ≤ (answer.serverResponse.length : Int) ∧
        (answer.serverResponse.length : Int) ≤ deps.MaxDNSPacketSize ∧
        answer.serverResponse[0]? = some 202 ∧ answer.serverResponse[1]? = some 254 ∧
        answer.serverResponse[4]? = some 0 ∧ answer.serverResponse[5]? = some 1)) ∧
    ((¬ ∃ info, fetchDoHServerInfo deps proxy name stamp isNew g = .ok (.ok info, xt, g1)) →
      fetchDoHServerInfo deps proxy name stamp isNew g =
        .ok (.error "Webserver returned an unexpected response", xt, g1)) ∧
    (∀ info, fetchDoHServerInfo deps proxy name stamp isNew g = .ok (.ok info, xt, g1) →
      info.useGet = answer.useGet ∧ info.initialRtt = Int.tdiv answer.rtt 1000000 ∧
      info.knownBugs.fragmentsBlocked = false ∧ info.Name = name) ∧
    (∀ (respBody : List Nat) (why : Stop), unexpectedResponse deps respBody ≠ .stop why) := by
  have hnopanic : ∀ (respBody : List Nat) (why : Stop),
      unexpectedResponse deps respBody ≠ .stop why := by
    intro respBody why h
    obtain ⟨b, hb, -⟩ := unexpectedResponse_spec deps h6 respBody
    rw [hb] at h
    cases h
  have hcond : ¬ (¬ certPinned deps stamp.Hashes tls.PeerCertificates = true ∧
      stamp.Hashes.length > 0) := by
    rintro ⟨h1, h2⟩
    rcases hpin with hp | hp
    · exact h1 hp
    · rw [hp] at h2
      exact absurd h2 (by simp)
  obtain ⟨b, hb, hspec⟩ := unexpectedResponse_spec deps h6 answer.serverResponse
  rw [fetchDoH_of_answer deps proxy name stamp isNew g g1 answer xt hq,
    dohChecks_of_parsed deps proxy name stamp answer tls rcode htls hhs hun, if_neg hcond, hb]
  cases b with
  | true =>
    have hno : ¬ (deps.MinDNSPacketSize ≤ (answer.serverResponse.length : Int) ∧
        (answer.serverResponse.length : Int) ≤ deps.MaxDNSPacketSize ∧
        answer.serverResponse[0]? = some 202 ∧ answer.serverResponse[1]? = some 254 ∧
        answer.serverResponse[4]? = some 0 ∧ answer.serverResponse[5]? = some 1) := by
      intro h
      have := hspec.2 h
      cases this
    refine ⟨?_, ?_, ?_, hnopanic⟩
    · constructor
      · rintro ⟨info, h⟩
        simp at h
      · intro h
        exact absurd h hno
    · intro _
      rfl
    · intro info h
      simp at h
  | false =>
    refine ⟨?_, ?_, ?_, hnopanic⟩
    · constructor
      · intro _
        exact hspec.1 rfl
      · intro _
        exact ⟨_, rfl⟩
    · intro h
      exact absurd ⟨_, rfl⟩ h
    · intro info h
      simp only [Res.ok.injEq, Prod.mk.injEq, Except.ok.injEq, and_true] at h
      subst h
      exact ⟨rfl, rfl, rfl, rfl⟩

/-- Seed scenario S5 as an instance of C19: the POST fails, the GET succeeds, the
pinned digest matches and the response is well formed, so the probe returns a
`ServerInfo` that uses GET, whose initial round-trip time is the measured 42 ms and
whose `fragmentsBlocked` is unset. -/
theorem response_check_witness :
    ∃ info xt g1, fetchDoHServerInfo sampleDeps sampleProxy "doh" pinnedStamp true (fun _ => 0) =
        .ok (.ok info, xt, g1) ∧
      info.useGet = true ∧ info.initialRtt = 42 ∧ info.knownBugs.fragmentsBlocked = false := by
  have hq : dohQueries sampleDeps sampleProxy "doh" pinnedStamp (fun _ => 0) =
      .ok (.ok sampleAnswer, sampleProxy.xTransport, fun _ => 0) := by
    rfl
  have h := response_check sampleDeps sampleProxy "doh" pinnedStamp true (fun _ => 0) _
    sampleAnswer _ _ 3 (by decide) hq rfl rfl rfl (Or.inl (by decide))
  obtain ⟨info, hinfo⟩ := h.1.2 (by decide)
  obtain ⟨h1, h2, h3, -⟩ := h.2.2.1 info hinfo
  exact ⟨info, _, _, hinfo, h1, h2, h3⟩

/-! ## The ways of an estimator step -/

/-- The four ways of an estimator step that drew a candidate `c` other than 0, with
`cand` at `inner[c]` and `best` at `inner[0]`: a negative best value is replaced by the
candidate's; a candidate below a non-negative best is swapped to the front and the pass
of adjacent swaps follows; a candidate at or above four times the best, positive and
idle for more than a minute, has half its value folded into its average and the pass
follows; otherwise nothing changes. `partialSort` is set in the second and third. -/
theorem estimatorUpdate_cases (s : ServersInfo) (now : Int) (g g1 : Rng) (c : Int)
    (cand best : ServerInfo) (hr : randIntn g (s.inner.length : Int) = .ok (c, g1))
    (hc : c ≠ 0) (hic : index s.inner c = .ok cand) (hib : index s.inner 0 = .ok best) :
    (best.rtt.Value < 0 →
      estimatorUpdate s now g =
        .ok ({ s with inner := s.inner.set 0 { best with rtt := best.rtt.Set cand.rtt.Value } },
          g1) ∧
      partialSort s now g = false) ∧
    (0 ≤ best.rtt.Value → cand.rtt.Value < best.rtt.Value →
      estimatorUpdate s now g =
        .ok ({ s with inner := bubblePass (swap s.inner c.toNat 0) }, g1) ∧
      partialSort s now g = true) ∧
    (0 ≤ best.rtt.Value → best.rtt.Value ≤ cand.rtt.Value →
      (0 < cand.rtt.Value ∧ best.rtt.Value * 4 ≤ cand.rtt.Value ∧
        60000000000 < now - cand.lastActionTS) →
      estimatorUpdate s now g =
        .ok ({ s with
               inner := bubblePass (s.inner.set c.toNat
                 { cand with
                   rtt := cand.rtt.Add
                     (MinF (MaxF (cand.rtt.Value / 2) (best.rtt.Value * 2))
                       cand.rtt.Value) }) }, g1) ∧
      partialSort s now g = true) ∧
    (0 ≤ best.rtt.Value → best.rtt.Value ≤ cand.rtt.Value →
      ¬ (0 < cand.rtt.Value ∧ best.rtt.Value * 4 ≤ cand.rtt.Value ∧
        60000000000 < now - cand.lastActionTS) →
      estimatorUpdate s now g = .ok (s, g1) ∧ partialSort s now g = false) := by
  unfold estimatorUpdate partialSort
  rw [hr]
  simp only [if_neg hc]
  rw [hic, hib]
  simp only
  refine ⟨?_, ?_, ?_, ?_⟩
  · intro hneg
    have h1 : ¬ (cand.rtt.Value > 0 ∧ cand.rtt.Value ≥ cand.rtt.Value * 4) := by
      rintro ⟨h2, h3⟩
      linarith
    simp [hneg, h1]
  · intro hpos hlt
    have h1 : ¬ best.rtt.Value < 0 := not_lt.2 hpos
    simp [h1, hlt]
  · intro hpos hle hre
    have h1 : ¬ best.rtt.Value < 0 := not_lt.2 hpos
    have h2 : ¬ cand.rtt.Value < best.rtt.Value := not_lt.2 hle
    simp [h1, h2, hre.1, hre.2.1, hre.2.2]
  · intro hpos hle hre
    have h1 : ¬ best.rtt.Value < 0 := not_lt.2 hpos
    have h2 : ¬ cand.rtt.Value < best.rtt.Value := not_lt.2 hle
    have h3 : ¬ (0 < cand.rtt.Value ∧ best.rtt.Value * 4 ≤ cand.rtt.Value ∧
        60000000000 < now - cand.lastActionTS) := hre
    have h5 : ¬ ((0 < cand.rtt.Value ∧ best.rtt.Value * 4 ≤ cand.rtt.Value) ∧
        60000000000 < now - cand.lastActionTS) := fun h => h3 ⟨h.1.1, h.1.2, h.2⟩
    simp only [h1, h2, decide_False, Bool.false_eq_true, if_false, Bool.not_false,
      Bool.true_and, Bool.false_or, gt_iff_lt, ge_iff_le, Bool.and_eq_true, decide_eq_true_eq,
      h5, Bool.and_eq_false_iff, decide_eq_false_iff_not, and_true]
    by_cases h6 : 0 < cand.rtt.Value ∧ best.rtt.Value * 4 ≤ cand.rtt.Value
    · exact ⟨trivial, Or.inr (fun h7 => h3 ⟨h6.1, h6.2, h7⟩)⟩
    · exact ⟨trivial, Or.inl h6⟩

/-- What an estimator step that returned has drawn: index 0 and no change, or a
candidate `c` other than 0 with entries at `inner[c]` and `inner[0]`. -/
theorem estimatorUpdate_drawn (s s1 : ServersInfo) (now : Int) (g g1 : Rng)
    (h : estimatorUpdate s now g = .ok (s1, g1)) :
    ∃ c, randIntn g (s.inner.length : Int) = .ok (c, g1) ∧
      ((c = 0 ∧ s1 = s) ∨
        (c ≠ 0 ∧ ∃ cand best, index s.inner c = .ok cand ∧ index s.inner 0 = .ok best)) := by
  unfold estimatorUpdate at h
  cases hr : randIntn g (s.inner.length : Int) with
  | stop why => rw [hr] at h; cases h
  | ok res =>
    obtain ⟨c, g2⟩ := res
    rw [hr] at h
    simp only at h
    by_cases hc : c = 0
    · rw [if_pos hc] at h
      simp only [Res.ok.injEq, Prod.mk.injEq] at h
      rw [h.2]
      exact ⟨c, rfl, Or.inl ⟨hc, h.1.symm⟩⟩
    · rw [if_neg hc] at h
      cases hic : index s.inner c with
      | stop why => rw [hic] at h; cases h
      | ok cand =>
        cases hib : index s.inner 0 with
        | stop why => rw [hic, hib] at h; cases h
        | ok best =>
          rw [hic, hib] at h
          simp only [Res.ok.injEq, Prod.mk.injEq] at h
          rw [h.2]
          exact ⟨c, rfl, Or.inr ⟨hc, cand, best, hic, rfl⟩⟩

/-! ## The estimator step and the minimum -/

/-- The front of a list after the swap of `estimatorUpdate`. -/
theorem swap_front {α : Type} (l : List α) (i : Nat) (a b : α) (hi : l[i]? = some a)
    (h0 : l[0]? = some b) : (swap l i 0)[0]? = some a := by
  unfold swap
  rw [hi, h0]
  simp only
  have hlen : 0 < (l.set i b).length := by
    rw [List.length_set]
    cases l with
    | nil => simp at h0
    | cons x t => simp
  rw [List.getElem?_set_self hlen]

/-- The value of an average that has just been set. -/
theorem set_Value (m : MovingAverage) (x : ℚ) : (m.Set x).Value = x := by
  unfold MovingAverage.Set MovingAverage.Value
  by_cases h : m.count ≤ WARMUP_SAMPLES
  · simp only [if_pos h]
    rw [if_neg (by simp [WARMUP_SAMPLES])]
  · simp only [if_neg h]

/-- The pass of adjacent swaps leaves at the front an entry whose value is not above
that of the entry that stood there. -/
theorem bubblePass_front_le (l : List ServerInfo) (x : ServerInfo) (h0 : l[0]? = some x) :
    ∃ e0, (bubblePass l)[0]? = some e0 ∧ e0.rtt.Value ≤ x.rtt.Value := by
  cases l with
  | nil => simp at h0
  | cons first rest =>
    simp only [List.getElem?_cons_zero, Option.some.injEq] at h0
    subst h0
    cases rest with
    | nil => exact ⟨first, rfl, le_refl _⟩
    | cons next rest =>
      unfold bubblePass bubbleFrom
      by_cases hgt : first.rtt.Value > next.rtt.Value
      · rw [if_pos hgt]
        exact ⟨next, List.getElem?_cons_zero, le_of_lt hgt⟩
      · rw [if_neg hgt]
        exact ⟨first, List.getElem?_cons_zero, le_refl _⟩

/-- The entries at a drawn index and at index 0 of a list that holds the index. -/
theorem index_pair (s : ServersInfo) (c : Int) (h0 : 0 ≤ c) (h1 : c < (s.inner.length : Int)) :
    ∃ cand best, index s.inner c = .ok cand ∧ index s.inner 0 = .ok best ∧
      s.inner[c.toNat]? = some cand ∧ s.inner[0]? = some best := by
  obtain ⟨cand, hic, hcand⟩ := index_of_lt s.inner c h0 h1
  obtain ⟨best, hib, hbest⟩ := index_of_lt s.inner 0 (le_refl 0) (by omega)
  exact ⟨cand, best, hic, hib, hcand, hbest⟩

/-- C21. Promotion. On a live list of at least two entries, let the estimator step draw
an index `c` other than 0 whose entry has a value `cr` strictly below the value `br` of
`live[0]`. Then the step returns, and the entry at `live[0]` after it has a value not
above `cr`, hence strictly below `br`. -/
theorem promotion_lowers_front (s : ServersInfo) (now : Int) (g : Rng) (cand best : ServerInfo)
    (hn : 2 ≤ s.inner.length)
    (hc : (g 0 : Int) % (s.inner.length : Int) ≠ 0)
    (hcand : s.inner[((g 0 : Int) % (s.inner.length : Int)).toNat]? = some cand)
    (hbest : s.inner[0]? = some best)
    (hlt : cand.rtt.Value < best.rtt.Value) :
    ∃ s1 g1 e0, estimatorUpdate s now g = .ok (s1, g1) ∧ s1.inner[0]? = some e0 ∧
      e0.rtt.Value ≤ cand.rtt.Value ∧ e0.rtt.Value < best.rtt.Value := by
  have hpos : (0 : Int) < (s.inner.length : Int) := by omega
  obtain ⟨hr, h0, h1⟩ := randIntn_pos g (s.inner.length : Int) hpos
  obtain ⟨cand1, best1, hic, hib, hcand1, hbest1⟩ := index_pair s _ h0 h1
  rw [hcand] at hcand1
  rw [hbest] at hbest1
  cases hcand1
  cases hbest1
  obtain ⟨hA, hB, -, -⟩ := estimatorUpdate_cases s now g _ _ cand best hr hc hic hib
  by_cases hneg : best.rtt.Value < 0
  · refine ⟨_, _, { best with rtt := best.rtt.Set cand.rtt.Value }, (hA hneg).1, ?_, ?_, ?_⟩
    · have hlen : 0 < s.inner.length := by omega
      exact List.getElem?_set_self hlen
    · exact le_of_eq (set_Value _ _)
    · exact lt_of_eq_of_lt (set_Value _ _) hlt
  · have hnn : 0 ≤ best.rtt.Value := not_lt.1 hneg
    obtain ⟨e0, he0, hle⟩ := bubblePass_front_le
      (swap s.inner ((g 0 : Int) % (s.inner.length : Int)).toNat 0) cand
      (swap_front _ _ _ _ hcand hbest)
    exact ⟨_, _, e0, (hB hnn hlt).1, he0, hle, lt_of_le_of_lt hle hlt⟩

/-- The registry `scenarioOne` is reachable. -/
theorem reachable_scenarioOne : Reachable scenarioOne := by
  have hr : Reachable registeredThree :=
    Reachable.registerServer "c" (sampleStamp "192.0.2.3:443" .DNSCrypt)
      (Reachable.registerServer "b" (sampleStamp "192.0.2.2:443" .DNSCrypt)
        (Reachable.registerServer "a" (sampleStamp "192.0.2.1:443" .DNSCrypt)
          (Reachable.init .P2 "" true)))
  unfold scenarioOne
  cases h : refresh (fun _ name _ _ => .ok (sampleInfo name (rttScenarioOne name)))
      registeredThree with
  | stop why => exact hr
  | ok r => exact Reachable.refresh _ r.2.1 r.2.2 hr h

/-- Seed scenario S1 as an instance of C21: the reachable registry holds `a` (30 ms),
`b` (10 ms), `c` (20 ms) with policy `p2` and the estimator on; a step that draws index
1 and a step that draws index 2 both return with `b` at `live[0]`, and for the draw of
index 2 the front entry has a value not above the 20 ms of the drawn `c`. -/
theorem promotion_lowers_front_witness :
    Reachable scenarioOne ∧ scenarioOne.lbStrategy = .P2 ∧ scenarioOne.lbEstimator = true ∧
    scenarioOne.inner.map (fun e => (e.Name, e.rtt.Value)) =
      [("a", 30), ("b", 10), ("c", 20)] ∧
    (estimatorUpdate scenarioOne 0 (fun _ => 1)).value?.map
        (fun r => r.1.inner.map (fun e => (e.Name, e.rtt.Value))) =
      some [("b", 10), ("c", 20), ("a", 30)] ∧
    (estimatorUpdate scenarioOne 0 (fun _ => 2)).value?.map
        (fun r => r.1.inner.map (fun e => (e.Name, e.rtt.Value))) =
      some [("b", 10), ("c", 20), ("a", 30)] ∧
    ∃ s1 g1 e0, estimatorUpdate scenarioOne 0 (fun _ => 2) = .ok (s1, g1) ∧
      s1.inner[0]? = some e0 ∧ e0.rtt.Value ≤ 20 ∧ e0.rtt.Value < 30 := by
  refine ⟨reachable_scenarioOne, by decide, by decide, by decide!, by decide!, by decide!, ?_⟩
  have hlen : scenarioOne.inner.length = 3 := by decide!
  cases hc : scenarioOne.inner[2]? with
  | none =>
    rw [List.getElem?_eq_none_iff] at hc
    omega
  | some cand =>
    cases hb : scenarioOne.inner[0]? with
    | none =>
      rw [List.getElem?_eq_none_iff] at hb
      omega
    | some best =>
      have hcv : (scenarioOne.inner[2]?).map (fun e => e.rtt.Value) = some 20 := by decide!
      have hbv : (scenarioOne.inner[0]?).map (fun e => e.rtt.Value) = some 30 := by decide!
      rw [hc] at hcv
      rw [hb] at hbv
      simp only [Option.map_some', Option.some.injEq] at hcv hbv
      have hmod : ((fun _ => 2 : Rng) 0 : Int) % (scenarioOne.inner.length : Int) = 2 := by
        rw [hlen]
        rfl
      have h := promotion_lowers_front scenarioOne 0 (fun _ => 2) cand best (by omega)
        (by rw [hmod]; decide) (by rw [hmod]; exact hc) hb (by rw [hcv, hbv]; norm_num)
      rw [hcv, hbv] at h
      exact h

/-! ## Rehabilitation -/

/-- The sample that the estimator step folds into the average of a candidate that is
positive and at least four times the best: half the candidate's value. -/
theorem rehabilitation_sample (cr br : ℚ) (hcr : 0 < cr) (h4 : br * 4 ≤ cr) :
    MinF (MaxF (cr / 2) (br * 2)) cr = cr / 2 := by
  have hmax : MaxF (cr / 2) (br * 2) = cr / 2 := by
    unfold MaxF
    split_ifs with h
    · rfl
    · linarith
  rw [hmax]
  unfold MinF
  rw [if_pos (by linarith)]

/-- The registry `scenarioSix` is reachable. -/
theorem reachable_scenarioSix : Reachable scenarioSix := by
  have hr : Reachable registeredTwo :=
    Reachable.registerServer "a" (sampleStamp "192.0.2.1:443" .DNSCrypt)
      (Reachable.registerServer "b" (sampleStamp "192.0.2.2:443" .DNSCrypt)
        (Reachable.init .P2 "" true))
  unfold scenarioSix
  cases h : refresh (fun _ name _ _ => .ok (sampleInfo name (if name = "a" then 10 else 50)))
      registeredTwo with
  | stop why => exact hr
  | ok r => exact Reachable.refresh _ r.2.1 r.2.2 hr h

/-- C22 as stated fails in seed scenario S6. The reachable registry holds `a` (10 ms)
and `b` (50 ms), both last used at instant 0; at the instant of 2 minutes a step that
draws index 1 gives `b` a new chance: the sample is `min(max(50/2, 2*10), 50) = 25`,
and the step folds it into the average of `b` instead of replacing the value: after
the step the value of `b` lies strictly between 25 and 50, so it is not 25. -/
theorem rehabilitation_value_differs :
    Reachable scenarioSix ∧
    scenarioSix.inner.map (fun e => (e.Name, e.rtt.Value, e.lastActionTS)) =
      [("a", 10, 0), ("b", 50, 0)] ∧
    (60000000000 : Int) < 120000000000 - 0 ∧
    partialSort scenarioSix 120000000000 (fun _ => 1) = true ∧
    MinF (MaxF (50 / 2) (10 * 2)) 50 = 25 ∧
    ∃ s1 g1 e, estimatorUpdate scenarioSix 120000000000 (fun _ => 1) = .ok (s1, g1) ∧
      liveNames s1 = ["a", "b"] ∧ s1.inner[1]? = some e ∧ e.Name = "b" ∧
      25 < e.rtt.Value ∧ e.rtt.Value < 50 ∧ e.rtt.Value ≠ 25 := by
  refine ⟨reachable_scenarioSix, by decide!, by decide, by decide!, by decide!, ?_⟩
  cases h : estimatorUpdate scenarioSix 120000000000 (fun _ => 1) with
  | stop why =>
    have hv : (estimatorUpdate scenarioSix 120000000000 (fun _ => 1)).value?.isSome = true := by
      decide!
    rw [h] at hv
    simp [Res.value?] at hv
  | ok r =>
    obtain ⟨s1, g1⟩ := r
    have hv : (estimatorUpdate scenarioSix 120000000000 (fun _ => 1)).value?.map
        (fun r => r.1.inner.map (fun e => (e.Name, e.rtt.Value))) =
          some [("a", 10), ("b", 500 / 11)] := by decide!
    rw [h] at hv
    simp only [Res.value?, Option.map_some', Option.some.injEq] at hv
    have hat : (s1.inner.map (fun e => (e.Name, e.rtt.Value)))[1]? = some ("b", 500 / 11) := by
      rw [hv]
      rfl
    rw [List.getElem?_map] at hat
    cases he : s1.inner[1]? with
    | none => rw [he] at hat; cases hat
    | some e =>
      rw [he] at hat
      simp only [Option.map_some', Option.some.injEq, Prod.mk.injEq] at hat
      obtain ⟨hname, hval⟩ := hat
      have hnames : liveNames s1 = ["a", "b"] := by
        have := congrArg (List.map Prod.fst) hv
        simpa [liveNames, List.map_map, Function.comp] using this
      refine ⟨s1, g1, e, rfl, hnames, he, hname, ?_, ?_, ?_⟩ <;> rw [hval] <;> norm_num

/-- C22, amended. Rehabilitation. Let the estimator step draw an index `c` other than 0
whose entry has a value `cr > 0` with `cr >= 4 * br`, where `br >= 0` is the value of
`live[0]`, and has been idle for more than 60 s. Then the sample
`min(max(cr/2, 2*br), cr)` is `cr/2`, and the step returns the live list in which the
candidate's average has had that sample folded in by `Add` (the value is not replaced
by the sample), after its pass of adjacent swaps; the candidate with the folded
average is an entry of the list after the step. The fold is not evaluated: the
candidate's value after the step is whatever `Add` leaves. -/
theorem rehabilitation_folds_sample (s : ServersInfo) (now : Int) (g : Rng)
    (cand best : ServerInfo)
    (hc : (g 0 : Int) % (s.inner.length : Int) ≠ 0)
    (hcand : s.inner[((g 0 : Int) % (s.inner.length : Int)).toNat]? = some cand)
    (hbest : s.inner[0]? = some best)
    (hcr : 0 < cand.rtt.Value) (h4 : best.rtt.Value * 4 ≤ cand.rtt.Value)
    (hbr : 0 ≤ best.rtt.Value) (hidle : 60000000000 < now - cand.lastActionTS) :
    MinF (MaxF (cand.rtt.Value / 2) (best.rtt.Value * 2)) cand.rtt.Value = cand.rtt.Value / 2 ∧
    (∃ g1, estimatorUpdate s now g =
      .ok ({ s with
             inner := bubblePass (s.inner.set ((g 0 : Int) % (s.inner.length : Int)).toNat
               { cand with rtt := cand.rtt.Add (cand.rtt.Value / 2) }) }, g1)) ∧
    (∀ s1 g1, estimatorUpdate s now g = .ok (s1, g1) →
      { cand with rtt := cand.rtt.Add (cand.rtt.Value / 2) } ∈ s1.inner ∧
      s1.inner.length = s.inner.length) ∧
    partialSort s now g = true := by
  have hsample := rehabilitation_sample cand.rtt.Value best.rtt.Value hcr h4
  have hlen : 0 < s.inner.length := by
    cases hl : s.inner with
    | nil => rw [hl] at hbest; simp at hbest
    | cons x t => simp
  have hpos : (0 : Int) < (s.inner.length : Int) := by omega
  obtain ⟨hr, h0, h1⟩ := randIntn_pos g (s.inner.length : Int) hpos
  obtain ⟨cand1, best1, hic, hib, hcand1, hbest1⟩ := index_pair s _ h0 h1
  rw [hcand] at hcand1
  rw [hbest] at hbest1
  cases hcand1
  cases hbest1
  obtain ⟨-, -, hC, -⟩ := estimatorUpdate_cases s now g _ _ cand best hr hc hic hib
  have hle : best.rtt.Value ≤ cand.rtt.Value := by linarith
  obtain ⟨hstep, hps⟩ := hC hbr hle ⟨hcr, h4, hidle⟩
  rw [hsample] at hstep
  have hclt : ((g 0 : Int) % (s.inner.length : Int)).toNat < s.inner.length := by omega
  refine ⟨hsample, ⟨_, hstep⟩, ?_, hps⟩
  intro s1 g1 h
  rw [hstep] at h
  simp only [Res.ok.injEq, Prod.mk.injEq] at h
  rw [← h.1]
  refine ⟨(bubblePass_perm _).mem_iff.2 (List.mem_set _ _ hclt _), ?_⟩
  rw [(bubblePass_perm _).length_eq, List.length_set]

/-- Seed scenario S6 as an instance of C22, amended: `b` (50 ms, idle for 2 minutes)
is drawn against `a` (10 ms); the sample is 25, the step returns, and `b` with 25
folded into its average is an entry of the list after the step. -/
theorem rehabilitation_folds_sample_witness :
    ∃ cand, scenarioSix.inner[1]? = some cand ∧ cand.Name = "b" ∧ cand.rtt.Value = 50 ∧
      MinF (MaxF (cand.rtt.Value / 2) (10 * 2)) cand.rtt.Value = 25 ∧
      ∃ s1 g1, estimatorUpdate scenarioSix 120000000000 (fun _ => 1) = .ok (s1, g1) ∧
        { cand with rtt := cand.rtt.Add 25 } ∈ s1.inner := by
  have hlen : scenarioSix.inner.length = 2 := by decide!
  cases hc : scenarioSix.inner[1]? with
  | none =>
    rw [List.getElem?_eq_none_iff] at hc
    omega
  | some cand =>
    cases hb : scenarioSix.inner[0]? with
    | none =>
      rw [List.getElem?_eq_none_iff] at hb
      omega
    | some best =>
      have hcv : (scenarioSix.inner[1]?).map (fun e => (e.Name, e.rtt.Value, e.lastActionTS)) =
          some ("b", 50, 0) := by decide!
      have hbv : (scenarioSix.inner[0]?).map (fun e => e.rtt.Value) = some 10 := by decide!
      rw [hc] at hcv
      rw [hb] at hbv
      simp only [Option.map_some', Option.some.injEq, Prod.mk.injEq] at hcv hbv
      obtain ⟨hname, hcv, hts⟩ := hcv
      have hmod : ((fun _ => 1 : Rng) 0 : Int) % (scenarioSix.inner.length : Int) = 1 := by
        rw [hlen]
        rfl
      have h := rehabilitation_folds_sample scenarioSix 120000000000 (fun _ => 1) cand best
        (by rw [hmod]; decide) (by rw [hmod]; exact hc) hb (by rw [hcv]; norm_num)
        (by rw [hcv, hbv]; norm_num) (by rw [hbv]; norm_num) (by rw [hts]; decide)
      obtain ⟨h1, ⟨g1, h2⟩, h3, -⟩ := h
      have hhalf : cand.rtt.Value / 2 = 25 := by
        rw [hcv]
        norm_num
      rw [hhalf] at h2 h3
      refine ⟨cand, rfl, hname, hcv, ?_, _, g1, h2, (h3 _ _ h2).1⟩
      rw [hbv] at h1
      rw [h1, hhalf]

/-! ## The estimator step permutes the live list -/

/-- Whatever a function that does not look at the averages sees in the live list, it
sees the same things, in another order, after an estimator step. -/
theorem estimatorUpdate_map_perm {β : Type} (f : ServerInfo → β)
    (hf : ∀ (e : ServerInfo) (m : MovingAverage), f { e with rtt := m } = f e)
    (s s1 : ServersInfo) (now : Int) (g g1 : Rng)
    (h : estimatorUpdate s now g = .ok (s1, g1)) : (s1.inner.map f).Perm (s.inner.map f) := by
  obtain ⟨c, hr, hcase⟩ := estimatorUpdate_drawn s s1 now g g1 h
  rcases hcase with ⟨-, h1⟩ | ⟨hc, cand, best, hic, hib⟩
  · rw [h1]
  · obtain ⟨hA, hB, hC, hD⟩ := estimatorUpdate_cases s now g g1 c cand best hr hc hic hib
    have hcandAt : s.inner[c.toNat]? = some cand := (index_ok _ _ _ hic).2.2
    have hbestAt : s.inner[0]? = some best := (index_ok _ _ _ hib).2.2
    by_cases hneg : best.rtt.Value < 0
    · rw [(hA hneg).1] at h
      simp only [Res.ok.injEq, Prod.mk.injEq, and_true] at h
      rw [← h]
      simp only
      rw [map_set_of_eq f s.inner 0 best _ hbestAt (hf best _)]
    · have hpos : 0 ≤ best.rtt.Value := not_lt.1 hneg
      by_cases hlt : cand.rtt.Value < best.rtt.Value
      · rw [(hB hpos hlt).1] at h
        simp only [Res.ok.injEq, Prod.mk.injEq, and_true] at h
        rw [← h]
        exact ((bubblePass_perm _).trans (swap_perm _ _ _)).map f
      · have hle : best.rtt.Value ≤ cand.rtt.Value := not_lt.1 hlt
        by_cases hre : 0 < cand.rtt.Value ∧ best.rtt.Value * 4 ≤ cand.rtt.Value ∧
            60000000000 < now - cand.lastActionTS
        · rw [(hC hpos hle hre).1] at h
          simp only [Res.ok.injEq, Prod.mk.injEq, and_true] at h
          rw [← h]
          refine ((bubblePass_perm _).map f).trans ?_
          rw [map_set_of_eq f s.inner c.toNat cand _ hcandAt (hf cand _)]
        · rw [(hD hpos hle hre).1] at h
          simp only [Res.ok.injEq, Prod.mk.injEq, and_true] at h
          rw [← h]

/-- The same for a `getOne` that returns. -/
theorem getOne_map_perm {β : Type} (f : ServerInfo → β)
    (hf : ∀ (e : ServerInfo) (m : MovingAverage), f { e with rtt := m } = f e)
    (env : Env) (fuel : Nat) (s s1 : ServersInfo) (qName : String) (now : Int) (g g1 : Rng)
    (chosen : Option ServerInfo) (h : getOne env fuel s qName now g = .ok (s1, chosen, g1)) :
    (s1.inner.map f).Perm (s.inner.map f) := by
  rcases getOne_ok_inv _ _ _ _ _ _ _ _ _ h with ⟨-, h1, -⟩ | ⟨-, s2, g2, he, hrest⟩
  · rw [h1]
  · have hs2 : (s2.inner.map f).Perm (s.inner.map f) := by
      split at he
      · exact estimatorUpdate_map_perm f hf _ _ _ _ _ he
      · simp only [Res.ok.injEq, Prod.mk.injEq] at he
        rw [← he.1]
    rcases hrest with ⟨-, h1⟩ | ⟨c, e, -, h1, -⟩
    · rw [h1]
      exact hs2
    · rw [h1]
      exact hs2

/-- C24. The estimator step only permutes the live list. On every non-empty live list,
for every draw, `estimatorUpdate` returns, leaves the length of the list unchanged, and
the list after the step holds the entries of the list before it in some order, none
dropped and none twice (the entries are compared apart from their averages, which the
step writes); so the names of the live servers after the step are those before it, and
they are distinct if they were. The same holds across every `getOne` that returns. -/
theorem estimator_permutes (s : ServersInfo) (now : Int) (g : Rng) (hne : s.inner ≠ []) :
    (∃ s1 g1, estimatorUpdate s now g = .ok (s1, g1) ∧
      s1.inner.length = s.inner.length ∧
      (s1.inner.map withoutRtt).Perm (s.inner.map withoutRtt) ∧
      (liveNames s1).Perm (liveNames s) ∧
      (∀ name, name ∈ liveNames s1 ↔ name ∈ liveNames s) ∧
      ((liveNames s1).Nodup ↔ (liveNames s).Nodup)) ∧
    (∀ env fuel qName s2 chosen g2, getOne env fuel s qName now g = .ok (s2, chosen, g2) →
      s2.inner.length = s.inner.length ∧
      (s2.inner.map withoutRtt).Perm (s.inner.map withoutRtt) ∧
      (liveNames s2).Perm (liveNames s) ∧
      ((liveNames s2).Nodup ↔ (liveNames s).Nodup)) := by
  constructor
  · obtain ⟨s1, g1, h⟩ := estimatorUpdate_total s now g hne
    have hp := estimatorUpdate_map_perm withoutRtt (fun _ _ => rfl) s s1 now g g1 h
    have hn : (liveNames s1).Perm (liveNames s) :=
      estimatorUpdate_map_perm (fun e => e.Name) (fun _ _ => rfl) s s1 now g g1 h
    refine ⟨s1, g1, h, ?_, hp, hn, fun name => hn.mem_iff, hn.nodup_iff⟩
    have := hp.length_eq
    simpa using this
  · intro env fuel qName s2 chosen g2 h
    have hp := getOne_map_perm withoutRtt (fun _ _ => rfl) env fuel s s2 qName now g g2 chosen h
    have hn : (liveNames s2).Perm (liveNames s) :=
      getOne_map_perm (fun e => e.Name) (fun _ _ => rfl) env fuel s s2 qName now g g2 chosen h
    refine ⟨?_, hp, hn, hn.nodup_iff⟩
    have := hp.length_eq
    simpa using this

/-- An instance of C24 at seed scenario S1 with a draw of index 1: the step returns the
three entries `b`, `c`, `a`, a rearrangement of `a`, `b`, `c`. -/
theorem estimator_permutes_witness :
    scenarioOne.inner ≠ [] ∧
    (estimatorUpdate scenarioOne 0 (fun _ => 1)).value?.map (fun r => liveNames r.1) =
      some ["b", "c", "a"] ∧
    ∃ s1 g1, estimatorUpdate scenarioOne 0 (fun _ => 1) = .ok (s1, g1) ∧
      s1.inner.length = scenarioOne.inner.length ∧
      (s1.inner.map withoutRtt).Perm (scenarioOne.inner.map withoutRtt) ∧
      (liveNames s1).Perm (liveNames scenarioOne) := by
  have hne : scenarioOne.inner ≠ [] := by
    intro h
    have hlen : scenarioOne.inner.length = 3 := by decide!
    rw [h] at hlen
    cases hlen
  obtain ⟨s1, g1, h1, h2, h3, h4, -⟩ := (estimator_permutes scenarioOne 0 (fun _ => 1) hne).1
  exact ⟨hne, by decide!, s1, g1, h1, h2, h3, h4⟩

/-! ## Relay names -/

/-- For a relay name that is neither a stamp nor a `host:port` that resolves, `route`
settles on the stamp found among the registered servers whenever there is one, also
when the name is found among the registered relays; it uses the relay's stamp only
when the registered servers do not hold the name. -/
theorem relayCandidateStamp_tables (deps : Deps) (proxy : Proxy) (relayName : String)
    (err1 err2 : String) (h1 : deps.NewServerStampFromString relayName = .error err1)
    (h2 : deps.ResolveUDPAddr relayName = .error err2) :
    (∀ serverStamp, findStamp proxy.registeredServers relayName = some serverStamp →
      relayCandidateStamp deps proxy relayName = some serverStamp) ∧
    (findStamp proxy.registeredServers relayName = none →
      relayCandidateStamp deps proxy relayName = findStamp proxy.registeredRelays relayName) := by
  unfold relayCandidateStamp
  rw [h1]
  simp only
  rw [h2]
  simp only
  constructor
  · intro serverStamp h
    rw [h]
  · intro h
    rw [h]

/-- C23 fails on the code. The relay name `relay-x` is neither a stamp nor a `host:port`
that resolves, and it names a relay at `198.51.100.1:443` among the registered relays
and a server at `203.0.113.5:443` among the registered servers. `route` returns the
addresses of the registered server, not those of the registered relay: the search of
the registered servers runs after the search of the registered relays and assigns over
what that one found. In general, whenever both tables hold the name, the stamp used is
that of the registered server. -/
theorem route_uses_registered_server :
    (∃ err, routeDeps.NewServerStampFromString "relay-x" = .error err) ∧
    (∃ err, routeDeps.ResolveUDPAddr "relay-x" = .error err) ∧
    findStamp collidingProxy.registeredRelays "relay-x" =
      some (sampleStamp "198.51.100.1:443" .DNSCryptRelay) ∧
    findStamp collidingProxy.registeredServers "relay-x" =
      some (sampleStamp "203.0.113.5:443" .DNSCrypt) ∧
    relayCandidateStamp routeDeps collidingProxy "relay-x" =
      some (sampleStamp "203.0.113.5:443" .DNSCrypt) ∧
    (∃ g1, route routeDeps collidingProxy "a" (fun _ => 0) =
      .ok (.ok (some { IP := some [203, 0, 113, 5], Port := 443, Zone := "" },
                some { IP := some [203, 0, 113, 5], Port := 443, Zone := "" }), g1)) ∧
    (∀ (deps : Deps) (proxy : Proxy) (relayName err1 err2 : String)
      (relayStamp serverStamp : ServerStamp),
      deps.NewServerStampFromString relayName = .error err1 →
      deps.ResolveUDPAddr relayName = .error err2 →
      findStamp proxy.registeredRelays relayName = some relayStamp →
      findStamp proxy.registeredServers relayName = some serverStamp →
      relayCandidateStamp deps proxy relayName = some serverStamp) := by
  refine ⟨⟨_, rfl⟩, ⟨_, rfl⟩, by rfl, by rfl, by rfl, ⟨_, by rfl⟩, ?_⟩
  intro deps proxy relayName err1 err2 relayStamp serverStamp h1 h2 _ h4
  exact (relayCandidateStamp_tables deps proxy relayName err1 err2 h1 h2).1 serverStamp h4

/-! ## Policy `la` and entries without a TCP address -/

/-- The checks of the HTTPS probe build a `ServerInfo` without a TCP address. -/
theorem dohChecks_no_tcp (deps : Deps) (proxy : Proxy) (name : String) (stamp : ServerStamp)
    (answer : DohAnswer) (info : ServerInfo)
    (h : dohChecks deps proxy name stamp answer = .ok (.ok info)) :
    info.TCPAddr = none ∧ info.Proto = .DoH := by
  unfold dohChecks at h
  cases htls : answer.tls with
  | none => rw [htls] at h; cases h
  | some tls =>
    rw [htls] at h
    simp only at h
    split at h
    · cases h
    · cases hun : deps.Unpack answer.serverResponse with
      | error err => rw [hun] at h; cases h
      | ok rcode =>
        rw [hun] at h
        simp only at h
        split at h
        · cases h
        · cases hresp : unexpectedResponse deps answer.serverResponse with
          | stop why => rw [hresp] at h; cases h
          | ok b =>
            rw [hresp] at h
            cases b with
            | true => cases h
            | false =>
              simp only [Res.ok.injEq, Except.ok.injEq] at h
              rw [← h]
              exact ⟨rfl, rfl⟩

/-- Every `ServerInfo` that `fetchDoHServerInfo` returns lacks a TCP address. -/
theorem fetchDoH_no_tcp (deps : Deps) (proxy : Proxy) (name : String) (stamp : ServerStamp)
    (isNew : Bool) (g g1 : Rng) (info : ServerInfo) (xt : XTransport)
    (h : fetchDoHServerInfo deps proxy name stamp isNew g = .ok (.ok info, xt, g1)) :
    info.TCPAddr = none ∧ info.Proto = .DoH := by
  unfold fetchDoHServerInfo at h
  cases hq : dohQueries deps proxy name stamp g with
  | stop why => rw [hq] at h; cases h
  | ok res =>
    obtain ⟨r, xt1, g2⟩ := res
    rw [hq] at h
    cases r with
    | error err => cases h
    | ok answer =>
      simp only at h
      cases hc : dohChecks deps proxy name stamp answer with
      | stop why => rw [hc] at h; cases h
      | ok result =>
        rw [hc] at h
        simp only [Res.ok.injEq, Prod.mk.injEq] at h
        rw [h.1] at hc
        exact dohChecks_no_tcp deps proxy name stamp answer info hc

/-- One country's loop, entered with a candidate that has no TCP address, dereferences
the nil pointer at the first address. -/
theorem laAddresses_no_tcp (env : Env) (s : ServersInfo) (n : Int)
    (l : List (String × List String)) (st : LaState) (hl : l ≠ [])
    (hst : st.serverInfo.TCPAddr = none) :
    laAddresses env s n l st = .stop .nilDereference := by
  cases l with
  | nil => exact absurd rfl hl
  | cons kv rest =>
    obtain ⟨key, val⟩ := kv
    unfold laAddresses
    rw [hst]

/-- A pass over a table that lists an address, entered with a candidate that has no TCP
address, dereferences the nil pointer. -/
theorem laCountries_no_tcp (env : Env) (s : ServersInfo) (n : Int)
    (l : List (String × List (String × List String))) (st : LaState)
    (hl : ∃ country ∈ l, country.2 ≠ []) (hst : st.serverInfo.TCPAddr = none) :
    laCountries env s n l st = .stop .nilDereference := by
  induction l with
  | nil =>
    obtain ⟨country, hc, -⟩ := hl
    cases hc
  | cons kv rest ih =>
    obtain ⟨k, v⟩ := kv
    unfold laCountries
    by_cases hv : v = []
    · subst hv
      simp only [laAddresses]
      apply ih
      obtain ⟨country, hc, hne⟩ := hl
      rcases List.mem_cons.1 hc with h1 | h1
      · rw [h1] at hne
        exact absurd rfl hne
      · exact ⟨country, h1, hne⟩
    · rw [laAddresses_no_tcp env s n v st hv hst]

/-- Under policy `la`, a `getOne` on a non-empty live list whose entries have no TCP
address dereferences a nil pointer in its first pass over a table that lists an
address. -/
theorem getOne_la_no_tcp (env : Env) (fuel : Nat) (s : ServersInfo) (qName : String)
    (now : Int) (g : Rng) (hla : s.lbStrategyStr = "la") (hne : s.inner ≠ [])
    (hpn : ∀ j, s.lbStrategy = .PN j → 1 ≤ j)
    (hl : ∃ country ∈ env.denylistRange 0, country.2 ≠ [])
    (hall : ∀ e ∈ s.inner, e.TCPAddr = none) :
    getOne env (fuel + 1) s qName now g = .stop .nilDereference := by
  obtain ⟨s2, g2, he, hlen, hstrat, hstr, -⟩ := getOne_estimator s now g hne
  have hall2 : ∀ e ∈ s2.inner, e.TCPAddr = none := by
    have hp : (s2.inner.map (fun e => e.TCPAddr)).Perm (s.inner.map (fun e => e.TCPAddr)) := by
      split at he
      · exact estimatorUpdate_map_perm (fun e => e.TCPAddr) (fun _ _ => rfl) _ _ _ _ _ he
      · simp only [Res.ok.injEq, Prod.mk.injEq] at he
        rw [← he.1]
    intro e hmem
    have h1 : e.TCPAddr ∈ s.inner.map (fun e => e.TCPAddr) :=
      hp.mem_iff.1 (List.mem_map_of_mem _ hmem)
    obtain ⟨e1, he1, heq⟩ := List.mem_map.1 h1
    rw [← heq]
    exact hall e1 he1
  have hpos : 0 < s.inner.length := List.length_pos.2 hne
  have hn : (1 : Int) ≤ (s.inner.length : Int) := by omega
  have hpn2 : ∀ j, s2.lbStrategy = .PN j → 1 ≤ j := by
    rw [hstrat]
    exact hpn
  have hla2 : s2.lbStrategyStr = "la" := hstr.trans hla
  rw [getOne_after_estimator env (fuel + 1) s s2 qName now g g2 hne he]
  obtain ⟨c, g3, hc⟩ := getCandidate_total s2.lbStrategy (s.inner.length : Int) g2 hn hpn2
  have hsw : switchCandidate env s2 (s.inner.length : Int) qName g2 = .ok (some c, g3) := by
    unfold switchCandidate
    rw [hla2, if_neg (by decide), if_neg (by decide), hc]
  rw [hsw]
  simp only
  obtain ⟨c1, g4, hc1⟩ := getCandidate_total s2.lbStrategy (s.inner.length : Int) g3 hn hpn2
  obtain ⟨h0, h1⟩ := getCandidate_ok _ _ _ _ _ hn hc1
  obtain ⟨e1, hix, hat⟩ := index_of_lt s2.inner c1 h0 (by omega)
  have hloop : laLoop env s2 (s.inner.length : Int) (fuel + 1) 0
      { candidate := c1, serverInfo := e1, changed := false, g := g4 } =
        .stop .nilDereference := by
    unfold laLoop
    rw [laCountries_no_tcp env s2 _ _ _ hl (hall2 e1 (List.getElem?_mem hat))]
  unfold locationAvoidant
  rw [if_pos hla2, hc1]
  simp only
  rw [hix]
  simp only
  rw [hloop]

/-- The registry `dohLive` is reachable. -/
theorem reachable_dohLive : Reachable dohLive := by
  have hr : Reachable registeredDoh :=
    Reachable.registerServer "doh" pinnedStamp (Reachable.init .P2 "la" false)
  unfold dohLive
  cases h : refresh (fun _ => sampleProbe) registeredDoh with
  | stop why => exact hr
  | ok r => exact Reachable.refresh _ r.2.1 r.2.2 hr h

/-- C25 fails on the code. Every `ServerInfo` that `fetchDoHServerInfo` returns lacks a
TCP address. In the reachable registry `dohLive`, with policy `la` and the DoH server
`doh` live after a refresh that probed it with `fetchDoHServerInfo`, every `getOne`
that is given at least one pass stops with a nil pointer dereference: the comparison
with the deny table reads `TCPAddr.IP` of the chosen entry. In general, under policy
`la` every `getOne` on a non-empty live list whose entries have no TCP address stops so
in its first pass over a table that lists an address. -/
theorem la_dereferences_missing_address :
    (∀ deps proxy name stamp isNew g g1 info xt,
      fetchDoHServerInfo deps proxy name stamp isNew g = .ok (.ok info, xt, g1) →
      info.TCPAddr = none) ∧
    Reachable dohLive ∧ dohLive.lbStrategyStr = "la" ∧
    dohLive.inner.map (fun e => (e.Name, e.Proto, e.TCPAddr)) = [("doh", .DoH, none)] ∧
    (∀ fuel qName now g,
      getOne goEnv (fuel + 1) dohLive qName now g = .stop .nilDereference) ∧
    (∀ (env : Env) (fuel : Nat) (s : ServersInfo) (qName : String) (now : Int) (g : Rng),
      s.lbStrategyStr = "la" → s.inner ≠ [] → (∀ j, s.lbStrategy = .PN j → 1 ≤ j) →
      (∃ country ∈ env.denylistRange 0, country.2 ≠ []) →
      (∀ e ∈ s.inner, e.TCPAddr = none) →
      getOne env (fuel + 1) s qName now g = .stop .nilDereference) := by
  have hinner : dohLive.inner.map (fun e => (e.Name, e.Proto, e.TCPAddr)) =
      [("doh", .DoH, none)] := by decide!
  have hstrat : dohLive.lbStrategy = .P2 := by decide!
  have hstr : dohLive.lbStrategyStr = "la" := by decide!
  refine ⟨?_, reachable_dohLive, hstr, hinner, ?_, ?_⟩
  · intro deps proxy name stamp isNew g g1 info xt h
    exact (fetchDoH_no_tcp deps proxy name stamp isNew g g1 info xt h).1
  · intro fuel qName now g
    apply getOne_la_no_tcp goEnv fuel dohLive qName now g hstr
    · intro hnil
      rw [hnil] at hinner
      cases hinner
    · intro j hj
      rw [hstrat] at hj
      cases hj
    · exact ⟨("af", _), List.mem_cons_self _ _, by decide⟩
    · intro e he
      have hm : (e.Name, e.Proto, e.TCPAddr) ∈
          dohLive.inner.map (fun e => (e.Name, e.Proto, e.TCPAddr)) :=
        List.mem_map_of_mem (fun e => (e.Name, e.Proto, e.TCPAddr)) he
      rw [hinner] at hm
      simp only [List.mem_singleton, Prod.mk.injEq] at hm
      exact hm.2.2
  · intro env fuel s qName now g hla hne hpn hl hall
    exact getOne_la_no_tcp env fuel s qName now g hla hne hpn hl hall

end DnscryptProxy
